import Mathlib

/-!
# c_expr: tokenizer, recursive-descent parser and evaluator

A shallow embedding of `src/c_expr/expr.c` (with `expr.h` and `ast.h`), then theorems about it.

Conventions of the embedding.

* A C `double` is a Lean `Float`; `+ - * /` and unary minus are the operations of `Float`, and
  no proof looks into them.
* A C `char` is a `Char`. A `const char*` into a text buffer is the list of the characters from
  the pointed position to the end of the buffer; the buffer ends with an implicit NUL
  terminator, so reading at the empty list yields NUL. `p++` is `List.tail`, `*p` is
  `List.headD p NUL`, and two pointers into the same buffer compare by the lengths of what
  remains (`p < q` iff `q.length < p.length`).
* A `void*` to an AST node is a `NodePtr`: `null` or one of the node structs of `ast.h`.
* `malloc` is taken to succeed; `free` is represented only in `cexpr_free_expression_impl`, by
  the pointers it is called with.
* The functions that loop or recurse on the token stream take a fuel argument and return `none`
  when it runs out; `cexpr_parce_3_level_total` shows that the fuel handed over by
  `cexpr_parce_impl` is always enough.
* A lookup in the binding tables returns `none` where the C code dereferences a null pointer or
  reads a table out of its bounds.
* The array of a binding table is the list of all its elements, those past the recorded size
  included; the functions that append to a table return `none` where a copy would leave an
  array.

The definitions of the code come first, then the notions the theorems are stated with, then the
theorems.
-/

namespace CExpr

/-! ## Characters (the `<ctype.h>` predicates in the C locale) -/

/-- The NUL character, the terminator of a C string. -/
def NUL : Char := Char.ofNat 0

/-- C `isspace` in the C locale: space, `\t`, `\n`, `\v`, `\f`, `\r`. -/
def isspace (c : Char) : Bool :=
  c == ' ' || c == '\t' || c == '\n' || c == Char.ofNat 11 || c == Char.ofNat 12 || c == '\r'

/-- C `isdigit`. -/
def isdigit (c : Char) : Bool := decide ('0' ≤ c) && decide (c ≤ '9')

/-- C `isalpha` in the C locale. -/
def isalpha (c : Char) : Bool :=
  (decide ('a' ≤ c) && decide (c ≤ 'z')) || (decide ('A' ≤ c) && decide (c ≤ 'Z'))

/-- C `isalnum` in the C locale. -/
def isalnum (c : Char) : Bool := isalpha c || isdigit c

/-- C `strlen`: the number of characters before the first NUL. -/
def strlen (s : List Char) : Nat := (s.takeWhile (fun c => c != NUL)).length

/-! ## `strtod` -/

/-- The value of a string of decimal digits, most significant first, continuing from `acc`. -/
def digits_value (acc : Nat) : List Char → Nat
  | [] => acc
  | c :: cs => digits_value (10 * acc + (c.toNat - '0'.toNat)) cs

/-- The double nearest to `m * 10 ^ e`. -/
def decimal_to_double (m : Nat) (e : Int) : Float :=
  if e < 0 then Float.ofScientific m true e.natAbs else Float.ofScientific m false e.natAbs

/-- The exponent part that `strtod` reads at `p`, if there is one: `e` or `E`, an optional sign
and at least one digit. Returns the exponent and the rest; without a complete exponent part
nothing is consumed. -/
def strtod_exponent (p : List Char) : Int × List Char :=
  match p with
  | [] => (0, p)
  | c :: r =>
    if c == 'e' || c == 'E' then
      let neg := r.head? == some '-'
      let r1 := if r.head? == some '-' || r.head? == some '+' then r.tail else r
      let ed := r1.takeWhile isdigit
      if ed.isEmpty then (0, p)
      else ((if neg then -(digits_value 0 ed : Int) else (digits_value 0 ed : Int)),
            r1.dropWhile isdigit)
    else (0, p)

/-- Modelled from the spec: the C library's `strtod(p, &p)`, which is not part of the
repository, as called by the tokenizer at a digit or `.` (so neither leading whitespace nor a sign
is present). "Parsing follows standard decimal floating-point syntax (integer part, optional
fractional part, optional signed exponent with `e`/`E`)"; it "consumes all characters recognised
as part of the numeric literal". Returns the value and the end pointer. When there is no digit in
the integer and fractional parts no conversion is performed: the value is zero and the end pointer
is `p` itself. The scan is bounded only by the buffer, never by the tokenizer's `str_end`. The
hexadecimal forms of the C library are outside the syntax the spec gives and are left out. -/
def strtod (p : List Char) : Float × List Char :=
  let ip := p.takeWhile isdigit
  let r1 := p.dropWhile isdigit
  let dot := r1.head? == some '.'
  let fp := if dot then r1.tail.takeWhile isdigit else []
  let r2 := if dot then r1.tail.dropWhile isdigit else r1
  if ip.isEmpty && fp.isEmpty then (0, p)
  else
    let ex := strtod_exponent r2
    (decimal_to_double (digits_value 0 (ip ++ fp)) (ex.1 - (fp.length : Int)), ex.2)

/-! ## Tokenizer -/

/-- The `enum CExprTokenType`. -/
inductive CExprTokenType where
  | TK_INVALID
  | TK_CHAR
  | TK_NUMBER
  | TK_ID
  | TK_EOF
deriving DecidableEq, Repr

open CExprTokenType

/-- The `struct CExprTokenizer`. The three text pointers are suffixes of one buffer. -/
structure CExprTokenizer where
  str_beg : List Char
  str_cur : List Char
  str_end : List Char
  cur_token_type : CExprTokenType
  char_token_value : Char
  is_valid : Bool
  id_token_length : Nat
  id_token_begin : List Char
  number_token_value : Float

/-- The loop `while (str_cur < str_end && p(*str_cur)) str_cur++`, on the cursor `cur`, where
`end_len` is the length of what remains at `str_end`. -/
def advance_while (p : Char → Bool) (end_len : Nat) : List Char → List Char
  | [] => []
  | c :: cs => if end_len < (c :: cs).length && p c then advance_while p end_len cs else c :: cs

/-- The characters of the single-character tokens: `+ - * / , ( )`. -/
def is_char_token (c : Char) : Bool :=
  c == '+' || c == '-' || c == '*' || c == '/' || c == ',' || c == '(' || c == ')'

/-- `cexpr_parse_next_token`: skip whitespace, then read one token at the cursor. -/
def cexpr_parse_next_token (tk0 : CExprTokenizer) : CExprTokenizer :=
  let tk := { tk0 with str_cur := advance_while isspace tk0.str_end.length tk0.str_cur }
  if tk.str_cur.length = tk.str_end.length then
    { tk with cur_token_type := TK_EOF }
  else
    let c := tk.str_cur.headD NUL
    if is_char_token c then
      { tk with cur_token_type := TK_CHAR, char_token_value := c, str_cur := tk.str_cur.tail }
    else if c == '.' || isdigit c then
      { tk with cur_token_type := TK_NUMBER,
                number_token_value := (strtod tk.str_cur).1,
                str_cur := (strtod tk.str_cur).2 }
    else if isalpha c || c == '_' then
      let cur := advance_while (fun d => isalnum d || d == '_') tk.str_end.length tk.str_cur.tail
      { tk with id_token_begin := tk.str_cur,
                cur_token_type := TK_ID,
                str_cur := cur,
                id_token_length := tk.str_cur.length - cur.length }
    else
      { tk with cur_token_type := TK_INVALID }

/-! ## AST (`ast.h`) -/

/-- The `enum CExprOperatorType`; the field `operator_type` is a C `int`. -/
abbrev CEXPR_OPERATOR_ADD : Nat := 0
/-- See `CEXPR_OPERATOR_ADD`. -/
abbrev CEXPR_OPERATOR_SUB : Nat := 1
/-- See `CEXPR_OPERATOR_ADD`. -/
abbrev CEXPR_OPERATOR_MUL : Nat := 2
/-- See `CEXPR_OPERATOR_ADD`. -/
abbrev CEXPR_OPERATOR_DIV : Nat := 3
/-- See `CEXPR_OPERATOR_ADD`. -/
abbrev CEXPR_OPERATOR_MINUS : Nat := 4
/-- See `CEXPR_OPERATOR_ADD`. -/
abbrev CEXPR_OPERATOR_PLUS : Nat := 5

/-- A `void*` to an AST node: the null pointer, or a node of one of the struct types of `ast.h`,
the constructor standing for the `node_type` tag. A name is the pointer into the source text (the
text from the name on) together with `name_len`. -/
inductive NodePtr where
  | null
  | operator (operator_type : Nat) (l_node r_node : NodePtr)
  | literal (value : Float)
  | variable (variable_name : List Char) (name_len : Nat)
  | function_call0 (function_name : List Char) (name_len : Nat)
  | function_call1 (function_name : List Char) (name_len : Nat) (arg0 : NodePtr)
  | function_call2 (function_name : List Char) (name_len : Nat) (arg0 arg1 : NodePtr)
  | function_call3 (function_name : List Char) (name_len : Nat) (arg0 arg1 arg2 : NodePtr)

/-- The test `!expr` on a node pointer. -/
def NodePtr.isNull : NodePtr → Bool
  | .null => true
  | _ => false

/-! ## Parser -/

/-- The test `tk->cur_token_type == TK_CHAR && tk->char_token_value == c`. -/
def CExprTokenizer.at_char (tk : CExprTokenizer) (c : Char) : Bool :=
  tk.cur_token_type == TK_CHAR && tk.char_token_value == c

/-- The `switch (args_count)` of `cexpr_parce_0_level` that builds the call node from the
collected arguments. An `args_count` without a case leaves the switch and reaches the final
`tk->is_valid = false; return 0;` of the function. -/
def cexpr_make_call (name : List Char) (len : Nat) (args : List NodePtr) (tk : CExprTokenizer) :
    NodePtr × CExprTokenizer :=
  match args with
  | [] => (.function_call0 name len, tk)
  | [a0] => (.function_call1 name len a0, tk)
  | [a0, a1] => (.function_call2 name len a0 a1, tk)
  | [a0, a1, a2] => (.function_call3 name len a0 a1 a2, tk)
  | _ => (.null, { tk with is_valid := false })

mutual

/-- `cexpr_parce_0_level`: number | brackets | variable | function call. -/
def cexpr_parce_0_level : Nat → CExprTokenizer → Option (NodePtr × CExprTokenizer)
  | 0, _ => none
  | fuel + 1, tk =>
    if tk.cur_token_type = TK_NUMBER then
      some (.literal tk.number_token_value, cexpr_parse_next_token tk)
    else if tk.at_char '(' then
      match cexpr_parce_3_level fuel (cexpr_parse_next_token tk) with
      | none => none
      | some (node, tk1) =>
        if tk1.at_char ')' then some (node, cexpr_parse_next_token tk1)
        else some (node, { tk1 with is_valid := false })
    else if tk.cur_token_type = TK_ID then
      let name := tk.id_token_begin
      let len := tk.id_token_length
      let tk1 := cexpr_parse_next_token tk
      if tk1.at_char '(' then
        match cexpr_parce_args fuel [] (cexpr_parse_next_token tk1) with
        | none => none
        | some (args, tk2) => some (cexpr_make_call name len args tk2)
      else
        some (.variable name len, tk1)
    else
      some (.null, { tk with is_valid := false })

/-- The `while (true)` loop of `cexpr_parce_0_level` that collects the arguments of a call;
`args` holds the `args_count` pointers stored so far in `args[3]`. -/
def cexpr_parce_args : Nat → List NodePtr → CExprTokenizer →
    Option (List NodePtr × CExprTokenizer)
  | 0, _, _ => none
  | fuel + 1, args, tk =>
    match cexpr_parce_3_level fuel tk with
    | none => none
    | some (node, tk1) =>
      let args1 := args ++ [node]
      if tk1.at_char ',' then
        if args1.length = 3 then some (args1, { tk1 with is_valid := false })
        else cexpr_parce_args fuel args1 (cexpr_parse_next_token tk1)
      else if tk1.at_char ')' then some (args1, cexpr_parse_next_token tk1)
      else some (args1, { tk1 with is_valid := false })

/-- `cexpr_parce_1_level`: unary operators + | -. -/
def cexpr_parce_1_level : Nat → CExprTokenizer → Option (NodePtr × CExprTokenizer)
  | 0, _ => none
  | fuel + 1, tk =>
    if tk.at_char '+' || tk.at_char '-' then
      let op_type := if tk.char_token_value == '+' then CEXPR_OPERATOR_PLUS
                     else CEXPR_OPERATOR_MINUS
      match cexpr_parce_0_level fuel (cexpr_parse_next_token tk) with
      | none => none
      | some (l_node, tk1) => some (.operator op_type l_node .null, tk1)
    else
      cexpr_parce_0_level fuel tk

/-- The `while` loop of `cexpr_parce_2_level`, entered with `cur_node`. -/
def cexpr_parce_2_loop : Nat → NodePtr → CExprTokenizer → Option (NodePtr × CExprTokenizer)
  | 0, _, _ => none
  | fuel + 1, cur_node, tk =>
    if tk.at_char '*' || tk.at_char '/' then
      let op_type := if tk.char_token_value == '*' then CEXPR_OPERATOR_MUL
                     else CEXPR_OPERATOR_DIV
      match cexpr_parce_1_level fuel (cexpr_parse_next_token tk) with
      | none => none
      | some (r_node, tk1) => cexpr_parce_2_loop fuel (.operator op_type cur_node r_node) tk1
    else
      some (cur_node, tk)

/-- `cexpr_parce_2_level`: binary * | /. -/
def cexpr_parce_2_level : Nat → CExprTokenizer → Option (NodePtr × CExprTokenizer)
  | 0, _ => none
  | fuel + 1, tk =>
    match cexpr_parce_1_level fuel tk with
    | none => none
    | some (cur_node, tk1) => cexpr_parce_2_loop fuel cur_node tk1

/-- The `while` loop of `cexpr_parce_3_level`, entered with `cur_node`. -/
def cexpr_parce_3_loop : Nat → NodePtr → CExprTokenizer → Option (NodePtr × CExprTokenizer)
  | 0, _, _ => none
  | fuel + 1, cur_node, tk =>
    if tk.at_char '+' || tk.at_char '-' then
      let op_type := if tk.char_token_value == '+' then CEXPR_OPERATOR_ADD
                     else CEXPR_OPERATOR_SUB
      match cexpr_parce_2_level fuel (cexpr_parse_next_token tk) with
      | none => none
      | some (r_node, tk1) => cexpr_parce_3_loop fuel (.operator op_type cur_node r_node) tk1
    else
      some (cur_node, tk)

/-- `cexpr_parce_3_level`: binary + | -. -/
def cexpr_parce_3_level : Nat → CExprTokenizer → Option (NodePtr × CExprTokenizer)
  | 0, _ => none
  | fuel + 1, tk =>
    match cexpr_parce_2_level fuel tk with
    | none => none
    | some (cur_node, tk1) => cexpr_parce_3_loop fuel cur_node tk1

end

/-- The fuel `cexpr_parce_impl` hands to `cexpr_parce_3_level` for a buffer `str`. -/
def cexpr_parce_fuel (str : List Char) : Nat := 10 * str.length + 10

/-- The tokenizer as `cexpr_parce_impl` sets it up (`tk = {0}`, the three pointers, `is_valid`)
before it reads the first token. -/
def cexpr_tokenizer_init (str : List Char) (len : Nat) : CExprTokenizer :=
  { str_beg := str, str_cur := str, str_end := str.drop len,
    cur_token_type := TK_INVALID, char_token_value := NUL, is_valid := true,
    id_token_length := 0, id_token_begin := [], number_token_value := 0 }

/-- The node and the tokenizer that `cexpr_parce_impl` has after `cexpr_parce_3_level`. -/
def cexpr_parce_run (str : List Char) (len : Nat) : Option (NodePtr × CExprTokenizer) :=
  cexpr_parce_3_level (cexpr_parce_fuel str) (cexpr_parse_next_token (cexpr_tokenizer_init str len))

/-- `cexpr_parce_impl`. The pointer `str` is not null (`cexpr_parse_expression_len` asserts it).
`cexpr_free_expression_impl` only releases memory. -/
def cexpr_parce_impl (str : List Char) (len : Nat) : NodePtr :=
  if len = 0 then .null
  else
    match cexpr_parce_run str len with
    | none => .null
    | some (ret, tk) => if !tk.is_valid then .null else ret

/-- `cexpr_parse_expression_len`; the result is the `root` of the `CExprParsedExpression`. -/
def cexpr_parse_expression_len (expr_str : List Char) (str_len : Nat) : NodePtr :=
  cexpr_parce_impl expr_str str_len

/-- `cexpr_parse_expression`. -/
def cexpr_parse_expression (expr_str : List Char) : NodePtr :=
  cexpr_parse_expression_len expr_str (strlen expr_str)

/-! ## Binding environment (`expr.h`) -/

/-- The C macro `NAN`. -/
def NAN : Float := 0.0 / 0.0

/-- A host function behind the opaque `f_ptr`: it is called with the evaluated arguments. -/
abbrev HostFn : Type := List Float → Float

/-- The `struct CExprVariableBindDesc`: `name` is a C string (its characters, or `none` for the
null pointer), `value` the address of the caller-owned cell (`none` for the null pointer). -/
structure CExprVariableBindDesc where
  name : Option (List Char)
  value : Option Nat

/-- The `struct CExprConstantBindDesc`. -/
structure CExprConstantBindDesc where
  name : Option (List Char)
  value : Float

/-- The `struct CExprFunctionBindDesc`; `args_count` is a C `short`. -/
structure CExprFunctionBindDesc where
  name : Option (List Char)
  f_ptr : Option HostFn
  args_count : Int

/-- The `struct CExprExecutor`. A table pointer is `none` when null, else the entries of the
array it points to. -/
structure CExprExecutor where
  m_var : Option (List CExprVariableBindDesc)
  m_const : Option (List CExprConstantBindDesc)
  m_fun : Option (List CExprFunctionBindDesc)
  m_var_size : Nat
  m_const_size : Nat
  m_fun_size : Nat
  m_var_capacity : Nat
  m_const_capacity : Nat
  m_fun_capacity : Nat

/-- `CEXPR_BUILTIN_FUNCTIONS_COUNT` of `expr.h`. -/
def CEXPR_BUILTIN_FUNCTIONS_COUNT : Nat := 20

/-- `CEXPR_BUILTIN_CONSTANTS_COUNT` of `expr.h`. -/
def CEXPR_BUILTIN_CONSTANTS_COUNT : Nat := 2

/-- The C library's `sqrt` behind a `void*`, called with one argument. -/
def host_sqrt : HostFn := fun args =>
  match args with
  | [x] => Float.sqrt x
  | _ => NAN

/-- The array `__cexpr_buitin_functions[CEXPR_BUILTIN_FUNCTIONS_COUNT]`: one initialiser, the
remaining elements are zero-initialised. -/
def __cexpr_buitin_functions : List CExprFunctionBindDesc :=
  { name := some "sqrt".toList, f_ptr := some host_sqrt, args_count := 1 } ::
    List.replicate (CEXPR_BUILTIN_FUNCTIONS_COUNT - 1) { name := none, f_ptr := none, args_count := 0 }

/-- The array `__cexpr_buitin_constants[CEXPR_BUILTIN_CONSTANTS_COUNT]`: one initialiser, the
remaining elements are zero-initialised. -/
def __cexpr_buitin_constants : List CExprConstantBindDesc :=
  { name := some "pi".toList, value := 3.14159265358979323846 } ::
    List.replicate (CEXPR_BUILTIN_CONSTANTS_COUNT - 1) { name := none, value := 0 }

/-- The built-in executor `__cexpr_buitin_executor`. -/
def __cexpr_buitin_executor : CExprExecutor :=
  { m_var := none, m_const := some __cexpr_buitin_constants, m_fun := some __cexpr_buitin_functions,
    m_var_size := 0, m_const_size := CEXPR_BUILTIN_CONSTANTS_COUNT,
    m_fun_size := CEXPR_BUILTIN_FUNCTIONS_COUNT,
    m_var_capacity := 0, m_const_capacity := CEXPR_BUILTIN_CONSTANTS_COUNT,
    m_fun_capacity := CEXPR_BUILTIN_FUNCTIONS_COUNT }

/-! ## Name lookup

A lookup returns `none` when the scan dereferences a null pointer or reads an array out of its
bounds (undefined behaviour in C), else `some` of the C return value. A query name is never the
null pointer here, so the guard on it is not represented. -/

/-- The inner loop `for (j = 0; j < name_len; j++) if (!cur[j] || cur[j] != name[j]) ...` of the
three lookups, with `n` iterations left from index `j`: the final value of `is_ok`. -/
def cexpr_name_loop (cur name : List Char) : Nat → Nat → Bool
  | 0, _ => true
  | n + 1, j =>
    if cur.getD j NUL == NUL || cur.getD j NUL != name.getD j NUL then false
    else cexpr_name_loop cur name n (j + 1)

/-- The test `is_ok && !cur[name_len]` after the inner loop. -/
def cexpr_name_matches (cur name : List Char) (name_len : Nat) : Bool :=
  cexpr_name_loop cur name name_len 0 && cur.getD name_len NUL == NUL

/-- The outer loop of `cexpr_find_variable_by_name`, with `n` iterations left from index `i`. -/
def cexpr_find_variable_loop (m_var : Option (List CExprVariableBindDesc))
    (var_name : List Char) (name_len : Nat) : Nat → Nat → Option (Option Nat)
  | 0, _ => some none
  | n + 1, i =>
    match m_var with
    | none => none
    | some arr =>
      match arr[i]? with
      | none => none
      | some d =>
        match d.name with
        | none => none
        | some cur_var =>
          if cexpr_name_matches cur_var var_name name_len then some d.value
          else cexpr_find_variable_loop m_var var_name name_len n (i + 1)

/-- `cexpr_find_variable_by_name`: the cell pointer of the first matching entry, else null. -/
def cexpr_find_variable_by_name (exec : Option CExprExecutor) (var_name : List Char)
    (name_len : Nat) : Option (Option Nat) :=
  match exec with
  | none => some none
  | some e =>
    if name_len = 0 then some none
    else cexpr_find_variable_loop e.m_var var_name name_len e.m_var_size 0

/-- The outer loop of `cexpr_find_counstant_by_name`, with `n` iterations left from index `i`. -/
def cexpr_find_counstant_loop (m_const : Option (List CExprConstantBindDesc))
    (const_name : List Char) (name_len : Nat) : Nat → Nat → Option Float
  | 0, _ => some NAN
  | n + 1, i =>
    match m_const with
    | none => none
    | some arr =>
      match arr[i]? with
      | none => none
      | some d =>
        match d.name with
        | none => none
        | some cur_const =>
          if cexpr_name_matches cur_const const_name name_len then some d.value
          else cexpr_find_counstant_loop m_const const_name name_len n (i + 1)

/-- `cexpr_find_counstant_by_name`: the value of the first matching entry, else `NAN`. -/
def cexpr_find_counstant_by_name (exec : Option CExprExecutor) (const_name : List Char)
    (name_len : Nat) : Option Float :=
  match exec with
  | none => some NAN
  | some e =>
    if name_len = 0 then some NAN
    else cexpr_find_counstant_loop e.m_const const_name name_len e.m_const_size 0

/-- The outer loop of `cexpr_find_function_by_name`, with `n` iterations left from index `i`. The
`size_t args_count` is compared with the `short` of the entry converted to `size_t`. -/
def cexpr_find_function_loop (m_fun : Option (List CExprFunctionBindDesc)) (args_count : Nat)
    (fn_name : List Char) (name_len : Nat) : Nat → Nat → Option (Option HostFn)
  | 0, _ => some none
  | n + 1, i =>
    match m_fun with
    | none => none
    | some arr =>
      match arr[i]? with
      | none => none
      | some d =>
        if (args_count : Int) != d.args_count % 2 ^ 64 then
          cexpr_find_function_loop m_fun args_count fn_name name_len n (i + 1)
        else
          match d.name with
          | none => none
          | some cur_fn =>
            if cexpr_name_matches cur_fn fn_name name_len then some d.f_ptr
            else cexpr_find_function_loop m_fun args_count fn_name name_len n (i + 1)

/-- `cexpr_find_function_by_name`: the `f_ptr` of the first entry of that arity and name, else
null. -/
def cexpr_find_function_by_name (exec : Option CExprExecutor) (args_count : Nat)
    (fn_name : List Char) (name_len : Nat) : Option (Option HostFn) :=
  match exec with
  | none => some none
  | some e =>
    if name_len = 0 then some none
    else cexpr_find_function_loop e.m_fun args_count fn_name name_len e.m_fun_size 0

/-! ## Evaluator -/

/-- The inner `switch (operator_type)` of `cexpr_eval_expression_impl` on the two operands. -/
def cexpr_apply_operator (operator_type : Nat) (l r : Float) : Float :=
  if operator_type = CEXPR_OPERATOR_ADD then l + r
  else if operator_type = CEXPR_OPERATOR_SUB then l - r
  else if operator_type = CEXPR_OPERATOR_MUL then l * r
  else if operator_type = CEXPR_OPERATOR_DIV then l / r
  else if operator_type = CEXPR_OPERATOR_PLUS then l
  else if operator_type = CEXPR_OPERATOR_MINUS then -l
  else NAN

/-- `cexpr_eval_expression_impl`. `mem` is the memory of the caller-owned cells, by address. The
result is `none` when a lookup dereferences a null pointer or leaves its table. -/
def cexpr_eval_expression_impl (mem : Nat → Float) (exec : Option CExprExecutor) :
    NodePtr → Option Float
  | .null => some NAN
  | .operator operator_type l_node r_node =>
    match cexpr_eval_expression_impl mem exec l_node with
    | none => none
    | some l =>
      match cexpr_eval_expression_impl mem exec r_node with
      | none => none
      | some r => some (cexpr_apply_operator operator_type l r)
  | .literal value => some value
  | .variable name len =>
    match cexpr_find_variable_by_name exec name len with
    | none => none
    | some (some var_ptr) => some (mem var_ptr)
    | some none => cexpr_find_counstant_by_name exec name len
  | .function_call0 name len =>
    match cexpr_find_function_by_name exec 0 name len with
    | none => none
    | some none => some NAN
    | some (some cur_fn) => some (cur_fn [])
  | .function_call1 name len a0 =>
    match cexpr_find_function_by_name exec 1 name len with
    | none => none
    | some none => some NAN
    | some (some cur_fn) =>
      match cexpr_eval_expression_impl mem exec a0 with
      | none => none
      | some arg0 => some (cur_fn [arg0])
  | .function_call2 name len a0 a1 =>
    match cexpr_find_function_by_name exec 2 name len with
    | none => none
    | some none => some NAN
    | some (some cur_fn) =>
      match cexpr_eval_expression_impl mem exec a0 with
      | none => none
      | some arg0 =>
        match cexpr_eval_expression_impl mem exec a1 with
        | none => none
        | some arg1 => some (cur_fn [arg0, arg1])
  | .function_call3 name len a0 a1 a2 =>
    match cexpr_find_function_by_name exec 3 name len with
    | none => none
    | some none => some NAN
    | some (some cur_fn) =>
      match cexpr_eval_expression_impl mem exec a0 with
      | none => none
      | some arg0 =>
        match cexpr_eval_expression_impl mem exec a1 with
        | none => none
        | some arg1 =>
          match cexpr_eval_expression_impl mem exec a2 with
          | none => none
          | some arg2 => some (cur_fn [arg0, arg1, arg2])

/-- `cexpr_executor_eval_expr`, on the root of the parsed expression. -/
def cexpr_executor_eval_expr (mem : Nat → Float) (exec : Option CExprExecutor) (root : NodePtr) :
    Option Float :=
  cexpr_eval_expression_impl mem exec root

/-- `cexpr_eval_expr`: evaluation with the built-in executor. -/
def cexpr_eval_expr (mem : Nat → Float) (root : NodePtr) : Option Float :=
  cexpr_executor_eval_expr mem (some __cexpr_buitin_executor) root

/-- `cexpr_eval`: parse, evaluate with the built-in executor, release. -/
def cexpr_eval (mem : Nat → Float) (expr_str : List Char) : Option Float :=
  cexpr_eval_expr mem (cexpr_parse_expression expr_str)

/-! ## Building an executor

An array is the list of its elements. `malloc` is taken to succeed; what a fresh block holds is
not specified by C and is given here by `fresh`, element by element. A copy returns `none` where
`memcpy` would read or write outside an array; so does an allocation or a copy whose byte count
does not fit `size_t`: arrays of that size do not exist, and the wrapped count is not followed.
The sums and the product that the code computes on `size_t` values itself are taken modulo
`2 ^ 64`. -/

/-- `sizeof(CExprVariableBindDesc)`: two pointers of 8 bytes. -/
abbrev sizeof_CExprVariableBindDesc : Nat := 16

/-- `sizeof(CExprConstantBindDesc)`: a pointer and a double. -/
abbrev sizeof_CExprConstantBindDesc : Nat := 16

/-- `sizeof(CExprFunctionBindDesc)`: two pointers and a short, padded to a multiple of 8. -/
abbrev sizeof_CExprFunctionBindDesc : Nat := 24

/-- `(T*)malloc(count * sizeof(T))`: a fresh array of `count` elements of `elem_size` bytes. -/
def malloc_array {α : Type} (fresh : Nat → α) (count elem_size : Nat) : Option (List α) :=
  if count * elem_size < 2 ^ 64 then some ((List.range count).map fresh) else none

/-- `memcpy(dst + off, src, count * sizeof(T))` on arrays of elements of `elem_size` bytes: the
array `dst` afterwards. -/
def memcpy_at {α : Type} (elem_size : Nat) (dst : List α) (off : Nat) (src : List α)
    (count : Nat) : Option (List α) :=
  if count * elem_size < 2 ^ 64 ∧ count ≤ src.length ∧ off + count ≤ dst.length then
    some (dst.take off ++ src.take count ++ dst.drop (off + count))
  else none

/-- `cexpr_executor_init`: `memset(exec, 0, sizeof(CExprExecutor))`. -/
def cexpr_executor_init (_exec : CExprExecutor) : CExprExecutor :=
  { m_var := none, m_const := none, m_fun := none,
    m_var_size := 0, m_const_size := 0, m_fun_size := 0,
    m_var_capacity := 0, m_const_capacity := 0, m_fun_capacity := 0 }

/-- The block `// resize` of the three `cexpr_executor_add_*`, up to the assignment of the new
array: the value of `new_size`, for the array's `capacity` and the `needed` number of elements
(the sum `size + count` as the code computes it). -/
def cexpr_new_size (capacity needed : Nat) : Nat :=
  let new_size := capacity * 2 % 2 ^ 64
  let new_size := if new_size < 64 then 64 else new_size
  if new_size < needed then needed else new_size

/-- The block `// resize` of the three `cexpr_executor_add_*`, up to the assignment of the new
array: the new array, allocated with `new_size` elements, with the `size` elements of the old
array `m` copied to its front when `m` is not null. -/
def cexpr_resized_array {α : Type} (fresh : Nat → α) (elem_size : Nat) (m : Option (List α))
    (size new_size : Nat) : Option (List α) :=
  match malloc_array fresh new_size elem_size with
  | none => none
  | some new_arr =>
    match m with
    | none => some new_arr
    | some old => memcpy_at elem_size new_arr 0 old size

/-- `cexpr_executor_add_variables`. The new array is assigned to `m_var`; `m_var_capacity` is
not assigned. -/
def cexpr_executor_add_variables (fresh : Nat → CExprVariableBindDesc) (exec : CExprExecutor)
    (var_desc : Option (List CExprVariableBindDesc)) (var_desc_count : Nat) :
    Option CExprExecutor :=
  match var_desc with
  | none => some exec
  | some batch =>
    if var_desc_count = 0 then some exec
    else
      let needed := (exec.m_var_size + var_desc_count) % 2 ^ 64
      let resize := decide (exec.m_var_capacity < needed) || exec.m_var.isNone
      let m_var :=
        if resize then
          cexpr_resized_array fresh sizeof_CExprVariableBindDesc exec.m_var exec.m_var_size
            (cexpr_new_size exec.m_var_capacity needed)
        else exec.m_var
      match m_var with
      | none => none
      | some arr =>
        match memcpy_at sizeof_CExprVariableBindDesc arr exec.m_var_size batch
            var_desc_count with
        | none => none
        | some arr1 => some { exec with m_var := some arr1, m_var_size := needed }

/-- `cexpr_executor_add_constants`. The new array is assigned to `m_const` and `new_size` to
`m_const_capacity`. -/
def cexpr_executor_add_constants (fresh : Nat → CExprConstantBindDesc) (exec : CExprExecutor)
    (const_desc : Option (List CExprConstantBindDesc)) (const_desc_count : Nat) :
    Option CExprExecutor :=
  match const_desc with
  | none => some exec
  | some batch =>
    if const_desc_count = 0 then some exec
    else
      let needed := (exec.m_const_size + const_desc_count) % 2 ^ 64
      let resize := decide (exec.m_const_capacity < needed) || exec.m_const.isNone
      let m_const :=
        if resize then
          cexpr_resized_array fresh sizeof_CExprConstantBindDesc exec.m_const exec.m_const_size
            (cexpr_new_size exec.m_const_capacity needed)
        else exec.m_const
      let m_const_capacity :=
        if resize then cexpr_new_size exec.m_const_capacity needed else exec.m_const_capacity
      match m_const with
      | none => none
      | some arr =>
        match memcpy_at sizeof_CExprConstantBindDesc arr exec.m_const_size batch
            const_desc_count with
        | none => none
        | some arr1 =>
          some { exec with m_const := some arr1, m_const_capacity := m_const_capacity,
                           m_const_size := needed }

/-- `cexpr_executor_add_functions`. The new array is assigned to `m_fun`; `m_fun_capacity` is
not assigned. -/
def cexpr_executor_add_functions (fresh : Nat → CExprFunctionBindDesc) (exec : CExprExecutor)
    (fun_desc : Option (List CExprFunctionBindDesc)) (fun_desc_count : Nat) :
    Option CExprExecutor :=
  match fun_desc with
  | none => some exec
  | some batch =>
    if fun_desc_count = 0 then some exec
    else
      let needed := (exec.m_fun_size + fun_desc_count) % 2 ^ 64
      let resize := decide (exec.m_fun_capacity < needed) || exec.m_fun.isNone
      let m_fun :=
        if resize then
          cexpr_resized_array fresh sizeof_CExprFunctionBindDesc exec.m_fun exec.m_fun_size
            (cexpr_new_size exec.m_fun_capacity needed)
        else exec.m_fun
      match m_fun with
      | none => none
      | some arr =>
        match memcpy_at sizeof_CExprFunctionBindDesc arr exec.m_fun_size batch
            fun_desc_count with
        | none => none
        | some arr1 => some { exec with m_fun := some arr1, m_fun_size := needed }

/-! ## Release of an AST -/

/-- `cexpr_free_expression_impl`: the pointers that it passes to `free`, in the order of the
calls. A null pointer returns at once; else the children are released, then the node. -/
def cexpr_free_expression_impl : NodePtr → List NodePtr
  | .null => []
  | .operator operator_type l_node r_node =>
    cexpr_free_expression_impl l_node ++ cexpr_free_expression_impl r_node ++
      [.operator operator_type l_node r_node]
  | .literal value => [.literal value]
  | .variable name len => [.variable name len]
  | .function_call0 name len => [.function_call0 name len]
  | .function_call1 name len a0 =>
    cexpr_free_expression_impl a0 ++ [.function_call1 name len a0]
  | .function_call2 name len a0 a1 =>
    cexpr_free_expression_impl a0 ++ cexpr_free_expression_impl a1 ++
      [.function_call2 name len a0 a1]
  | .function_call3 name len a0 a1 a2 =>
    cexpr_free_expression_impl a0 ++ cexpr_free_expression_impl a1 ++
      cexpr_free_expression_impl a2 ++ [.function_call3 name len a0 a1 a2]

/-- `cexpr_free_expression`, on the root of the parsed expression. -/
def cexpr_free_expression (root : NodePtr) : List NodePtr :=
  cexpr_free_expression_impl root

/-! ## Notions used by the theorems -/

/-- The measure that bounds the work left to the parser: twice the characters left at the cursor,
plus one while a single-character token is the current token. -/
def token_budget (tk : CExprTokenizer) : Nat :=
  2 * tk.str_cur.length + (if tk.cur_token_type = TK_CHAR then 1 else 0)


/-- The level-0 parser returns `r` from `tk`, with some fuel (and then with any larger fuel). -/
def Run0 (tk : CExprTokenizer) (r : NodePtr × CExprTokenizer) : Prop :=
  ∃ n, cexpr_parce_0_level n tk = some r

/-- The argument loop returns `r` from `args` and `tk`, with some fuel. -/
def RunArgs (args : List NodePtr) (tk : CExprTokenizer) (r : List NodePtr × CExprTokenizer) :
    Prop :=
  ∃ n, cexpr_parce_args n args tk = some r

/-- The level-1 parser returns `r` from `tk`, with some fuel. -/
def Run1 (tk : CExprTokenizer) (r : NodePtr × CExprTokenizer) : Prop :=
  ∃ n, cexpr_parce_1_level n tk = some r

/-- The level-2 loop returns `r` from `cur` and `tk`, with some fuel. -/
def RunLoop2 (cur : NodePtr) (tk : CExprTokenizer) (r : NodePtr × CExprTokenizer) : Prop :=
  ∃ n, cexpr_parce_2_loop n cur tk = some r

/-- The level-2 parser returns `r` from `tk`, with some fuel. -/
def Run2 (tk : CExprTokenizer) (r : NodePtr × CExprTokenizer) : Prop :=
  ∃ n, cexpr_parce_2_level n tk = some r

/-- The level-3 loop returns `r` from `cur` and `tk`, with some fuel. -/
def RunLoop3 (cur : NodePtr) (tk : CExprTokenizer) (r : NodePtr × CExprTokenizer) : Prop :=
  ∃ n, cexpr_parce_3_loop n cur tk = some r

/-- The level-3 parser returns `r` from `tk`, with some fuel. -/
def Run3 (tk : CExprTokenizer) (r : NodePtr × CExprTokenizer) : Prop :=
  ∃ n, cexpr_parce_3_level n tk = some r

/-- All characters of `ws` are whitespace. -/
def all_space (ws : List Char) : Bool := ws.all isspace

/-- The text `a` is an identifier: a letter or underscore, then letters, digits, underscores. -/
def is_identifier (a : List Char) : Bool :=
  match a with
  | [] => false
  | c :: cs => (isalpha c || c == '_') && cs.all (fun d => isalnum d || d == '_')

/-- The text `a` is a number literal: it is not empty and `strtod` converts the whole of it. -/
def is_number_literal (a : List Char) : Bool :=
  !a.isEmpty && (strtod a).2.isEmpty

/-- The text `rest` cannot continue an identifier or a number that ends just before it: it is
empty or starts with a character that is neither a letter, a digit, `_` nor `.`. -/
def stops (rest : List Char) : Bool :=
  match rest with
  | [] => true
  | c :: _ => !(isalnum c || c == '_' || c == '.')

/-- The first character of `rest` after its leading whitespace, if there is one. -/
def first_char (rest : List Char) : Option Char := (rest.dropWhile isspace).head?

/-- The text `s` has no NUL character, so `strlen` is its length. -/
def no_nul (s : List Char) : Bool := s.all (fun c => c != NUL)

/-- What may follow a primary expression: `rest` ends the last token, and its first token is
not `(`. -/
def follow0 (rest : List Char) : Bool := stops rest && first_char rest != some '('

/-- What may follow a complete level-2 expression (a product): as `follow0`, and the first token
is neither `*` nor `/`. -/
def follow2 (rest : List Char) : Bool :=
  follow0 rest && first_char rest != some '*' && first_char rest != some '/'

/-- What may follow a complete level-3 expression (a sum): as `follow2`, and the first token
is neither `+` nor `-`. -/
def follow3 (rest : List Char) : Bool :=
  follow2 rest && first_char rest != some '+' && first_char rest != some '-'

/-- The parser level `run` accepts the text `a` in front of any `rest` allowed by `follow`: from
a tokenizer about to read `a ++ rest` (to the end of the buffer) it returns the node `mk rest`,
leaves the validity flag alone, and stops with the first token of `rest` as the current token. -/
def Accepts (run : CExprTokenizer → NodePtr × CExprTokenizer → Prop) (follow : List Char → Bool)
    (a : List Char) (mk : List Char → NodePtr) : Prop :=
  no_nul a = true ∧
  ∀ rest tk, follow rest = true → tk.str_cur = a ++ rest → tk.str_end = [] →
    ∃ tk1, run (cexpr_parse_next_token tk) (mk rest, cexpr_parse_next_token tk1) ∧
      tk1.str_cur = rest ∧ tk1.str_end = [] ∧ tk1.is_valid = tk.is_valid

/-- The text `a` is a primary expression whose node, in front of `rest`, is `mk rest`. -/
def IsPrimary (a : List Char) (mk : List Char → NodePtr) : Prop := Accepts Run0 follow0 a mk

/-- The text `e` is a complete expression (level 3) whose node, in front of `rest`, is
`mk rest`. -/
def IsExpression (e : List Char) (mk : List Char → NodePtr) : Prop := Accepts Run3 follow3 e mk

/-- The text `a` is an operand of the simplest kind: an identifier or a number literal. -/
def is_operand (a : List Char) : Bool := is_identifier a || is_number_literal a

/-- The node of the operand `a` read in front of `rest`: a variable whose name points at `a` in
the text, or the literal of the value `strtod` gives. -/
def operand_node (a rest : List Char) : NodePtr :=
  if is_identifier a then .variable (a ++ rest) a.length else .literal (strtod a).1

/-- The node is not null and neither is any child that its kind requires, recursively: both
children of a binary operator, the operand of a unary operator (whose `r_node` the parser leaves
null), each argument of a call. -/
def NodePtr.well_formed : NodePtr → Bool
  | .null => false
  | .operator operator_type l_node r_node =>
    if operator_type = CEXPR_OPERATOR_PLUS ∨ operator_type = CEXPR_OPERATOR_MINUS then
      l_node.well_formed
    else l_node.well_formed && r_node.well_formed
  | .literal _ => true
  | .variable _ _ => true
  | .function_call0 _ _ => true
  | .function_call1 _ _ a0 => a0.well_formed
  | .function_call2 _ _ a0 a1 => a0.well_formed && a1.well_formed
  | .function_call3 _ _ a0 a1 a2 => a0.well_formed && a1.well_formed && a2.well_formed

/-- The loop `runloop` of a binary level accepts the text `t` (operators and operands, possibly
none) in front of any `rest` allowed by `outer`: entered with `cur` it returns `mk cur rest`.
What follows each operand of the loop is allowed by `inner`. -/
def LoopAccepts (runloop : NodePtr → CExprTokenizer → NodePtr × CExprTokenizer → Prop)
    (inner outer : List Char → Bool) (t : List Char) (mk : NodePtr → List Char → NodePtr) :
    Prop :=
  no_nul t = true ∧ (∀ rest, outer rest = true → inner (t ++ rest) = true) ∧
  ∀ cur rest tk, outer rest = true → tk.str_cur = t ++ rest → tk.str_end = [] →
    ∃ tk1, runloop cur (cexpr_parse_next_token tk) (mk cur rest, cexpr_parse_next_token tk1) ∧
      tk1.str_cur = rest ∧ tk1.str_end = [] ∧ tk1.is_valid = tk.is_valid

/-- The `operator_type` the parser gives to the binary operator character `o`. -/
def binary_operator (o : Char) : Nat :=
  if o == '+' then CEXPR_OPERATOR_ADD
  else if o == '-' then CEXPR_OPERATOR_SUB
  else if o == '*' then CEXPR_OPERATOR_MUL
  else CEXPR_OPERATOR_DIV

/-- The `operator_type` the parser gives to the sign character `s`. -/
def unary_operator (s : Char) : Nat :=
  if s == '+' then CEXPR_OPERATOR_PLUS else CEXPR_OPERATOR_MINUS

/-- The C string stored at a name pointer: the characters before the first NUL. -/
def c_string (s : List Char) : List Char := s.takeWhile (fun c => c != NUL)

/-- The environment binds the variable named `n` to a cell that holds `v`: some entry of the
variable table within `m_var_size` has the stored name `n` and a cell pointer whose cell holds
`v`, and the entries before it have stored names other than `n`. -/
def binds_variable (exec : CExprExecutor) (mem : Nat → Float) (n : List Char) (v : Float) :
    Prop :=
  ∃ i d s addr, i < exec.m_var_size ∧ (exec.m_var.getD [])[i]? = some d ∧ d.name = some s ∧
    c_string s = n ∧ d.value = some addr ∧ mem addr = v ∧
    ∀ j, j < i → ∃ dj sj, (exec.m_var.getD [])[j]? = some dj ∧ dj.name = some sj ∧
      c_string sj ≠ n

/-- An environment for the examples: the variable `r` bound to the cell at address 7, and the
constants `pi` and `r`. -/
def example_executor : CExprExecutor :=
  { m_var := some [{ name := some "r".toList, value := some 7 }],
    m_const := some [{ name := some "pi".toList, value := 3.14159265358979323846 },
                     { name := some "r".toList, value := 5 }],
    m_fun := none,
    m_var_size := 1, m_const_size := 2, m_fun_size := 0,
    m_var_capacity := 64, m_const_capacity := 64, m_fun_capacity := 0 }

/-- A memory for the examples: every cell holds 2. -/
def example_memory : Nat → Float := fun _ => 2

/-- An environment for the examples: the variables `a`, `b`, `c` bound to the cells at the
addresses 0, 1, 2, and a constant `a`. -/
def abc_executor : CExprExecutor :=
  { m_var := some [{ name := some "a".toList, value := some 0 },
                   { name := some "b".toList, value := some 1 },
                   { name := some "c".toList, value := some 2 }],
    m_const := some [{ name := some "a".toList, value := 10 }],
    m_fun := none,
    m_var_size := 3, m_const_size := 1, m_fun_size := 0,
    m_var_capacity := 64, m_const_capacity := 64, m_fun_capacity := 0 }

/-- A memory for the examples: the cell at address `n` holds `n + 0.5`. -/
def abc_memory : Nat → Float := fun addr => Float.ofNat addr + 0.5

/-- The character makes the tokenizer produce `TK_INVALID`: it is not NUL (which ends the text),
not whitespace, not a single-character token, and cannot start a number or an identifier. -/
def is_invalid_char (c : Char) : Bool :=
  c != NUL && !isspace c && !is_char_token c && !(c == '.' || isdigit c) &&
    !(isalpha c || c == '_')

/-- Two tokenizers in step, the first on a text that goes on with the character `c` and `post`
where the text of the second ends: what is left to the first is what is left to the second,
then `c :: post`; the flag and the character of the current token agree, and so does the kind
of the current token, except that the first may be at `TK_INVALID` (having met `c`) where the
second is at `TK_EOF`. -/
def InStep (c : Char) (post : List Char) (tk1 tk2 : CExprTokenizer) : Prop :=
  (∃ s, tk1.str_cur = s ++ c :: post ∧ tk2.str_cur = s) ∧
  tk1.str_end.length ≤ post.length ∧ tk2.str_end = [] ∧
  tk1.is_valid = tk2.is_valid ∧ tk1.char_token_value = tk2.char_token_value ∧
  (tk1.cur_token_type = tk2.cur_token_type ∨
    (tk1.cur_token_type = TK_INVALID ∧ tk2.cur_token_type = TK_EOF))

/-- The kind of the current token when `cexpr_parce_impl` is through with
`cexpr_parce_3_level`. -/
def final_token_type (str : List Char) (len : Nat) : Option CExprTokenType :=
  (cexpr_parce_run str len).map (fun r => r.2.cur_token_type)

/-- The entries of the variable table: the first `m_var_size` elements of the array `m_var`. -/
def var_entries (e : CExprExecutor) : List CExprVariableBindDesc :=
  (e.m_var.getD []).take e.m_var_size

/-- The entries of the constant table: the first `m_const_size` elements of the array
`m_const`. -/
def const_entries (e : CExprExecutor) : List CExprConstantBindDesc :=
  (e.m_const.getD []).take e.m_const_size

/-- The entries of the function table: the first `m_fun_size` elements of the array `m_fun`. -/
def fun_entries (e : CExprExecutor) : List CExprFunctionBindDesc :=
  (e.m_fun.getD []).take e.m_fun_size

/-- The cell pointer of the first of the entries whose stored name is the string `n`; the null
pointer when there is none. -/
def first_variable_named (entries : List CExprVariableBindDesc) (n : List Char) : Option Nat :=
  match entries.find? (fun d => d.name.map c_string == some n) with
  | none => none
  | some d => d.value

/-- The target of the first of the entries whose declared `args_count` is `k` and whose stored
name is the string `n`; the null pointer when there is none. -/
def first_function_named (entries : List CExprFunctionBindDesc) (k : Nat) (n : List Char) :
    Option HostFn :=
  match entries.find? (fun d => d.args_count == (k : Int) && d.name.map c_string == some n) with
  | none => none
  | some d => d.f_ptr

/-- The node of a call of the name slice with the arguments `args`, as the parser builds it for
up to three arguments. -/
def call_node (name : List Char) (len : Nat) (args : List NodePtr) : NodePtr :=
  match args with
  | [] => .function_call0 name len
  | [a0] => .function_call1 name len a0
  | [a0, a1] => .function_call2 name len a0 a1
  | [a0, a1, a2] => .function_call3 name len a0 a1 a2
  | _ => .null

/-- The C library's `pow` behind a `void*`, called with two arguments. -/
def host_pow : HostFn := fun args =>
  match args with
  | [x, y] => Float.pow x y
  | _ => NAN

/-- An environment for the examples: the name `f` registered as a function of one argument
(`sqrt`) and as a function of two arguments (`pow`). -/
def f_executor : CExprExecutor :=
  { m_var := none, m_const := none,
    m_fun := some [{ name := some "f".toList, f_ptr := some host_sqrt, args_count := 1 },
                   { name := some "f".toList, f_ptr := some host_pow, args_count := 2 }],
    m_var_size := 0, m_const_size := 0, m_fun_size := 2,
    m_var_capacity := 0, m_const_capacity := 0, m_fun_capacity := 64 }

/-- The evaluator with a record of its calls: `cexpr_eval_expression_impl`, case by case, with
next to the value the argument lists of the calls it makes through the function pointers of the
executor, in the order of the calls. `eval_calls_value` shows that the value is that of
`cexpr_eval_expression_impl`. -/
def cexpr_eval_expression_calls (mem : Nat → Float) (exec : Option CExprExecutor) :
    NodePtr → Option (Float × List (List Float))
  | .null => some (NAN, [])
  | .operator operator_type l_node r_node =>
    match cexpr_eval_expression_calls mem exec l_node with
    | none => none
    | some (l, cl) =>
      match cexpr_eval_expression_calls mem exec r_node with
      | none => none
      | some (r, cr) => some (cexpr_apply_operator operator_type l r, cl ++ cr)
  | .literal value => some (value, [])
  | .variable name len =>
    match cexpr_find_variable_by_name exec name len with
    | none => none
    | some (some var_ptr) => some (mem var_ptr, [])
    | some none =>
      match cexpr_find_counstant_by_name exec name len with
      | none => none
      | some value => some (value, [])
  | .function_call0 name len =>
    match cexpr_find_function_by_name exec 0 name len with
    | none => none
    | some none => some (NAN, [])
    | some (some cur_fn) => some (cur_fn [], [[]])
  | .function_call1 name len a0 =>
    match cexpr_find_function_by_name exec 1 name len with
    | none => none
    | some none => some (NAN, [])
    | some (some cur_fn) =>
      match cexpr_eval_expression_calls mem exec a0 with
      | none => none
      | some (arg0, c0) => some (cur_fn [arg0], c0 ++ [[arg0]])
  | .function_call2 name len a0 a1 =>
    match cexpr_find_function_by_name exec 2 name len with
    | none => none
    | some none => some (NAN, [])
    | some (some cur_fn) =>
      match cexpr_eval_expression_calls mem exec a0 with
      | none => none
      | some (arg0, c0) =>
        match cexpr_eval_expression_calls mem exec a1 with
        | none => none
        | some (arg1, c1) => some (cur_fn [arg0, arg1], c0 ++ c1 ++ [[arg0, arg1]])
  | .function_call3 name len a0 a1 a2 =>
    match cexpr_find_function_by_name exec 3 name len with
    | none => none
    | some none => some (NAN, [])
    | some (some cur_fn) =>
      match cexpr_eval_expression_calls mem exec a0 with
      | none => none
      | some (arg0, c0) =>
        match cexpr_eval_expression_calls mem exec a1 with
        | none => none
        | some (arg1, c1) =>
          match cexpr_eval_expression_calls mem exec a2 with
          | none => none
          | some (arg2, c2) =>
            some (cur_fn [arg0, arg1, arg2], c0 ++ c1 ++ c2 ++ [[arg0, arg1, arg2]])

/-- A call of one of the three `cexpr_executor_add_*` functions, with its batch pointer and
count. -/
inductive ExecutorCall where
  | add_variables (var_desc : Option (List CExprVariableBindDesc)) (var_desc_count : Nat)
  | add_constants (const_desc : Option (List CExprConstantBindDesc)) (const_desc_count : Nat)
  | add_functions (fun_desc : Option (List CExprFunctionBindDesc)) (fun_desc_count : Nat)

/-- The executor after the call `c`, made on `exec`. -/
def run_call (fv : Nat → CExprVariableBindDesc) (fc : Nat → CExprConstantBindDesc)
    (ff : Nat → CExprFunctionBindDesc) (exec : CExprExecutor) (c : ExecutorCall) :
    Option CExprExecutor :=
  match c with
  | .add_variables var_desc var_desc_count =>
    cexpr_executor_add_variables fv exec var_desc var_desc_count
  | .add_constants const_desc const_desc_count =>
    cexpr_executor_add_constants fc exec const_desc const_desc_count
  | .add_functions fun_desc fun_desc_count =>
    cexpr_executor_add_functions ff exec fun_desc fun_desc_count

/-- The executor after the calls `cs`, made in this order on `exec`. -/
def run_calls (fv : Nat → CExprVariableBindDesc) (fc : Nat → CExprConstantBindDesc)
    (ff : Nat → CExprFunctionBindDesc) (exec : CExprExecutor) (cs : List ExecutorCall) :
    Option CExprExecutor :=
  match cs with
  | [] => some exec
  | c :: cs1 =>
    match run_call fv fc ff exec c with
    | none => none
    | some exec1 => run_calls fv fc ff exec1 cs1

/-- The array `m` of a table holds the `size` entries and at least `capacity` elements, and the
byte counts of an append of `count` entries to it fit `size_t`. -/
def table_admits {α : Type} (m : Option (List α)) (size capacity count elem_size : Nat) : Prop :=
  size ≤ (m.getD []).length ∧ capacity ≤ (m.getD []).length ∧
    (size + count) * elem_size < 2 ^ 64 ∧ capacity * 2 * elem_size < 2 ^ 64

/-- What holds of an executor that was set up by `cexpr_executor_init` and filled by the three
`cexpr_executor_add_*` functions: the recorded capacities of the variable and function tables
are 0 while their arrays, once allocated, have at least 64 elements and hold the entries; the
recorded capacity of the constant table is the number of elements of its array, which holds the
entries. -/
def as_built (e : CExprExecutor) : Prop :=
  (e.m_var_capacity = 0 ∧ e.m_var_size ≤ (e.m_var.getD []).length ∧
    (e.m_var.getD []).length < 2 ^ 64 ∧
    (e.m_var.isSome = true → 64 ≤ (e.m_var.getD []).length)) ∧
  (e.m_fun_capacity = 0 ∧ e.m_fun_size ≤ (e.m_fun.getD []).length ∧
    (e.m_fun.getD []).length < 2 ^ 64 ∧
    (e.m_fun.isSome = true → 64 ≤ (e.m_fun.getD []).length)) ∧
  ((e.m_const.getD []).length = e.m_const_capacity ∧ e.m_const_size ≤ e.m_const_capacity ∧
    e.m_const_capacity < 2 ^ 64)

/-- An executor for the examples whose arrays are full: one variable `x` at the cell 0, the
constant `pi`, and the function `sqrt`. -/
def full_executor : CExprExecutor :=
  { m_var := some [{ name := some "x".toList, value := some 0 }],
    m_const := some [{ name := some "pi".toList, value := 3.14159265358979323846 }],
    m_fun := some [{ name := some "sqrt".toList, f_ptr := some host_sqrt, args_count := 1 }],
    m_var_size := 1, m_const_size := 1, m_fun_size := 1,
    m_var_capacity := 1, m_const_capacity := 1, m_fun_capacity := 1 }

/-- A batch for the examples: the variables `y` and `z` at the cells 1 and 2. -/
def yz_batch : List CExprVariableBindDesc :=
  [{ name := some "y".toList, value := some 1 }, { name := some "z".toList, value := some 2 }]

/-- A content of fresh blocks for the examples: zero bytes. -/
def zero_variables : Nat → CExprVariableBindDesc := fun _ => { name := none, value := none }

/-- A content of fresh blocks for the examples: zero bytes. -/
def zero_constants : Nat → CExprConstantBindDesc := fun _ => { name := none, value := 0 }

/-- A content of fresh blocks for the examples: zero bytes. -/
def zero_functions : Nat → CExprFunctionBindDesc :=
  fun _ => { name := none, f_ptr := none, args_count := 0 }

/-! ### The calls of `cexpr_parce_0_level` in a run of the parser

`enters_k fuel tk t`: the level-`k` parser, run with this fuel from `tk`, calls
`cexpr_parce_0_level` with the tokenizer in the state `t`. Each definition follows the calls of
its level in the order of the code. -/

mutual

/-- Level 0 from `tk` is itself the call at `t`, or the call is made by the level 3 of the
parenthesised expression or by the argument loop. -/
def enters_0_level : Nat → CExprTokenizer → CExprTokenizer → Prop
  | 0, _, _ => False
  | fuel + 1, tk, t =>
    tk = t ∨
      (if tk.cur_token_type = TK_NUMBER then False
       else if tk.at_char '(' then enters_3_level fuel (cexpr_parse_next_token tk) t
       else if tk.cur_token_type = TK_ID then
         (if (cexpr_parse_next_token tk).at_char '(' then
            enters_args fuel [] (cexpr_parse_next_token (cexpr_parse_next_token tk)) t
          else False)
       else False)

/-- The argument loop: the call is made by the level 3 of this argument or, after a comma, by
the rest of the loop. -/
def enters_args : Nat → List NodePtr → CExprTokenizer → CExprTokenizer → Prop
  | 0, _, _, _ => False
  | fuel + 1, args, tk, t =>
    enters_3_level fuel tk t ∨
      (match cexpr_parce_3_level fuel tk with
       | none => False
       | some (node, tk1) =>
         if tk1.at_char ',' then
           (if (args ++ [node]).length = 3 then False
            else enters_args fuel (args ++ [node]) (cexpr_parse_next_token tk1) t)
         else False)

/-- Level 1: the call is made by the level 0 of the operand. -/
def enters_1_level : Nat → CExprTokenizer → CExprTokenizer → Prop
  | 0, _, _ => False
  | fuel + 1, tk, t =>
    if tk.at_char '+' || tk.at_char '-' then enters_0_level fuel (cexpr_parse_next_token tk) t
    else enters_0_level fuel tk t

/-- The loop of level 2: the call is made by the level 1 of the next operand or by the rest of
the loop. -/
def enters_2_loop : Nat → NodePtr → CExprTokenizer → CExprTokenizer → Prop
  | 0, _, _, _ => False
  | fuel + 1, cur_node, tk, t =>
    if tk.at_char '*' || tk.at_char '/' then
      enters_1_level fuel (cexpr_parse_next_token tk) t ∨
        (match cexpr_parce_1_level fuel (cexpr_parse_next_token tk) with
         | none => False
         | some (r_node, tk1) =>
           enters_2_loop fuel
             (.operator (if tk.char_token_value == '*' then CEXPR_OPERATOR_MUL
               else CEXPR_OPERATOR_DIV) cur_node r_node) tk1 t)
    else False

/-- Level 2: the call is made by the level 1 of the first operand or by the loop. -/
def enters_2_level : Nat → CExprTokenizer → CExprTokenizer → Prop
  | 0, _, _ => False
  | fuel + 1, tk, t =>
    enters_1_level fuel tk t ∨
      (match cexpr_parce_1_level fuel tk with
       | none => False
       | some (cur_node, tk1) => enters_2_loop fuel cur_node tk1 t)

/-- The loop of level 3: the call is made by the level 2 of the next operand or by the rest of
the loop. -/
def enters_3_loop : Nat → NodePtr → CExprTokenizer → CExprTokenizer → Prop
  | 0, _, _, _ => False
  | fuel + 1, cur_node, tk, t =>
    if tk.at_char '+' || tk.at_char '-' then
      enters_2_level fuel (cexpr_parse_next_token tk) t ∨
        (match cexpr_parce_2_level fuel (cexpr_parse_next_token tk) with
         | none => False
         | some (r_node, tk1) =>
           enters_3_loop fuel
             (.operator (if tk.char_token_value == '+' then CEXPR_OPERATOR_ADD
               else CEXPR_OPERATOR_SUB) cur_node r_node) tk1 t)
    else False

/-- Level 3: the call is made by the level 2 of the first operand or by the loop. -/
def enters_3_level : Nat → CExprTokenizer → CExprTokenizer → Prop
  | 0, _, _ => False
  | fuel + 1, tk, t =>
    enters_2_level fuel tk t ∨
      (match cexpr_parce_2_level fuel tk with
       | none => False
       | some (cur_node, tk1) => enters_3_loop fuel cur_node tk1 t)

end


/-! ## Fuel: more fuel never changes a result -/

theorem fuel_mono_aux (n : Nat) :
    (∀ tk r, cexpr_parce_0_level n tk = some r → cexpr_parce_0_level (n + 1) tk = some r) ∧
    (∀ args tk r, cexpr_parce_args n args tk = some r →
      cexpr_parce_args (n + 1) args tk = some r) ∧
    (∀ tk r, cexpr_parce_1_level n tk = some r → cexpr_parce_1_level (n + 1) tk = some r) ∧
    (∀ cur tk r, cexpr_parce_2_loop n cur tk = some r →
      cexpr_parce_2_loop (n + 1) cur tk = some r) ∧
    (∀ tk r, cexpr_parce_2_level n tk = some r → cexpr_parce_2_level (n + 1) tk = some r) ∧
    (∀ cur tk r, cexpr_parce_3_loop n cur tk = some r →
      cexpr_parce_3_loop (n + 1) cur tk = some r) ∧
    (∀ tk r, cexpr_parce_3_level n tk = some r → cexpr_parce_3_level (n + 1) tk = some r) := by
  induction n with
  | zero =>
    simp [cexpr_parce_0_level, cexpr_parce_args, cexpr_parce_1_level, cexpr_parce_2_loop,
      cexpr_parce_2_level, cexpr_parce_3_loop, cexpr_parce_3_level]
  | succ n ih =>
    obtain ⟨h0, ha, h1, hl2, h2, hl3, h3⟩ := ih
    refine ⟨?_, ?_, ?_, ?_, ?_, ?_, ?_⟩
    · intro tk r h
      rw [cexpr_parce_0_level] at h ⊢
      dsimp only at h ⊢
      by_cases c1 : tk.cur_token_type = TK_NUMBER
      · simpa only [c1, if_true] using h
      simp only [c1, if_false] at h ⊢
      by_cases c2 : tk.at_char '(' = true
      · simp only [c2, if_true] at h ⊢
        cases hrec : cexpr_parce_3_level n (cexpr_parse_next_token tk) with
        | none => simp [hrec] at h
        | some p => rw [h3 _ _ hrec]; simpa only [hrec] using h
      simp only [c2, if_false] at h ⊢
      by_cases c3 : tk.cur_token_type = TK_ID
      · simp only [c3, if_true] at h ⊢
        by_cases c4 : (cexpr_parse_next_token tk).at_char '(' = true
        · simp only [c4, if_true] at h ⊢
          cases hrec : cexpr_parce_args n []
              (cexpr_parse_next_token (cexpr_parse_next_token tk)) with
          | none => simp [hrec] at h
          | some p => rw [ha _ _ _ hrec]; simpa only [hrec] using h
        · simpa only [c4, if_false] using h
      · simpa only [c3, if_false] using h
    · intro args tk r h
      rw [cexpr_parce_args] at h ⊢
      cases hrec : cexpr_parce_3_level n tk with
      | none => simp [hrec] at h
      | some p =>
        rw [h3 _ _ hrec]
        simp only [hrec] at h
        dsimp only at h ⊢
        by_cases c1 : p.2.at_char ',' = true
        · simp only [c1, if_true] at h ⊢
          by_cases c2 : (args ++ [p.1]).length = 3
          · simpa only [c2, if_true] using h
          · simp only [c2, if_false] at h ⊢
            exact ha _ _ _ h
        · simpa only [c1, if_false] using h
    · intro tk r h
      rw [cexpr_parce_1_level] at h ⊢
      dsimp only at h ⊢
      by_cases c1 : (tk.at_char '+' || tk.at_char '-') = true
      · simp only [c1, if_true] at h ⊢
        cases hrec : cexpr_parce_0_level n (cexpr_parse_next_token tk) with
        | none => simp [hrec] at h
        | some p => rw [h0 _ _ hrec]; simpa only [hrec] using h
      · simp only [c1, if_false] at h ⊢
        exact h0 _ _ h
    · intro cur tk r h
      rw [cexpr_parce_2_loop] at h ⊢
      dsimp only at h ⊢
      by_cases c1 : (tk.at_char '*' || tk.at_char '/') = true
      · simp only [c1, if_true] at h ⊢
        cases hrec : cexpr_parce_1_level n (cexpr_parse_next_token tk) with
        | none => simp [hrec] at h
        | some p =>
          rw [h1 _ _ hrec]
          simp only [hrec] at h
          exact hl2 _ _ _ h
      · simpa only [c1, if_false] using h
    · intro tk r h
      rw [cexpr_parce_2_level] at h ⊢
      cases hrec : cexpr_parce_1_level n tk with
      | none => simp [hrec] at h
      | some p =>
        rw [h1 _ _ hrec]
        simp only [hrec] at h
        exact hl2 _ _ _ h
    · intro cur tk r h
      rw [cexpr_parce_3_loop] at h ⊢
      dsimp only at h ⊢
      by_cases c1 : (tk.at_char '+' || tk.at_char '-') = true
      · simp only [c1, if_true] at h ⊢
        cases hrec : cexpr_parce_2_level n (cexpr_parse_next_token tk) with
        | none => simp [hrec] at h
        | some p =>
          rw [h2 _ _ hrec]
          simp only [hrec] at h
          exact hl3 _ _ _ h
      · simpa only [c1, if_false] using h
    · intro tk r h
      rw [cexpr_parce_3_level] at h ⊢
      cases hrec : cexpr_parce_2_level n tk with
      | none => simp [hrec] at h
      | some p =>
        rw [h2 _ _ hrec]
        simp only [hrec] at h
        exact hl3 _ _ _ h

/-! ## Termination: the fuel of `cexpr_parce_impl` is enough -/

theorem dropWhile_length_le (p : Char → Bool) (l : List Char) :
    (l.dropWhile p).length ≤ l.length :=
  (List.dropWhile_sublist p).length_le

theorem advance_while_length_le (p : Char → Bool) (e : Nat) (l : List Char) :
    (advance_while p e l).length ≤ l.length := by
  induction l with
  | nil => simp [advance_while]
  | cons c cs ih =>
    rw [advance_while]
    split_ifs
    · simp only [List.length_cons]; omega
    · exact le_refl _

theorem strtod_exponent_length_le (p : List Char) : (strtod_exponent p).2.length ≤ p.length := by
  unfold strtod_exponent
  split
  · simp
  · rename_i c r
    dsimp only
    have h1 := dropWhile_length_le isdigit r.tail
    have h2 := dropWhile_length_le isdigit r
    simp only [List.length_tail] at h1
    split_ifs <;> simp only [List.length_cons, le_refl] <;> omega

theorem strtod_length_le (p : List Char) : (strtod p).2.length ≤ p.length := by
  unfold strtod
  dsimp only
  have h1 := dropWhile_length_le isdigit (p.dropWhile isdigit).tail
  have h2 := dropWhile_length_le isdigit p
  simp only [List.length_tail] at h1
  split_ifs
  · exact le_refl _
  · refine le_trans (strtod_exponent_length_le _) ?_
    omega
  · exact le_refl _
  · exact le_trans (strtod_exponent_length_le _) h2

theorem next_token_budget (tk : CExprTokenizer) :
    token_budget (cexpr_parse_next_token tk) ≤ 2 * tk.str_cur.length := by
  have haw := advance_while_length_le isspace tk.str_end.length tk.str_cur
  unfold cexpr_parse_next_token token_budget
  dsimp only
  generalize advance_while isspace tk.str_end.length tk.str_cur = aw at haw ⊢
  rcases aw with _ | ⟨c, cs⟩
  · have h1 : is_char_token NUL = false := by decide
    have h2 : (NUL == '.' || isdigit NUL) = false := by decide
    have h3 : (isalpha NUL || NUL == '_') = false := by decide
    simp only [List.headD_nil, h1, h2, h3]
    split_ifs <;> simp at *
  · have hs := strtod_length_le (c :: cs)
    have hi := advance_while_length_le (fun d => isalnum d || d == '_') tk.str_end.length cs
    simp only [List.length_cons] at haw hs
    simp only [List.headD_cons, List.tail_cons]
    split_ifs <;> simp at * <;> omega
theorem budget_next_le (tk : CExprTokenizer) :
    token_budget (cexpr_parse_next_token tk) ≤ token_budget tk := by
  have h := next_token_budget tk
  unfold token_budget at h ⊢
  split_ifs at h ⊢ <;> omega

theorem budget_next_lt (tk : CExprTokenizer) (c : Char) (h : tk.at_char c = true) :
    token_budget (cexpr_parse_next_token tk) + 1 ≤ token_budget tk := by
  have h1 := next_token_budget tk
  have h2 : tk.cur_token_type = TK_CHAR := by
    simp only [CExprTokenizer.at_char, Bool.and_eq_true, beq_iff_eq] at h
    exact h.1
  have h3 : token_budget tk = 2 * tk.str_cur.length + 1 := by
    simp [token_budget, h2]
  omega

theorem budget_next_lt_or (tk : CExprTokenizer) (c d : Char)
    (h : (tk.at_char c || tk.at_char d) = true) :
    token_budget (cexpr_parse_next_token tk) + 1 ≤ token_budget tk := by
  rcases Bool.or_eq_true _ _ ▸ h with h | h
  · exact budget_next_lt tk c h
  · exact budget_next_lt tk d h

theorem budget_invalidate (tk : CExprTokenizer) :
    token_budget { tk with is_valid := false } = token_budget tk := rfl

theorem budget_make_call (name : List Char) (len : Nat) (args : List NodePtr)
    (tk : CExprTokenizer) :
    token_budget (cexpr_make_call name len args tk).2 = token_budget tk := by
  unfold cexpr_make_call
  split <;> rfl

theorem parce_total_aux (n : Nat) :
    (∀ tk, 5 * token_budget tk + 1 ≤ n →
      ∃ r, cexpr_parce_0_level n tk = some r ∧ token_budget r.2 ≤ token_budget tk) ∧
    (∀ args tk, 5 * token_budget tk + 5 ≤ n →
      ∃ r, cexpr_parce_args n args tk = some r ∧ token_budget r.2 ≤ token_budget tk) ∧
    (∀ tk, 5 * token_budget tk + 2 ≤ n →
      ∃ r, cexpr_parce_1_level n tk = some r ∧ token_budget r.2 ≤ token_budget tk) ∧
    (∀ cur tk, 5 * token_budget tk + 2 ≤ n →
      ∃ r, cexpr_parce_2_loop n cur tk = some r ∧ token_budget r.2 ≤ token_budget tk) ∧
    (∀ tk, 5 * token_budget tk + 3 ≤ n →
      ∃ r, cexpr_parce_2_level n tk = some r ∧ token_budget r.2 ≤ token_budget tk) ∧
    (∀ cur tk, 5 * token_budget tk + 3 ≤ n →
      ∃ r, cexpr_parce_3_loop n cur tk = some r ∧ token_budget r.2 ≤ token_budget tk) ∧
    (∀ tk, 5 * token_budget tk + 4 ≤ n →
      ∃ r, cexpr_parce_3_level n tk = some r ∧ token_budget r.2 ≤ token_budget tk) := by
  induction n with
  | zero => simp
  | succ n ih =>
    obtain ⟨h0, ha, h1, hl2, h2, hl3, h3⟩ := ih
    refine ⟨?_, ?_, ?_, ?_, ?_, ?_, ?_⟩
    · intro tk hn
      rw [cexpr_parce_0_level]
      dsimp only
      by_cases c1 : tk.cur_token_type = TK_NUMBER
      · simp only [c1, if_true]
        exact ⟨_, rfl, budget_next_le tk⟩
      simp only [c1, if_false]
      by_cases c2 : tk.at_char '(' = true
      · simp only [c2, if_true]
        have hlt := budget_next_lt tk _ c2
        obtain ⟨⟨node, tk1⟩, hr, hb⟩ := h3 (cexpr_parse_next_token tk) (by omega)
        simp only [hr]
        by_cases c3 : tk1.at_char ')' = true
        · simp only [c3, if_true]
          refine ⟨_, rfl, ?_⟩
          have := budget_next_le tk1
          simp only at hb ⊢
          omega
        · simp only [c3, if_false]
          refine ⟨_, rfl, ?_⟩
          simp only [budget_invalidate] at hb ⊢
          omega
      simp only [c2, if_false]
      by_cases c3 : tk.cur_token_type = TK_ID
      · simp only [c3, if_true]
        have hle := budget_next_le tk
        by_cases c4 : (cexpr_parse_next_token tk).at_char '(' = true
        · simp only [c4, if_true]
          have hlt := budget_next_lt _ _ c4
          obtain ⟨⟨args, tk2⟩, hr, hb⟩ :=
            ha [] (cexpr_parse_next_token (cexpr_parse_next_token tk)) (by omega)
          simp only [hr]
          refine ⟨_, rfl, ?_⟩
          rw [budget_make_call]
          simp only at hb
          omega
        · simp only [c4, if_false]
          exact ⟨_, rfl, hle⟩
      · simp only [c3, if_false]
        exact ⟨_, rfl, le_of_eq (budget_invalidate tk)⟩
    · intro args tk hn
      rw [cexpr_parce_args]
      obtain ⟨⟨node, tk1⟩, hr, hb⟩ := h3 tk (by omega)
      simp only [hr]
      simp only at hb
      by_cases c1 : tk1.at_char ',' = true
      · simp only [c1, if_true]
        by_cases c2 : (args ++ [node]).length = 3
        · simp only [c2, if_true]
          exact ⟨_, rfl, by simpa only [budget_invalidate] using hb⟩
        · simp only [c2, if_false]
          have hlt := budget_next_lt _ _ c1
          obtain ⟨r, hr2, hb2⟩ := ha (args ++ [node]) (cexpr_parse_next_token tk1) (by omega)
          exact ⟨r, hr2, by omega⟩
      · simp only [c1, if_false]
        by_cases c2 : tk1.at_char ')' = true
        · simp only [c2, if_true]
          have := budget_next_le tk1
          exact ⟨_, rfl, by simp only; omega⟩
        · simp only [c2, if_false]
          exact ⟨_, rfl, by simpa only [budget_invalidate] using hb⟩
    · intro tk hn
      rw [cexpr_parce_1_level]
      dsimp only
      by_cases c1 : (tk.at_char '+' || tk.at_char '-') = true
      · simp only [c1, if_true]
        have hlt := budget_next_lt_or _ _ _ c1
        obtain ⟨⟨node, tk1⟩, hr, hb⟩ := h0 (cexpr_parse_next_token tk) (by omega)
        simp only [hr]
        exact ⟨_, rfl, by simp only at hb ⊢; omega⟩
      · simp only [c1, if_false]
        exact h0 tk (by omega)
    · intro cur tk hn
      rw [cexpr_parce_2_loop]
      dsimp only
      by_cases c1 : (tk.at_char '*' || tk.at_char '/') = true
      · simp only [c1, if_true]
        have hlt := budget_next_lt_or _ _ _ c1
        obtain ⟨⟨node, tk1⟩, hr, hb⟩ := h1 (cexpr_parse_next_token tk) (by omega)
        simp only [hr]
        simp only at hb
        obtain ⟨r, hr2, hb2⟩ := hl2 (.operator (if tk.char_token_value == '*'
          then CEXPR_OPERATOR_MUL else CEXPR_OPERATOR_DIV) cur node) tk1 (by omega)
        exact ⟨r, hr2, by omega⟩
      · simp only [c1, if_false]
        exact ⟨_, rfl, le_refl _⟩
    · intro tk hn
      rw [cexpr_parce_2_level]
      obtain ⟨⟨node, tk1⟩, hr, hb⟩ := h1 tk (by omega)
      simp only [hr]
      simp only at hb
      obtain ⟨r, hr2, hb2⟩ := hl2 node tk1 (by omega)
      exact ⟨r, hr2, by omega⟩
    · intro cur tk hn
      rw [cexpr_parce_3_loop]
      dsimp only
      by_cases c1 : (tk.at_char '+' || tk.at_char '-') = true
      · simp only [c1, if_true]
        have hlt := budget_next_lt_or _ _ _ c1
        obtain ⟨⟨node, tk1⟩, hr, hb⟩ := h2 (cexpr_parse_next_token tk) (by omega)
        simp only [hr]
        simp only at hb
        obtain ⟨r, hr2, hb2⟩ := hl3 (.operator (if tk.char_token_value == '+'
          then CEXPR_OPERATOR_ADD else CEXPR_OPERATOR_SUB) cur node) tk1 (by omega)
        exact ⟨r, hr2, by omega⟩
      · simp only [c1, if_false]
        exact ⟨_, rfl, le_refl _⟩
    · intro tk hn
      rw [cexpr_parce_3_level]
      obtain ⟨⟨node, tk1⟩, hr, hb⟩ := h2 tk (by omega)
      simp only [hr]
      simp only at hb
      obtain ⟨r, hr2, hb2⟩ := hl3 node tk1 (by omega)
      exact ⟨r, hr2, by omega⟩
theorem fuel_mono_le {n m : Nat} (h : n ≤ m) :
    (∀ tk r, cexpr_parce_0_level n tk = some r → cexpr_parce_0_level m tk = some r) ∧
    (∀ args tk r, cexpr_parce_args n args tk = some r → cexpr_parce_args m args tk = some r) ∧
    (∀ tk r, cexpr_parce_1_level n tk = some r → cexpr_parce_1_level m tk = some r) ∧
    (∀ cur tk r, cexpr_parce_2_loop n cur tk = some r → cexpr_parce_2_loop m cur tk = some r) ∧
    (∀ tk r, cexpr_parce_2_level n tk = some r → cexpr_parce_2_level m tk = some r) ∧
    (∀ cur tk r, cexpr_parce_3_loop n cur tk = some r → cexpr_parce_3_loop m cur tk = some r) ∧
    (∀ tk r, cexpr_parce_3_level n tk = some r → cexpr_parce_3_level m tk = some r) := by
  induction h with
  | refl => exact ⟨fun _ _ h => h, fun _ _ _ h => h, fun _ _ h => h, fun _ _ _ h => h,
      fun _ _ h => h, fun _ _ _ h => h, fun _ _ h => h⟩
  | step _ ih =>
    obtain ⟨h0, ha, h1, hl2, h2, hl3, h3⟩ := ih
    obtain ⟨s0, sa, s1, sl2, s2, sl3, s3⟩ := fuel_mono_aux _
    exact ⟨fun _ _ h => s0 _ _ (h0 _ _ h), fun _ _ _ h => sa _ _ _ (ha _ _ _ h),
      fun _ _ h => s1 _ _ (h1 _ _ h), fun _ _ _ h => sl2 _ _ _ (hl2 _ _ _ h),
      fun _ _ h => s2 _ _ (h2 _ _ h), fun _ _ _ h => sl3 _ _ _ (hl3 _ _ _ h),
      fun _ _ h => s3 _ _ (h3 _ _ h)⟩

theorem at_char_type {tk : CExprTokenizer} {c : Char} (h : tk.at_char c = true) :
    tk.cur_token_type = TK_CHAR := by
  simp only [CExprTokenizer.at_char, Bool.and_eq_true, beq_iff_eq] at h
  exact h.1

theorem at_char_value {tk : CExprTokenizer} {c : Char} (h : tk.at_char c = true) :
    tk.char_token_value = c := by
  simp only [CExprTokenizer.at_char, Bool.and_eq_true, beq_iff_eq] at h
  exact h.2

theorem at_char_of_type_ne {tk : CExprTokenizer} (c : Char) (h : tk.cur_token_type ≠ TK_CHAR) :
    tk.at_char c = false := by
  simp [CExprTokenizer.at_char, h]

theorem run0_number {k : CExprTokenizer} (h : k.cur_token_type = TK_NUMBER) :
    Run0 k (.literal k.number_token_value, cexpr_parse_next_token k) :=
  ⟨1, by rw [cexpr_parce_0_level]; simp only [h, if_true]⟩

theorem run0_paren {tk tk1 : CExprTokenizer} {node : NodePtr} (h : tk.at_char '(' = true)
    (h3 : Run3 (cexpr_parse_next_token tk) (node, tk1)) (hc : tk1.at_char ')' = true) :
    Run0 tk (node, cexpr_parse_next_token tk1) := by
  obtain ⟨n, hn⟩ := h3
  refine ⟨n + 1, ?_⟩
  rw [cexpr_parce_0_level]
  have ht := at_char_type h
  simp [ht, h, hn, hc]

theorem run0_unclosed {tk tk1 : CExprTokenizer} {node : NodePtr} (h : tk.at_char '(' = true)
    (h3 : Run3 (cexpr_parse_next_token tk) (node, tk1)) (hc : tk1.at_char ')' = false) :
    Run0 tk (node, { tk1 with is_valid := false }) := by
  obtain ⟨n, hn⟩ := h3
  refine ⟨n + 1, ?_⟩
  rw [cexpr_parce_0_level]
  have ht := at_char_type h
  simp [ht, h, hn, hc]

theorem run0_variable {k : CExprTokenizer} (h : k.cur_token_type = TK_ID)
    (hn : (cexpr_parse_next_token k).at_char '(' = false) :
    Run0 k (.variable k.id_token_begin k.id_token_length, cexpr_parse_next_token k) := by
  refine ⟨1, ?_⟩
  rw [cexpr_parce_0_level]
  simp [h, hn, at_char_of_type_ne]

theorem run0_call {tk tk2 : CExprTokenizer} {args : List NodePtr}
    (h : tk.cur_token_type = TK_ID)
    (hn : (cexpr_parse_next_token tk).at_char '(' = true)
    (ha : RunArgs [] (cexpr_parse_next_token (cexpr_parse_next_token tk)) (args, tk2)) :
    Run0 tk (cexpr_make_call tk.id_token_begin tk.id_token_length args tk2) := by
  obtain ⟨n, hr⟩ := ha
  refine ⟨n + 1, ?_⟩
  rw [cexpr_parce_0_level]
  simp [h, hn, hr, at_char_of_type_ne]

theorem run0_fail {tk : CExprTokenizer} (h1 : tk.cur_token_type ≠ TK_NUMBER)
    (h2 : tk.at_char '(' = false) (h3 : tk.cur_token_type ≠ TK_ID) :
    Run0 tk (.null, { tk with is_valid := false }) := by
  refine ⟨1, ?_⟩
  rw [cexpr_parce_0_level]
  simp [h1, h2, h3]

theorem runargs_more {args : List NodePtr} {tk tk1 : CExprTokenizer} {node : NodePtr}
    {r : List NodePtr × CExprTokenizer} (h3 : Run3 tk (node, tk1))
    (hc : tk1.at_char ',' = true) (hl : (args ++ [node]).length ≠ 3)
    (hr : RunArgs (args ++ [node]) (cexpr_parse_next_token tk1) r) : RunArgs args tk r := by
  obtain ⟨n, hn⟩ := h3
  obtain ⟨m, hm⟩ := hr
  refine ⟨max n m + 1, ?_⟩
  rw [cexpr_parce_args]
  rw [(fuel_mono_le (le_max_left n m)).2.2.2.2.2.2 _ _ hn]
  simp only [hc, if_true, hl, if_false]
  exact (fuel_mono_le (le_max_right n m)).2.1 _ _ _ hm

theorem runargs_too_many {args : List NodePtr} {tk tk1 : CExprTokenizer} {node : NodePtr}
    (h3 : Run3 tk (node, tk1)) (hc : tk1.at_char ',' = true)
    (hl : (args ++ [node]).length = 3) :
    RunArgs args tk (args ++ [node], { tk1 with is_valid := false }) := by
  obtain ⟨n, hn⟩ := h3
  refine ⟨n + 1, ?_⟩
  rw [cexpr_parce_args]
  simp only [hn, hc, if_true, hl]

theorem runargs_close {args : List NodePtr} {tk tk1 : CExprTokenizer} {node : NodePtr}
    (h3 : Run3 tk (node, tk1)) (hc : tk1.at_char ')' = true) :
    RunArgs args tk (args ++ [node], cexpr_parse_next_token tk1) := by
  obtain ⟨n, hn⟩ := h3
  refine ⟨n + 1, ?_⟩
  rw [cexpr_parce_args]
  have h1 : tk1.at_char ',' = false := by
    simp only [CExprTokenizer.at_char, at_char_value hc, at_char_type hc]; decide
  simp [hn, hc, h1]

theorem runargs_bad {args : List NodePtr} {tk tk1 : CExprTokenizer} {node : NodePtr}
    (h3 : Run3 tk (node, tk1)) (h1 : tk1.at_char ',' = false) (h2 : tk1.at_char ')' = false) :
    RunArgs args tk (args ++ [node], { tk1 with is_valid := false }) := by
  obtain ⟨n, hn⟩ := h3
  refine ⟨n + 1, ?_⟩
  rw [cexpr_parce_args]
  simp [hn, h1, h2]

theorem run1_unary {tk tk1 : CExprTokenizer} {l_node : NodePtr}
    (h : (tk.at_char '+' || tk.at_char '-') = true)
    (h0 : Run0 (cexpr_parse_next_token tk) (l_node, tk1)) :
    Run1 tk (.operator (if tk.char_token_value == '+' then CEXPR_OPERATOR_PLUS
      else CEXPR_OPERATOR_MINUS) l_node .null, tk1) := by
  obtain ⟨n, hn⟩ := h0
  refine ⟨n + 1, ?_⟩
  rw [cexpr_parce_1_level]
  simp only [h, if_true, hn]

theorem run1_plain {tk : CExprTokenizer} {r : NodePtr × CExprTokenizer}
    (h : (tk.at_char '+' || tk.at_char '-') = false) (h0 : Run0 tk r) : Run1 tk r := by
  obtain ⟨n, hn⟩ := h0
  refine ⟨n + 1, ?_⟩
  rw [cexpr_parce_1_level]
  simp only [h, hn]
  simp

theorem runloop2_step {cur r_node : NodePtr} {tk tk1 : CExprTokenizer}
    {r : NodePtr × CExprTokenizer} (h : (tk.at_char '*' || tk.at_char '/') = true)
    (h1 : Run1 (cexpr_parse_next_token tk) (r_node, tk1))
    (hr : RunLoop2 (.operator (if tk.char_token_value == '*' then CEXPR_OPERATOR_MUL
      else CEXPR_OPERATOR_DIV) cur r_node) tk1 r) : RunLoop2 cur tk r := by
  obtain ⟨n, hn⟩ := h1
  obtain ⟨m, hm⟩ := hr
  refine ⟨max n m + 1, ?_⟩
  rw [cexpr_parce_2_loop]
  simp only [h, if_true]
  rw [(fuel_mono_le (le_max_left n m)).2.2.1 _ _ hn]
  exact (fuel_mono_le (le_max_right n m)).2.2.2.1 _ _ _ hm

theorem runloop2_stop (cur : NodePtr) {tk : CExprTokenizer}
    (h : (tk.at_char '*' || tk.at_char '/') = false) : RunLoop2 cur tk (cur, tk) := by
  refine ⟨1, ?_⟩
  rw [cexpr_parce_2_loop]
  simp [h]

theorem run2_intro {cur : NodePtr} {tk tk1 : CExprTokenizer} {r : NodePtr × CExprTokenizer}
    (h1 : Run1 tk (cur, tk1)) (hr : RunLoop2 cur tk1 r) : Run2 tk r := by
  obtain ⟨n, hn⟩ := h1
  obtain ⟨m, hm⟩ := hr
  refine ⟨max n m + 1, ?_⟩
  rw [cexpr_parce_2_level]
  rw [(fuel_mono_le (le_max_left n m)).2.2.1 _ _ hn]
  exact (fuel_mono_le (le_max_right n m)).2.2.2.1 _ _ _ hm

theorem runloop3_step {cur r_node : NodePtr} {tk tk1 : CExprTokenizer}
    {r : NodePtr × CExprTokenizer} (h : (tk.at_char '+' || tk.at_char '-') = true)
    (h2 : Run2 (cexpr_parse_next_token tk) (r_node, tk1))
    (hr : RunLoop3 (.operator (if tk.char_token_value == '+' then CEXPR_OPERATOR_ADD
      else CEXPR_OPERATOR_SUB) cur r_node) tk1 r) : RunLoop3 cur tk r := by
  obtain ⟨n, hn⟩ := h2
  obtain ⟨m, hm⟩ := hr
  refine ⟨max n m + 1, ?_⟩
  rw [cexpr_parce_3_loop]
  simp only [h, if_true]
  rw [(fuel_mono_le (le_max_left n m)).2.2.2.2.1 _ _ hn]
  exact (fuel_mono_le (le_max_right n m)).2.2.2.2.2.1 _ _ _ hm

theorem runloop3_stop (cur : NodePtr) {tk : CExprTokenizer}
    (h : (tk.at_char '+' || tk.at_char '-') = false) : RunLoop3 cur tk (cur, tk) := by
  refine ⟨1, ?_⟩
  rw [cexpr_parce_3_loop]
  simp [h]

theorem run3_intro {cur : NodePtr} {tk tk1 : CExprTokenizer} {r : NodePtr × CExprTokenizer}
    (h2 : Run2 tk (cur, tk1)) (hr : RunLoop3 cur tk1 r) : Run3 tk r := by
  obtain ⟨n, hn⟩ := h2
  obtain ⟨m, hm⟩ := hr
  refine ⟨max n m + 1, ?_⟩
  rw [cexpr_parce_3_level]
  rw [(fuel_mono_le (le_max_left n m)).2.2.2.2.1 _ _ hn]
  exact (fuel_mono_le (le_max_right n m)).2.2.2.2.2.1 _ _ _ hm

/-- The fuel of `cexpr_parce_impl` is enough: `cexpr_parce_3_level` returns. -/
theorem cexpr_parce_3_level_total (str : List Char) (len : Nat) :
    ∃ r, cexpr_parce_run str len = some r := by
  have hb := next_token_budget (cexpr_tokenizer_init str len)
  have hs : (cexpr_tokenizer_init str len).str_cur = str := rfl
  rw [hs] at hb
  obtain ⟨r, hr, _⟩ := (parce_total_aux (cexpr_parce_fuel str)).2.2.2.2.2.2
    (cexpr_parse_next_token (cexpr_tokenizer_init str len))
    (by unfold cexpr_parce_fuel; omega)
  exact ⟨r, hr⟩

/-- What `cexpr_parce_impl` computes is what the level-3 parser returns with any fuel that is
enough for it. -/
theorem cexpr_parce_run_eq {str : List Char} {len : Nat} {r : NodePtr × CExprTokenizer}
    (h : Run3 (cexpr_parse_next_token (cexpr_tokenizer_init str len)) r) :
    cexpr_parce_run str len = some r := by
  obtain ⟨n, hn⟩ := h
  obtain ⟨r2, hr2⟩ := cexpr_parce_3_level_total str len
  have e1 := (fuel_mono_le (le_max_left n (cexpr_parce_fuel str))).2.2.2.2.2.2 _ _ hn
  have e2 := (fuel_mono_le (le_max_right n (cexpr_parce_fuel str))).2.2.2.2.2.2 _ _ hr2
  rw [e1] at e2
  rw [hr2, ← Option.some.inj e2]
/-! ## The tokenizer on a text without NUL, read to its end (`str_end` at the end of the buffer) -/

theorem advance_while_zero (p : Char → Bool) (l : List Char) :
    advance_while p 0 l = l.dropWhile p := by
  induction l with
  | nil => rfl
  | cons c cs ih =>
    rw [advance_while, List.dropWhile_cons]
    by_cases hp : p c = true
    · simp [hp, ih]
    · simp [hp]

theorem next_token_str_end (tk : CExprTokenizer) :
    (cexpr_parse_next_token tk).str_end = tk.str_end := by
  unfold cexpr_parse_next_token
  dsimp only
  split_ifs <;> rfl

theorem next_token_is_valid (tk : CExprTokenizer) :
    (cexpr_parse_next_token tk).is_valid = tk.is_valid := by
  unfold cexpr_parse_next_token
  dsimp only
  split_ifs <;> rfl

theorem all_space_forall {ws : List Char} (h : all_space ws = true) :
    ∀ c ∈ ws, isspace c = true := by
  simpa [all_space] using h

theorem dropWhile_space_append {ws : List Char} (h : all_space ws = true) (r : List Char) :
    (ws ++ r).dropWhile isspace = r.dropWhile isspace :=
  List.dropWhile_append_of_pos (all_space_forall h)

/-- Leading whitespace is skipped. -/
theorem next_token_skip {tk : CExprTokenizer} {ws r : List Char} (he : tk.str_end = [])
    (hc : tk.str_cur = ws ++ r) (hw : all_space ws = true) :
    cexpr_parse_next_token tk = cexpr_parse_next_token { tk with str_cur := r } := by
  unfold cexpr_parse_next_token
  simp only [he, hc, List.length_nil, advance_while_zero, dropWhile_space_append hw]

theorem first_char_append {ws : List Char} (h : all_space ws = true) (r : List Char) :
    first_char (ws ++ r) = first_char r := by
  unfold first_char
  rw [dropWhile_space_append h]

theorem is_char_token_not_space {c : Char} (h : is_char_token c = true) : isspace c = false := by
  simp only [is_char_token, Bool.or_eq_true, beq_iff_eq] at h
  rcases h with ((((((h | h) | h) | h) | h) | h) | h) <;> subst h <;> decide

theorem first_char_cons {c : Char} (h : isspace c = false) (r : List Char) :
    first_char (c :: r) = some c := by
  simp [first_char, List.dropWhile_cons, h]

/-- A single-character token is read. -/
theorem next_token_char {k : CExprTokenizer} {c : Char} {r : List Char} (he : k.str_end = [])
    (hc : k.str_cur = c :: r) (h : is_char_token c = true) :
    cexpr_parse_next_token k =
      { k with str_cur := r, cur_token_type := TK_CHAR, char_token_value := c } := by
  unfold cexpr_parse_next_token
  have hs := is_char_token_not_space h
  simp [he, hc, advance_while_zero, List.dropWhile_cons, hs, h]

/-- At the end of the text the token is `TK_EOF`. -/
theorem next_token_eof {k : CExprTokenizer} (he : k.str_end = []) (hc : k.str_cur = []) :
    cexpr_parse_next_token k = { k with cur_token_type := TK_EOF } := by
  unfold cexpr_parse_next_token
  simp [he, hc, advance_while_zero]
theorem stops_cases {r : List Char} (h : stops r = true) :
    r = [] ∨ ∃ c r', r = c :: r' ∧ isalnum c = false ∧ c ≠ '_' ∧ c ≠ '.' := by
  cases r with
  | nil => exact Or.inl rfl
  | cons c r' =>
    refine Or.inr ⟨c, r', rfl, ?_⟩
    simpa [stops, and_assoc] using h

theorem not_alnum_not_digit {c : Char} (h : isalnum c = false) : isdigit c = false := by
  simp only [isalnum, Bool.or_eq_false_iff] at h
  exact h.2

theorem not_alnum_not_alpha {c : Char} (h : isalnum c = false) : isalpha c = false := by
  simp only [isalnum, Bool.or_eq_false_iff] at h
  exact h.1

theorem stops_dropWhile {p : Char → Bool} {r : List Char}
    (h : ∀ c r', r = c :: r' → p c = false) (x : List Char) :
    (x ++ r).takeWhile p = x.takeWhile p ∧ (x ++ r).dropWhile p = x.dropWhile p ++ r := by
  induction x with
  | nil =>
    cases r with
    | nil => simp
    | cons c r' => simp [List.takeWhile_cons, List.dropWhile_cons, h c r' rfl]
  | cons a x ih =>
    simp only [List.cons_append, List.takeWhile_cons, List.dropWhile_cons]
    by_cases hp : p a = true
    · simp [hp, ih.1, ih.2]
    · simp [hp]

theorem is_identifier_cons {a : List Char} (h : is_identifier a = true) :
    ∃ c cs, a = c :: cs ∧ (isalpha c || c == '_') = true ∧
      ∀ d ∈ cs, (isalnum d || d == '_') = true := by
  cases a with
  | nil => simp [is_identifier] at h
  | cons c cs =>
    refine ⟨c, cs, rfl, ?_⟩
    simpa [is_identifier] using h

theorem alpha_not_space {c : Char} (h : (isalpha c || c == '_') = true) : isspace c = false := by
  by_contra hs
  simp only [Bool.not_eq_false] at hs
  simp only [isspace, Bool.or_eq_true, beq_iff_eq] at hs
  rcases hs with (((((hs | hs) | hs) | hs) | hs) | hs) <;> subst hs <;> revert h <;> decide

theorem alpha_not_char_token {c : Char} (h : (isalpha c || c == '_') = true) :
    is_char_token c = false := by
  by_contra hs
  simp only [Bool.not_eq_false] at hs
  simp only [is_char_token, Bool.or_eq_true, beq_iff_eq] at hs
  rcases hs with ((((((hs | hs) | hs) | hs) | hs) | hs) | hs) <;> subst hs <;> revert h <;> decide

theorem char_le_iff (a b : Char) : a ≤ b ↔ a.toNat ≤ b.toNat := Iff.rfl

theorem digit_not_alpha {c : Char} (h : isdigit c = true) : (isalpha c || c == '_') = false := by
  by_contra hx
  simp only [Bool.not_eq_false, Bool.or_eq_true, beq_iff_eq, isalpha, Bool.and_eq_true,
    decide_eq_true_eq, char_le_iff] at hx
  simp only [isdigit, Bool.and_eq_true, decide_eq_true_eq, char_le_iff] at h
  have e1 : '9'.toNat = 57 := rfl
  have e2 : 'a'.toNat = 97 := rfl
  have e3 : 'A'.toNat = 65 := rfl
  rcases hx with (hx | hx) | hx
  · omega
  · omega
  · subst hx
    revert h
    decide

theorem stops_not_digit {r : List Char} (h : stops r = true) :
    ∀ c r', r = c :: r' → isdigit c = false := by
  intro c r' hr
  rcases stops_cases h with h | ⟨c', r'', h, ha, _, _⟩
  · simp [h] at hr
  · rw [h] at hr
    obtain ⟨rfl, _⟩ := List.cons.inj hr
    exact not_alnum_not_digit ha

theorem stops_not_idchar {r : List Char} (h : stops r = true) :
    ∀ c r', r = c :: r' → (fun d => isalnum d || d == '_') c = false := by
  intro c r' hr
  rcases stops_cases h with h | ⟨c', r'', h, ha, hu, _⟩
  · simp [h] at hr
  · rw [h] at hr
    obtain ⟨rfl, _⟩ := List.cons.inj hr
    simp [ha, hu]

/-- An identifier is read up to a character that cannot continue it. -/
theorem next_token_id {tk : CExprTokenizer} {a r : List Char} (he : tk.str_end = [])
    (hc : tk.str_cur = a ++ r) (ha : is_identifier a = true) (hr : stops r = true) :
    cexpr_parse_next_token tk =
      { tk with id_token_begin := a ++ r, cur_token_type := TK_ID, str_cur := r,
                id_token_length := a.length } := by
  obtain ⟨c, cs, rfl, hc1, hcs⟩ := is_identifier_cons ha
  have hs := alpha_not_space hc1
  have ht := alpha_not_char_token hc1
  have hd : (c == '.' || isdigit c) = false := by
    by_contra hx
    simp only [Bool.not_eq_false, Bool.or_eq_true, beq_iff_eq] at hx
    rcases hx with hx | hx
    · subst hx; revert hc1; decide
    · rw [digit_not_alpha hx] at hc1
      exact Bool.false_ne_true hc1
  have hdw : (cs ++ r).dropWhile (fun d => isalnum d || d == '_') = r := by
    rw [(stops_dropWhile (stops_not_idchar hr) cs).2]
    rw [List.dropWhile_eq_nil_iff.mpr hcs, List.nil_append]
  unfold cexpr_parse_next_token
  simp [he, hc, advance_while_zero, List.dropWhile_cons, hs, ht, hd, hc1, hdw]
  omega
theorem stops_head_ne {r : List Char} (h : stops r = true) {d : Char} (hd : isalnum d = true ∨ d = '.') :
    r.head? ≠ some d := by
  rcases stops_cases h with h | ⟨c, r', h, ha, _, hdot⟩
  · simp [h]
  · rw [h]
    simp only [List.head?_cons, ne_eq, Option.some.injEq]
    rintro rfl
    rcases hd with hd | hd
    · rw [ha] at hd; exact Bool.false_ne_true hd
    · exact hdot hd

theorem strtod_exponent_stops {r : List Char} (h : stops r = true) :
    strtod_exponent r = (0, r) := by
  rcases stops_cases h with h | ⟨c, r', h, ha, _, _⟩
  · subst h; rfl
  · subst h
    have he : (c == 'e' || c == 'E') = false := by
      by_contra hx
      simp only [Bool.not_eq_false, Bool.or_eq_true, beq_iff_eq] at hx
      rcases hx with hx | hx <;> subst hx <;> revert ha <;> decide
    simp [strtod_exponent, he]

theorem strtod_exponent_append {x r : List Char} (hx : (strtod_exponent x).2 = [])
    (hr : stops r = true) : strtod_exponent (x ++ r) = ((strtod_exponent x).1, r) := by
  cases x with
  | nil => simpa [strtod_exponent] using strtod_exponent_stops hr
  | cons c t =>
    have hd := stops_dropWhile (stops_not_digit hr)
    unfold strtod_exponent at hx ⊢
    simp only [List.cons_append] at hx ⊢
    by_cases he : (c == 'e' || c == 'E') = true
    · simp only [he, if_true] at hx ⊢
      cases t with
      | nil => simp at hx
      | cons d t' =>
        simp only [List.cons_append, List.head?_cons, List.tail_cons] at hx ⊢
        by_cases hs : (some d == some '-' || some d == some '+') = true
        · simp only [hs, if_true] at hx ⊢
          rw [(hd t').1, (hd t').2]
          by_cases hem : (List.takeWhile isdigit t').isEmpty = true
          · simp [hem] at hx
          · simp only [hem] at hx ⊢
            simp only [Bool.false_eq_true, if_false] at hx ⊢
            rw [hx]
            simp
        · simp only [hs] at hx ⊢
          simp only [Bool.false_eq_true, if_false] at hx ⊢
          rw [← List.cons_append, (hd (d :: t')).1, (hd (d :: t')).2]
          by_cases hem : (List.takeWhile isdigit (d :: t')).isEmpty = true
          · simp [hem] at hx
          · simp only [hem] at hx ⊢
            simp only [Bool.false_eq_true, if_false] at hx ⊢
            rw [hx]
            simp
    · simp [he] at hx

theorem strtod_append {a r : List Char} (ha : is_number_literal a = true) (hr : stops r = true) :
    strtod (a ++ r) = ((strtod a).1, r) := by
  simp only [is_number_literal, Bool.and_eq_true, Bool.not_eq_true', List.isEmpty_eq_true,
    List.isEmpty_eq_false] at ha
  obtain ⟨hne, hx⟩ := ha
  have hd := stops_dropWhile (stops_not_digit hr)
  unfold strtod at hx ⊢
  simp only [(hd a).1, (hd a).2] at hx ⊢
  generalize List.dropWhile isdigit a = r1 at hx ⊢
  generalize List.takeWhile isdigit a = ip at hx ⊢
  cases r1 with
  | nil =>
    have hdot : (r.head? == some '.') = false := by
      simpa using stops_head_ne hr (Or.inr rfl)
    have hn : ((none : Option Char) == some '.') = false := rfl
    simp only [List.nil_append, hdot, List.head?_nil, hn] at hx ⊢
    simp only [Bool.false_eq_true, if_false] at hx ⊢
    by_cases hi : (ip.isEmpty && ([] : List Char).isEmpty) = true
    · simp only [hi, if_true] at hx
      exact absurd hx hne
    · simp only [hi] at hx ⊢
      simp only [Bool.false_eq_true, if_false] at hx ⊢
      rw [strtod_exponent_stops hr]
      simp [strtod_exponent]
  | cons c t =>
    simp only [List.cons_append, List.head?_cons, List.tail_cons] at hx ⊢
    by_cases hdot : (some c == some '.') = true
    · simp only [hdot, if_true, (hd t).1, (hd t).2] at hx ⊢
      by_cases hi : (ip.isEmpty && (List.takeWhile isdigit t).isEmpty) = true
      · simp only [hi, if_true] at hx
        exact absurd hx hne
      · simp only [hi] at hx ⊢
        simp only [Bool.false_eq_true, if_false] at hx ⊢
        rw [strtod_exponent_append hx hr]
    · simp only [hdot] at hx ⊢
      simp only [Bool.false_eq_true, if_false] at hx ⊢
      by_cases hi : (ip.isEmpty && ([] : List Char).isEmpty) = true
      · simp only [hi, if_true] at hx
        exact absurd hx hne
      · simp only [hi] at hx ⊢
        simp only [Bool.false_eq_true, if_false] at hx ⊢
        rw [← List.cons_append, strtod_exponent_append hx hr]

theorem number_literal_head {a : List Char} (ha : is_number_literal a = true) :
    ∃ c cs, a = c :: cs ∧ (c == '.' || isdigit c) = true := by
  simp only [is_number_literal, Bool.and_eq_true, Bool.not_eq_true', List.isEmpty_eq_true,
    List.isEmpty_eq_false] at ha
  obtain ⟨hne, hx⟩ := ha
  cases a with
  | nil => exact absurd rfl hne
  | cons c cs =>
    refine ⟨c, cs, rfl, ?_⟩
    by_contra hc
    simp only [Bool.not_eq_true, Bool.or_eq_false_iff, beq_eq_false_iff_ne] at hc
    have h1 : strtod (c :: cs) = (0, c :: cs) := by
      simp [strtod, List.takeWhile_cons, List.dropWhile_cons, hc.2, hc.1]
    rw [h1] at hx
    exact absurd hx hne

theorem digit_not_space {c : Char} (h : (c == '.' || isdigit c) = true) : isspace c = false := by
  by_contra hs
  simp only [Bool.not_eq_false] at hs
  simp only [isspace, Bool.or_eq_true, beq_iff_eq] at hs
  rcases hs with (((((hs | hs) | hs) | hs) | hs) | hs) <;> subst hs <;> revert h <;> decide

theorem digit_not_char_token {c : Char} (h : (c == '.' || isdigit c) = true) :
    is_char_token c = false := by
  by_contra hs
  simp only [Bool.not_eq_false] at hs
  simp only [is_char_token, Bool.or_eq_true, beq_iff_eq] at hs
  rcases hs with ((((((hs | hs) | hs) | hs) | hs) | hs) | hs) <;> subst hs <;> revert h <;> decide

/-- A number literal is read up to a character that cannot continue it. -/
theorem next_token_number {tk : CExprTokenizer} {a r : List Char} (he : tk.str_end = [])
    (hc : tk.str_cur = a ++ r) (ha : is_number_literal a = true) (hr : stops r = true) :
    cexpr_parse_next_token tk =
      { tk with cur_token_type := TK_NUMBER, number_token_value := (strtod a).1,
                str_cur := r } := by
  obtain ⟨c, cs, hcs, hc1⟩ := number_literal_head ha
  have hs := digit_not_space hc1
  have ht := digit_not_char_token hc1
  have hap := strtod_append ha hr
  subst hcs
  unfold cexpr_parse_next_token
  simp only [List.cons_append] at hap
  simp [he, hc, advance_while_zero, List.dropWhile_cons, hs, ht, hc1, hap]

theorem nul_not_digit : ∀ (c : Char) (r' : List Char) (y : List Char),
    NUL :: y = c :: r' → isdigit c = false := by
  intro c r' y h
  obtain ⟨rfl, _⟩ := List.cons.inj h
  decide

theorem strtod_exponent_keeps_nul (z y : List Char) :
    ∃ z', (strtod_exponent (z ++ NUL :: y)).2 = z' ++ NUL :: y := by
  have hd := stops_dropWhile (p := isdigit) (r := NUL :: y) (fun c r' h => nul_not_digit c r' y h)
  cases z with
  | nil =>
    have h0 : (NUL == 'e' || NUL == 'E') = false := by decide
    refine ⟨[], ?_⟩
    unfold strtod_exponent
    simp only [List.nil_append, h0, Bool.false_eq_true, if_false]
  | cons c t =>
    unfold strtod_exponent
    simp only [List.cons_append]
    by_cases he : (c == 'e' || c == 'E') = true
    · simp only [he, if_true]
      cases t with
      | nil =>
        refine ⟨[c], ?_⟩
        have h1 : ((some NUL : Option Char) == some '-' || (some NUL : Option Char) == some '+')
          = false := by decide
        have h2 : isdigit NUL = false := by decide
        simp only [List.nil_append, List.head?_cons, h1, Bool.false_eq_true, if_false,
          List.takeWhile_cons, h2, List.isEmpty_nil, if_true, List.singleton_append]
      | cons d t' =>
        simp only [List.cons_append, List.head?_cons, List.tail_cons]
        by_cases hs : (some d == some '-' || some d == some '+') = true
        · simp only [hs, if_true, (hd t').1, (hd t').2]
          by_cases hem : (List.takeWhile isdigit t').isEmpty = true
          · exact ⟨c :: d :: t', by simp [hem]⟩
          · exact ⟨List.dropWhile isdigit t', by simp [hem]⟩
        · simp only [hs]
          simp only [Bool.false_eq_true, if_false]
          rw [← List.cons_append, (hd (d :: t')).1, (hd (d :: t')).2]
          by_cases hem : (List.takeWhile isdigit (d :: t')).isEmpty = true
          · exact ⟨c :: d :: t', by simp [hem]⟩
          · exact ⟨List.dropWhile isdigit (d :: t'), by simp [hem]⟩
    · exact ⟨c :: t, by simp [he]⟩

theorem strtod_keeps_nul (x y : List Char) :
    ∃ z, (strtod (x ++ NUL :: y)).2 = z ++ NUL :: y := by
  have hd := stops_dropWhile (p := isdigit) (r := NUL :: y) (fun c r' h => nul_not_digit c r' y h)
  unfold strtod
  simp only [(hd x).1, (hd x).2]
  generalize List.dropWhile isdigit x = r1
  generalize List.takeWhile isdigit x = ip
  cases r1 with
  | nil =>
    have hn : ((some NUL : Option Char) == some '.') = false := by decide
    simp only [List.nil_append, List.head?_cons, hn]
    simp only [Bool.false_eq_true, if_false]
    by_cases hi : (ip.isEmpty && ([] : List Char).isEmpty) = true
    · exact ⟨x, by simp only [hi, if_true]⟩
    · simp only [hi]
      simp only [Bool.false_eq_true, if_false]
      exact strtod_exponent_keeps_nul [] y
  | cons c t =>
    simp only [List.cons_append, List.head?_cons, List.tail_cons]
    by_cases hdot : (some c == some '.') = true
    · simp only [hdot, if_true, (hd t).1, (hd t).2]
      by_cases hi : (ip.isEmpty && (List.takeWhile isdigit t).isEmpty) = true
      · exact ⟨x, by simp only [hi, if_true]⟩
      · simp only [hi]
        simp only [Bool.false_eq_true, if_false]
        exact strtod_exponent_keeps_nul _ y
    · simp only [hdot]
      simp only [Bool.false_eq_true, if_false]
      by_cases hi : (ip.isEmpty && ([] : List Char).isEmpty) = true
      · exact ⟨x, by simp only [hi, if_true]⟩
      · simp only [hi]
        simp only [Bool.false_eq_true, if_false]
        rw [← List.cons_append]
        exact strtod_exponent_keeps_nul _ y

theorem number_literal_no_nul {a : List Char} (ha : is_number_literal a = true) :
    no_nul a = true := by
  simp only [is_number_literal, Bool.and_eq_true, Bool.not_eq_true', List.isEmpty_eq_true,
    List.isEmpty_eq_false] at ha
  by_contra hn
  simp only [no_nul, List.all_eq_true, bne_iff_ne, ne_eq, not_forall, Decidable.not_not] at hn
  obtain ⟨c, hc, rfl⟩ := hn
  obtain ⟨x, y, rfl⟩ := List.append_of_mem hc
  obtain ⟨z, hz⟩ := strtod_keeps_nul x y
  rw [ha.2] at hz
  simp at hz

theorem identifier_no_nul {a : List Char} (ha : is_identifier a = true) : no_nul a = true := by
  obtain ⟨c, cs, rfl, hc, hcs⟩ := is_identifier_cons ha
  simp only [no_nul, List.all_cons, Bool.and_eq_true, bne_iff_ne, ne_eq, List.all_eq_true]
  refine ⟨?_, ?_⟩
  · rintro rfl
    revert hc
    decide
  · rintro d hd rfl
    have := hcs _ hd
    revert this
    decide

/-! ## Parsing a text in front of a continuation -/

theorem next_at_char {k : CExprTokenizer} (he : k.str_end = []) {c : Char}
    (hc : is_char_token c = true) :
    (cexpr_parse_next_token k).at_char c = (first_char k.str_cur == some c) := by
  unfold cexpr_parse_next_token first_char
  simp only [he, List.length_nil, advance_while_zero]
  generalize List.dropWhile isspace k.str_cur = aw
  cases aw with
  | nil => simp [CExprTokenizer.at_char]
  | cons c0 t =>
    simp only [List.length_cons, List.headD_cons, List.tail_cons, List.head?_cons]
    by_cases h0 : is_char_token c0 = true
    · simp [h0, CExprTokenizer.at_char]
    · have hne : (c0 == c) = false := by
        rw [beq_eq_false_iff_ne]
        rintro rfl
        exact h0 hc
      have hl : ¬(t.length + 1 = 0) := by omega
      simp only [h0, hl, if_false, Option.some_beq_some, hne]
      by_cases h1 : (c0 == '.' || isdigit c0) = true
      · simp only [h1, if_true]
        exact at_char_of_type_ne c (by simp)
      · simp only [h1, if_false]
        by_cases h2 : (isalpha c0 || c0 == '_') = true
        · simp only [h2, if_true]
          exact at_char_of_type_ne c (by simp)
        · simp only [h2, if_false]
          exact at_char_of_type_ne c (by simp)

theorem follow0_stops {r : List Char} (h : follow0 r = true) : stops r = true := by
  simp only [follow0, Bool.and_eq_true] at h
  exact h.1

theorem follow2_follow0 {r : List Char} (h : follow2 r = true) : follow0 r = true := by
  simp only [follow2, Bool.and_eq_true] at h
  exact h.1.1

theorem follow3_follow2 {r : List Char} (h : follow3 r = true) : follow2 r = true := by
  simp only [follow3, Bool.and_eq_true] at h
  exact h.1.1

theorem next_not_paren {tk : CExprTokenizer} (he : tk.str_end = [])
    (h : follow0 tk.str_cur = true) : (cexpr_parse_next_token tk).at_char '(' = false := by
  rw [next_at_char he (by decide)]
  simp only [follow0, Bool.and_eq_true, bne_iff_ne, ne_eq] at h
  simpa using h.2

theorem next_not_mul {tk : CExprTokenizer} (he : tk.str_end = [])
    (h : follow2 tk.str_cur = true) :
    ((cexpr_parse_next_token tk).at_char '*' || (cexpr_parse_next_token tk).at_char '/')
      = false := by
  rw [next_at_char he (by decide), next_at_char he (by decide)]
  simp only [follow2, Bool.and_eq_true, bne_iff_ne, ne_eq] at h
  simp [h.1.2, h.2]

theorem next_not_add {tk : CExprTokenizer} (he : tk.str_end = [])
    (h : follow3 tk.str_cur = true) :
    ((cexpr_parse_next_token tk).at_char '+' || (cexpr_parse_next_token tk).at_char '-')
      = false := by
  rw [next_at_char he (by decide), next_at_char he (by decide)]
  simp only [follow3, Bool.and_eq_true, bne_iff_ne, ne_eq] at h
  simp [h.1.2, h.2]

/-- An identifier not followed by `(` is a primary: a variable node that points at it. -/
theorem identifier_is_primary {a : List Char} (ha : is_identifier a = true) :
    IsPrimary a (fun rest => .variable (a ++ rest) a.length) := by
  refine ⟨identifier_no_nul ha, ?_⟩
  intro rest tk hf hc he
  have ht := next_token_id he hc ha (follow0_stops hf)
  refine ⟨cexpr_parse_next_token tk, ?_, ?_, ?_, ?_⟩
  · have hv := run0_variable (k := cexpr_parse_next_token tk) (by rw [ht])
      (next_not_paren (by rw [ht]; exact he) (by rw [ht]; exact hf))
    rw [ht] at hv ⊢
    exact hv
  · rw [ht]
  · rw [ht]; exact he
  · rw [ht]

/-- A number literal is a primary: a literal node of its value. -/
theorem number_is_primary {a : List Char} (ha : is_number_literal a = true) :
    IsPrimary a (fun _ => .literal (strtod a).1) := by
  refine ⟨number_literal_no_nul ha, ?_⟩
  intro rest tk hf hc he
  have ht := next_token_number he hc ha (follow0_stops hf)
  refine ⟨cexpr_parse_next_token tk, ?_, ?_, ?_, ?_⟩
  · have hv := run0_number (k := cexpr_parse_next_token tk) (by rw [ht])
    rw [ht] at hv ⊢
    exact hv
  · rw [ht]
  · rw [ht]; exact he
  · rw [ht]
theorem run0_deterministic {tk : CExprTokenizer} {r r' : NodePtr × CExprTokenizer}
    (h : Run0 tk r) (h' : Run0 tk r') : r = r' := by
  obtain ⟨n, hn⟩ := h
  obtain ⟨m, hm⟩ := h'
  have e1 := (fuel_mono_le (le_max_left n m)).1 _ _ hn
  have e2 := (fuel_mono_le (le_max_right n m)).1 _ _ hm
  rw [e1] at e2
  exact Option.some.inj e2

theorem run3_deterministic {tk : CExprTokenizer} {r r' : NodePtr × CExprTokenizer}
    (h : Run3 tk r) (h' : Run3 tk r') : r = r' := by
  obtain ⟨n, hn⟩ := h
  obtain ⟨m, hm⟩ := h'
  have e1 := (fuel_mono_le (le_max_left n m)).2.2.2.2.2.2 _ _ hn
  have e2 := (fuel_mono_le (le_max_right n m)).2.2.2.2.2.2 _ _ hm
  rw [e1] at e2
  exact Option.some.inj e2

theorem no_nul_append {a b : List Char} : no_nul (a ++ b) = (no_nul a && no_nul b) := by
  simp [no_nul]

theorem all_space_no_nul {w : List Char} (h : all_space w = true) : no_nul w = true := by
  simp only [no_nul, List.all_eq_true, bne_iff_ne, ne_eq]
  rintro c hc rfl
  have := all_space_forall h _ hc
  revert this
  decide

theorem stops_space_append {w : List Char} (h : all_space w = true) {r : List Char}
    (hr : stops r = true) : stops (w ++ r) = true := by
  cases w with
  | nil => exact hr
  | cons c w' =>
    have hc : isspace c = true := all_space_forall h c (List.mem_cons_self _ _)
    have : (isalnum c || c == '_' || c == '.') = false := by
      by_contra hx
      simp only [Bool.not_eq_false] at hx
      simp only [isspace, Bool.or_eq_true, beq_iff_eq] at hc
      rcases hc with (((((hc | hc) | hc) | hc) | hc) | hc) <;> subst hc <;> revert hx <;> decide
    simp [stops, this]

theorem follow0_space_append {w : List Char} (h : all_space w = true) {r : List Char}
    (hr : follow0 r = true) : follow0 (w ++ r) = true := by
  simp only [follow0, Bool.and_eq_true] at hr ⊢
  exact ⟨stops_space_append h hr.1, by rw [first_char_append h]; exact hr.2⟩

theorem follow2_space_append {w : List Char} (h : all_space w = true) {r : List Char}
    (hr : follow2 r = true) : follow2 (w ++ r) = true := by
  simp only [follow2, Bool.and_eq_true] at hr ⊢
  exact ⟨⟨follow0_space_append h hr.1.1, by rw [first_char_append h]; exact hr.1.2⟩,
    by rw [first_char_append h]; exact hr.2⟩

theorem follow3_space_append {w : List Char} (h : all_space w = true) {r : List Char}
    (hr : follow3 r = true) : follow3 (w ++ r) = true := by
  simp only [follow3, Bool.and_eq_true] at hr ⊢
  exact ⟨⟨follow2_space_append h hr.1.1, by rw [first_char_append h]; exact hr.1.2⟩,
    by rw [first_char_append h]; exact hr.2⟩

theorem stops_char_token {c : Char} (h : is_char_token c = true) (r : List Char) :
    stops (c :: r) = true := by
  simp only [is_char_token, Bool.or_eq_true, beq_iff_eq] at h
  rcases h with ((((((h | h) | h) | h) | h) | h) | h) <;> subst h <;> rfl

/-- Leading whitespace does not matter. -/
theorem accepts_space_left {run : CExprTokenizer → NodePtr × CExprTokenizer → Prop}
    {follow : List Char → Bool} {a : List Char} {mk : List Char → NodePtr}
    (h : Accepts run follow a mk) {w : List Char} (hw : all_space w = true) :
    Accepts run follow (w ++ a) mk := by
  refine ⟨by rw [no_nul_append, all_space_no_nul hw, h.1]; rfl, ?_⟩
  intro rest tk hf hc he
  obtain ⟨tk1, h1, h2, h3, h4⟩ := h.2 rest { tk with str_cur := a ++ rest } hf rfl he
  refine ⟨tk1, ?_, h2, h3, h4⟩
  rw [next_token_skip he (by rw [hc, List.append_assoc]) hw]
  exact h1

/-- Trailing whitespace does not matter. -/
theorem accepts_space_right {run : CExprTokenizer → NodePtr × CExprTokenizer → Prop}
    {follow : List Char → Bool} {a : List Char} {mk : List Char → NodePtr}
    (h : Accepts run follow a mk) {w : List Char} (hw : all_space w = true)
    (hfw : ∀ rest, follow rest = true → follow (w ++ rest) = true) :
    Accepts run follow (a ++ w) (fun rest => mk (w ++ rest)) := by
  refine ⟨by rw [no_nul_append, all_space_no_nul hw, h.1]; rfl, ?_⟩
  intro rest tk hf hc he
  obtain ⟨tk1, h1, h2, h3, h4⟩ := h.2 (w ++ rest) tk (hfw rest hf)
    (by rw [hc, List.append_assoc]) he
  refine ⟨{ tk1 with str_cur := rest }, ?_, rfl, h3, h4⟩
  rw [← next_token_skip h3 h2 hw]
  exact h1

theorem run0_sign_fails {tk : CExprTokenizer} {r : NodePtr × CExprTokenizer}
    (hs : (tk.at_char '+' || tk.at_char '-') = true) (h : Run0 tk r) :
    r.2.is_valid = false := by
  have hf : Run0 tk (.null, { tk with is_valid := false }) := by
    rcases Bool.or_eq_true _ _ ▸ hs with hs | hs
    · refine run0_fail (by rw [at_char_type hs]; simp) ?_ (by rw [at_char_type hs]; simp)
      simp only [CExprTokenizer.at_char, at_char_value hs, at_char_type hs]; decide
    · refine run0_fail (by rw [at_char_type hs]; simp) ?_ (by rw [at_char_type hs]; simp)
      simp only [CExprTokenizer.at_char, at_char_value hs, at_char_type hs]; decide
  rw [run0_deterministic h hf]

/-- A primary is accepted by level 1 as it is (it does not start with a sign). -/
theorem primary_accepts1 {a : List Char} {mk : List Char → NodePtr} (h : IsPrimary a mk) :
    Accepts Run1 follow0 a mk := by
  refine ⟨h.1, ?_⟩
  intro rest tk hf hc he
  obtain ⟨tk1, h1, h2, h3, h4⟩ := h.2 rest tk hf hc he
  refine ⟨tk1, run1_plain ?_ h1, h2, h3, h4⟩
  by_contra hs
  simp only [Bool.not_eq_false] at hs
  obtain ⟨tk2, g1, _, _, g4⟩ := h.2 rest { tk with is_valid := true } hf hc he
  have hs2 : ((cexpr_parse_next_token { tk with is_valid := true }).at_char '+' ||
      (cexpr_parse_next_token { tk with is_valid := true }).at_char '-') = true := by
    have e1 := next_at_char (k := tk) he (c := '+') (by decide)
    have e2 := next_at_char (k := tk) he (c := '-') (by decide)
    have e3 := next_at_char (k := { tk with is_valid := true }) he (c := '+') (by decide)
    have e4 := next_at_char (k := { tk with is_valid := true }) he (c := '-') (by decide)
    rw [e3, e4]
    rw [e1, e2] at hs
    exact hs
  have := run0_sign_fails hs2 g1
  simp only [next_token_is_valid] at this
  rw [g4] at this
  exact Bool.noConfusion this
theorem no_nul_cons (c : Char) (s : List Char) : no_nul (c :: s) = (c != NUL && no_nul s) := by
  simp [no_nul]

theorem at_char_mk (tk : CExprTokenizer) (r : List Char) (c d : Char) :
    ({ tk with str_cur := r, cur_token_type := TK_CHAR, char_token_value := c } :
      CExprTokenizer).at_char d = (c == d) := by
  simp [CExprTokenizer.at_char]

/-- A signed primary is accepted by level 1: a unary node over the primary. -/
theorem sign_accepts1 {a : List Char} {mk : List Char → NodePtr} (h : IsPrimary a mk) {s : Char}
    (hs : s = '+' ∨ s = '-') {w : List Char} (hw : all_space w = true) :
    Accepts Run1 follow0 (s :: (w ++ a))
      (fun rest => .operator (unary_operator s) (mk rest) .null) := by
  have hsc : is_char_token s = true := by rcases hs with rfl | rfl <;> decide
  have hsn : (s != NUL) = true := by rcases hs with rfl | rfl <;> decide
  refine ⟨?_, ?_⟩
  · rw [no_nul_cons, hsn, (accepts_space_left h hw).1]
    rfl
  intro rest tk hf hc he
  have ht := next_token_char (k := tk) (c := s) (r := w ++ a ++ rest) he
    (by rw [hc]; simp) hsc
  obtain ⟨tk1, h1, h2, h3, h4⟩ := (accepts_space_left h hw).2 rest
    (cexpr_parse_next_token tk) hf (by rw [ht]) (by rw [ht]; exact he)
  refine ⟨tk1, ?_, h2, h3, by rw [h4, ht]⟩
  have hat : ((cexpr_parse_next_token tk).at_char '+' ||
      (cexpr_parse_next_token tk).at_char '-') = true := by
    rw [ht, at_char_mk, at_char_mk]
    rcases hs with rfl | rfl <;> decide
  have hv : (cexpr_parse_next_token tk).char_token_value = s := by rw [ht]
  have := run1_unary hat h1
  rw [hv] at this
  exact this

/-- No operator and no operand: the loop of level 2 stops where no `*` or `/` follows. -/
theorem loop2_done {w : List Char} (hw : all_space w = true) :
    LoopAccepts RunLoop2 follow0 follow2 w (fun cur _ => cur) := by
  refine ⟨all_space_no_nul hw, fun rest hf => follow0_space_append hw (follow2_follow0 hf), ?_⟩
  intro cur rest tk hf hc he
  refine ⟨{ tk with str_cur := rest }, ?_, rfl, he, rfl⟩
  rw [← next_token_skip he hc hw]
  exact runloop2_stop cur (next_not_mul he (by rw [hc]; exact follow2_space_append hw hf))

/-- No operator and no operand: the loop of level 3 stops where no `+` or `-` follows. -/
theorem loop3_done {w : List Char} (hw : all_space w = true) :
    LoopAccepts RunLoop3 follow2 follow3 w (fun cur _ => cur) := by
  refine ⟨all_space_no_nul hw, fun rest hf => follow2_space_append hw (follow3_follow2 hf), ?_⟩
  intro cur rest tk hf hc he
  refine ⟨{ tk with str_cur := rest }, ?_, rfl, he, rfl⟩
  rw [← next_token_skip he hc hw]
  exact runloop3_stop cur (next_not_add he (by rw [hc]; exact follow3_space_append hw hf))

theorem follow0_operator {w : List Char} (hw : all_space w = true) {o : Char}
    (ho : o = '+' ∨ o = '-' ∨ o = '*' ∨ o = '/') (x : List Char) :
    follow0 (w ++ o :: x) = true := by
  have hc : is_char_token o = true := by rcases ho with rfl | rfl | rfl | rfl <;> decide
  simp only [follow0, Bool.and_eq_true]
  refine ⟨stops_space_append hw (stops_char_token hc x), ?_⟩
  rw [first_char_append hw, first_char_cons (is_char_token_not_space hc)]
  rcases ho with rfl | rfl | rfl | rfl <;> decide

theorem follow2_operator {w : List Char} (hw : all_space w = true) {o : Char}
    (ho : o = '+' ∨ o = '-') (x : List Char) : follow2 (w ++ o :: x) = true := by
  have hc : is_char_token o = true := by rcases ho with rfl | rfl <;> decide
  simp only [follow2, Bool.and_eq_true]
  refine ⟨⟨follow0_operator hw (by tauto) x, ?_⟩, ?_⟩ <;>
    rw [first_char_append hw, first_char_cons (is_char_token_not_space hc)] <;>
    rcases ho with rfl | rfl <;> decide

/-- One more operator and operand in front of what the loop of level 2 accepts. -/
theorem loop2_more {b t : List Char} {mkb : List Char → NodePtr}
    {mk : NodePtr → List Char → NodePtr} (hb : Accepts Run1 follow0 b mkb)
    (ht : LoopAccepts RunLoop2 follow0 follow2 t mk) {o : Char} (ho : o = '*' ∨ o = '/')
    {w1 w2 : List Char} (hw1 : all_space w1 = true) (hw2 : all_space w2 = true) :
    LoopAccepts RunLoop2 follow0 follow2 (w1 ++ o :: (w2 ++ b ++ t))
      (fun cur rest => mk (.operator (binary_operator o) cur (mkb (t ++ rest))) rest) := by
  have hoc : is_char_token o = true := by rcases ho with rfl | rfl <;> decide
  have hon : (o != NUL) = true := by rcases ho with rfl | rfl <;> decide
  refine ⟨?_, fun rest _ => ?_, ?_⟩
  · have h1 := (accepts_space_left hb hw2).1
    rw [no_nul_append, no_nul_cons, no_nul_append, all_space_no_nul hw1, hon, h1, ht.1]
    rfl
  · rw [List.append_assoc]
    exact follow0_operator hw1 (by tauto) _
  intro cur rest tk hf hc he
  -- the operator token
  have e1 : cexpr_parse_next_token tk = cexpr_parse_next_token
      { tk with str_cur := o :: (w2 ++ b ++ t) ++ rest } :=
    next_token_skip he (by rw [hc, List.append_assoc]) hw1
  have e2 := next_token_char (k := { tk with str_cur := o :: (w2 ++ b ++ t) ++ rest })
    (c := o) (r := (w2 ++ b) ++ (t ++ rest)) he (by simp) hoc
  -- the operand
  obtain ⟨tk1, h1, h2, h3, h4⟩ := (accepts_space_left hb hw2).2 (t ++ rest)
    (cexpr_parse_next_token tk) (ht.2.1 rest hf) (by rw [e1, e2]) (by rw [e1, e2]; exact he)
  -- the rest of the loop
  obtain ⟨tk2, g1, g2, g3, g4⟩ := ht.2.2
    (.operator (binary_operator o) cur (mkb (t ++ rest))) rest tk1 hf h2 h3
  refine ⟨tk2, ?_, g2, g3, by rw [g4, h4, e1, e2]⟩
  have hat : ((cexpr_parse_next_token tk).at_char '*' ||
      (cexpr_parse_next_token tk).at_char '/') = true := by
    rw [e1, e2, at_char_mk, at_char_mk]
    rcases ho with rfl | rfl <;> decide
  have hv : (if (cexpr_parse_next_token tk).char_token_value == '*' then CEXPR_OPERATOR_MUL
      else CEXPR_OPERATOR_DIV) = binary_operator o := by
    rw [e1, e2]
    rcases ho with rfl | rfl <;> rfl
  refine runloop2_step hat h1 ?_
  rw [hv]
  exact g1

/-- One more operator and operand in front of what the loop of level 3 accepts. -/
theorem loop3_more {b t : List Char} {mkb : List Char → NodePtr}
    {mk : NodePtr → List Char → NodePtr} (hb : Accepts Run2 follow2 b mkb)
    (ht : LoopAccepts RunLoop3 follow2 follow3 t mk) {o : Char} (ho : o = '+' ∨ o = '-')
    {w1 w2 : List Char} (hw1 : all_space w1 = true) (hw2 : all_space w2 = true) :
    LoopAccepts RunLoop3 follow2 follow3 (w1 ++ o :: (w2 ++ b ++ t))
      (fun cur rest => mk (.operator (binary_operator o) cur (mkb (t ++ rest))) rest) := by
  have hoc : is_char_token o = true := by rcases ho with rfl | rfl <;> decide
  have hon : (o != NUL) = true := by rcases ho with rfl | rfl <;> decide
  refine ⟨?_, fun rest _ => ?_, ?_⟩
  · have h1 := (accepts_space_left hb hw2).1
    rw [no_nul_append, no_nul_cons, no_nul_append, all_space_no_nul hw1, hon, h1, ht.1]
    rfl
  · rw [List.append_assoc]
    exact follow2_operator hw1 ho _
  intro cur rest tk hf hc he
  have e1 : cexpr_parse_next_token tk = cexpr_parse_next_token
      { tk with str_cur := o :: (w2 ++ b ++ t) ++ rest } :=
    next_token_skip he (by rw [hc, List.append_assoc]) hw1
  have e2 := next_token_char (k := { tk with str_cur := o :: (w2 ++ b ++ t) ++ rest })
    (c := o) (r := (w2 ++ b) ++ (t ++ rest)) he (by simp) hoc
  obtain ⟨tk1, h1, h2, h3, h4⟩ := (accepts_space_left hb hw2).2 (t ++ rest)
    (cexpr_parse_next_token tk) (ht.2.1 rest hf) (by rw [e1, e2]) (by rw [e1, e2]; exact he)
  obtain ⟨tk2, g1, g2, g3, g4⟩ := ht.2.2
    (.operator (binary_operator o) cur (mkb (t ++ rest))) rest tk1 hf h2 h3
  refine ⟨tk2, ?_, g2, g3, by rw [g4, h4, e1, e2]⟩
  have hat : ((cexpr_parse_next_token tk).at_char '+' ||
      (cexpr_parse_next_token tk).at_char '-') = true := by
    rw [e1, e2, at_char_mk, at_char_mk]
    rcases ho with rfl | rfl <;> decide
  have hv : (if (cexpr_parse_next_token tk).char_token_value == '+' then CEXPR_OPERATOR_ADD
      else CEXPR_OPERATOR_SUB) = binary_operator o := by
    rw [e1, e2]
    rcases ho with rfl | rfl <;> rfl
  refine runloop3_step hat h1 ?_
  rw [hv]
  exact g1

/-- Level 2: a first operand and then what its loop accepts. -/
theorem level2_chain {a t : List Char} {mka : List Char → NodePtr}
    {mk : NodePtr → List Char → NodePtr} (ha : Accepts Run1 follow0 a mka)
    (ht : LoopAccepts RunLoop2 follow0 follow2 t mk) :
    Accepts Run2 follow2 (a ++ t) (fun rest => mk (mka (t ++ rest)) rest) := by
  refine ⟨by rw [no_nul_append, ha.1, ht.1]; rfl, ?_⟩
  intro rest tk hf hc he
  obtain ⟨tk1, h1, h2, h3, h4⟩ := ha.2 (t ++ rest) tk (ht.2.1 rest hf)
    (by rw [hc, List.append_assoc]) he
  obtain ⟨tk2, g1, g2, g3, g4⟩ := ht.2.2 (mka (t ++ rest)) rest tk1 hf h2 h3
  exact ⟨tk2, run2_intro h1 g1, g2, g3, by rw [g4, h4]⟩

/-- Level 3: a first operand and then what its loop accepts. -/
theorem level3_chain {a t : List Char} {mka : List Char → NodePtr}
    {mk : NodePtr → List Char → NodePtr} (ha : Accepts Run2 follow2 a mka)
    (ht : LoopAccepts RunLoop3 follow2 follow3 t mk) :
    Accepts Run3 follow3 (a ++ t) (fun rest => mk (mka (t ++ rest)) rest) := by
  refine ⟨by rw [no_nul_append, ha.1, ht.1]; rfl, ?_⟩
  intro rest tk hf hc he
  obtain ⟨tk1, h1, h2, h3, h4⟩ := ha.2 (t ++ rest) tk (ht.2.1 rest hf)
    (by rw [hc, List.append_assoc]) he
  obtain ⟨tk2, g1, g2, g3, g4⟩ := ht.2.2 (mka (t ++ rest)) rest tk1 hf h2 h3
  exact ⟨tk2, run3_intro h1 g1, g2, g3, by rw [g4, h4]⟩
theorem strlen_no_nul {s : List Char} (h : no_nul s = true) : strlen s = s.length := by
  unfold strlen
  rw [List.takeWhile_eq_self_iff.mpr]
  simpa [no_nul] using h

/-- Where the current token is neither a number, an identifier nor a single-character token,
every level fails: the node is null and `is_valid` is cleared. -/
theorem run3_fail {k : CExprTokenizer} (h1 : k.cur_token_type ≠ TK_NUMBER)
    (h2 : k.cur_token_type ≠ TK_ID) (h3 : k.cur_token_type ≠ TK_CHAR) :
    Run3 k (.null, { k with is_valid := false }) := by
  have hn : ∀ c d, (k.at_char c || k.at_char d) = false := by
    intro c d
    rw [at_char_of_type_ne c h3, at_char_of_type_ne d h3]
    rfl
  have hn' : ∀ c d, (({ k with is_valid := false } : CExprTokenizer).at_char c ||
      ({ k with is_valid := false } : CExprTokenizer).at_char d) = false := hn
  exact run3_intro (run2_intro (run1_plain (hn _ _)
    (run0_fail h1 (at_char_of_type_ne _ h3) h2)) (runloop2_stop _ (hn' _ _)))
    (runloop3_stop _ (hn' _ _))

theorem expression_ne_nil {e : List Char} {mk : List Char → NodePtr} (h : IsExpression e mk) :
    e ≠ [] := by
  rintro rfl
  obtain ⟨tk1, h1, _, _, h4⟩ := h.2 [] (cexpr_tokenizer_init [] 0) rfl rfl rfl
  have ht := next_token_eof (k := cexpr_tokenizer_init [] 0) rfl rfl
  have hf := run3_fail (k := cexpr_parse_next_token (cexpr_tokenizer_init [] 0))
    (by rw [ht]; simp) (by rw [ht]; simp) (by rw [ht]; simp)
  have := congrArg (fun r => r.2.is_valid) (run3_deterministic h1 hf)
  simp only [next_token_is_valid, h4] at this
  exact Bool.noConfusion this

/-- The parse of a complete expression, alone in the text, is its node. -/
theorem parse_expression_of_accepts {e : List Char} {mk : List Char → NodePtr}
    (h : IsExpression e mk) : cexpr_parse_expression e = mk [] := by
  have hne := expression_ne_nil h
  have hlen : e.length ≠ 0 := by
    intro h0
    exact hne (List.length_eq_zero.mp h0)
  obtain ⟨tk1, h1, _, _, h4⟩ := h.2 [] (cexpr_tokenizer_init e e.length) rfl
    (by simp [cexpr_tokenizer_init]) (by simp [cexpr_tokenizer_init])
  have hr := cexpr_parce_run_eq h1
  unfold cexpr_parse_expression cexpr_parse_expression_len cexpr_parce_impl
  rw [strlen_no_nul h.1]
  simp only [hlen, if_false, hr, next_token_is_valid, h4]
  rfl

/-- Level 2 accepts what level 1 accepts, where no `*` or `/` follows. -/
theorem accepts2_of_accepts1 {a : List Char} {mk : List Char → NodePtr}
    (h : Accepts Run1 follow0 a mk) : Accepts Run2 follow2 a mk := by
  have := level2_chain h (loop2_done (w := []) rfl)
  simpa using this

/-- Level 3 accepts what level 2 accepts, where no `+` or `-` follows. -/
theorem accepts3_of_accepts2 {a : List Char} {mk : List Char → NodePtr}
    (h : Accepts Run2 follow2 a mk) : IsExpression a mk := by
  have := level3_chain h (loop3_done (w := []) rfl)
  simpa using this

/-- A primary is a complete expression. -/
theorem primary_is_expression {a : List Char} {mk : List Char → NodePtr} (h : IsPrimary a mk) :
    IsExpression a mk :=
  accepts3_of_accepts2 (accepts2_of_accepts1 (primary_accepts1 h))

theorem follow3_separator {c : Char} (hc : c = ')' ∨ c = ',') (rest : List Char) :
    follow3 (c :: rest) = true := by
  have hs : isspace c = false := by rcases hc with rfl | rfl <;> decide
  have ht : stops (c :: rest) = true := by rcases hc with rfl | rfl <;> rfl
  simp only [follow3, follow2, follow0, first_char_cons hs, ht, Bool.true_and]
  rcases hc with rfl | rfl <;> decide

/-- A complete expression in parentheses is a primary with the same node. -/
theorem paren_is_primary {e : List Char} {mk : List Char → NodePtr} (h : IsExpression e mk)
    {w : List Char} (hw : all_space w = true) :
    IsPrimary ('(' :: (e ++ w ++ [')'])) (fun rest => mk (w ++ ')' :: rest)) := by
  refine ⟨?_, ?_⟩
  · rw [no_nul_cons, no_nul_append, no_nul_append, h.1, all_space_no_nul hw]
    rfl
  intro rest tk hf hc he
  have ht := next_token_char (k := tk) (c := '(') (r := e ++ (w ++ ')' :: rest)) he
    (by rw [hc]; simp) (by decide)
  have hfr : follow3 (w ++ ')' :: rest) = true :=
    follow3_space_append hw (follow3_separator (Or.inl rfl) rest)
  obtain ⟨tk1, h1, h2, h3, h4⟩ := h.2 (w ++ ')' :: rest) (cexpr_parse_next_token tk) hfr
    (by rw [ht]) (by rw [ht]; exact he)
  have e1 : cexpr_parse_next_token tk1 =
      cexpr_parse_next_token { tk1 with str_cur := ')' :: rest } := next_token_skip h3 h2 hw
  have e2 := next_token_char (k := { tk1 with str_cur := ')' :: rest }) (c := ')') (r := rest)
    h3 rfl (by decide)
  refine ⟨cexpr_parse_next_token tk1, ?_, by rw [e1, e2], by rw [e1, e2]; exact h3,
    by rw [e1, e2]; rw [h4, ht]⟩
  exact run0_paren (by rw [ht, at_char_mk]; rfl) h1 (by rw [e1, e2, at_char_mk]; rfl)
/-! ## Name lookup -/

theorem name_loop_shift (c d : Char) (cur name : List Char) (n j : Nat) :
    cexpr_name_loop (c :: cur) (d :: name) n (j + 1) = cexpr_name_loop cur name n j := by
  induction n generalizing j with
  | zero => rfl
  | succ n ih =>
    rw [cexpr_name_loop, cexpr_name_loop, ih]
    simp only [List.getD_cons_succ]

theorem name_matches_cons (c d : Char) (cur name : List Char) (len : Nat) :
    cexpr_name_matches (c :: cur) (d :: name) (len + 1) =
      (c != NUL && c == d && cexpr_name_matches cur name len) := by
  unfold cexpr_name_matches
  rw [cexpr_name_loop, name_loop_shift]
  simp only [List.getD_cons_zero, List.getD_cons_succ]
  by_cases h1 : c = NUL
  · simp [h1]
  · by_cases h2 : c = d
    · simp [h1, h2]
      subst h2
      simp [h1]
    · simp [h1, h2]

theorem c_string_cons (c : Char) (s : List Char) :
    c_string (c :: s) = if c != NUL then c :: c_string s else [] := by
  simp [c_string, List.takeWhile_cons]

/-- The comparison of the lookups succeeds exactly when the stored C string is the queried
slice: the first `len` characters of the query, which must all be there and not NUL. -/
theorem name_matches_iff (cur name : List Char) (len : Nat) :
    cexpr_name_matches cur name len = true ↔
      c_string cur = name.take len ∧ (name.take len).length = len ∧
        no_nul (name.take len) = true := by
  induction len generalizing cur name with
  | zero =>
    cases cur with
    | nil => simp [cexpr_name_matches, cexpr_name_loop, c_string, no_nul]
    | cons c cur =>
      simp only [cexpr_name_matches, cexpr_name_loop, List.getD_cons_zero, Bool.true_and,
        beq_iff_eq, List.take_zero, List.length_nil, no_nul, List.all_nil, and_true,
        c_string_cons]
      by_cases h : c = NUL <;> simp [h]
  | succ len ih =>
    cases cur with
    | nil =>
      cases name with
      | nil => simp [cexpr_name_matches, cexpr_name_loop, c_string]
      | cons d name => simp [cexpr_name_matches, cexpr_name_loop, c_string]
    | cons c cur =>
      cases name with
      | nil =>
        simp only [cexpr_name_matches, cexpr_name_loop, List.getD_cons_zero, List.getD_nil,
          List.take_nil, List.length_nil]
        by_cases h : c = NUL <;> simp [h]
      | cons d name =>
        rw [name_matches_cons]
        simp only [Bool.and_eq_true, ih, List.take_succ_cons, List.length_cons, no_nul_cons,
          c_string_cons, bne_iff_ne, ne_eq, beq_iff_eq]
        by_cases h1 : c = NUL
        · simp [h1]
        · by_cases h2 : c = d
          · subst h2
            simp [h1]
          · simp [h1, h2]
theorem find_variable_loop_miss (m : Option (List CExprVariableBindDesc)) (name : List Char)
    (len n i : Nat)
    (h : ∀ k, i ≤ k → k < i + n → ∃ d s, (m.getD [])[k]? = some d ∧ d.name = some s ∧
      cexpr_name_matches s name len = false) :
    cexpr_find_variable_loop m name len n i = some none := by
  induction n generalizing i with
  | zero => rfl
  | succ n ih =>
    obtain ⟨d, s, hd, hs, hm⟩ := h i (le_refl _) (by omega)
    cases m with
    | none => simp at hd
    | some arr =>
      simp only [Option.getD_some] at hd
      simp only [cexpr_find_variable_loop, hd, hs, hm, Bool.false_eq_true, if_false]
      exact ih (i + 1) (fun k hk1 hk2 => h k (by omega) (by omega))

theorem find_variable_loop_hit (m : Option (List CExprVariableBindDesc)) (name : List Char)
    (len n i k0 : Nat) (d0 : CExprVariableBindDesc) (s0 : List Char) (h1 : i ≤ k0)
    (h2 : k0 < i + n) (hd0 : (m.getD [])[k0]? = some d0) (hs0 : d0.name = some s0)
    (hm0 : cexpr_name_matches s0 name len = true)
    (h : ∀ k, i ≤ k → k < k0 → ∃ d s, (m.getD [])[k]? = some d ∧ d.name = some s ∧
      cexpr_name_matches s name len = false) :
    cexpr_find_variable_loop m name len n i = some d0.value := by
  induction n generalizing i with
  | zero => omega
  | succ n ih =>
    cases m with
    | none => simp at hd0
    | some arr =>
      simp only [Option.getD_some] at hd0 h
      by_cases hik : i = k0
      · subst hik
        simp only [cexpr_find_variable_loop, hd0, hs0, hm0, if_true]
      · obtain ⟨d, s, hd, hs, hm⟩ := h i (le_refl _) (by omega)
        simp only [cexpr_find_variable_loop, hd, hs, hm, Bool.false_eq_true, if_false]
        exact ih (i + 1) (by omega) (by omega) (fun k hk1 hk2 => h k (by omega) hk2)

theorem find_counstant_loop_miss (m : Option (List CExprConstantBindDesc)) (name : List Char)
    (len n i : Nat)
    (h : ∀ k, i ≤ k → k < i + n → ∃ d s, (m.getD [])[k]? = some d ∧ d.name = some s ∧
      cexpr_name_matches s name len = false) :
    cexpr_find_counstant_loop m name len n i = some NAN := by
  induction n generalizing i with
  | zero => rfl
  | succ n ih =>
    obtain ⟨d, s, hd, hs, hm⟩ := h i (le_refl _) (by omega)
    cases m with
    | none => simp at hd
    | some arr =>
      simp only [Option.getD_some] at hd
      simp only [cexpr_find_counstant_loop, hd, hs, hm, Bool.false_eq_true, if_false]
      exact ih (i + 1) (fun k hk1 hk2 => h k (by omega) (by omega))

theorem name_matches_false_of_ne {s name : List Char} {len : Nat}
    (h : c_string s ≠ name.take len) : cexpr_name_matches s name len = false := by
  by_contra hm
  simp only [Bool.not_eq_false] at hm
  exact h ((name_matches_iff s name len).mp hm).1

/-- C8. Unknown name yields NaN: in an environment whose variable and constant tables hold, within
their sizes, entries with valid stored names, a name (the first `len` characters at `name`) that
equals no stored name of either table evaluates, as a variable node, to `NAN`. -/
theorem unknown_name_yields_nan (mem : Nat → Float) (e : CExprExecutor) (name : List Char)
    (len : Nat)
    (hv : ∀ i, i < e.m_var_size → ∃ d s, (e.m_var.getD [])[i]? = some d ∧ d.name = some s ∧
      c_string s ≠ name.take len)
    (hc : ∀ i, i < e.m_const_size → ∃ d s, (e.m_const.getD [])[i]? = some d ∧ d.name = some s ∧
      c_string s ≠ name.take len) :
    cexpr_eval_expression_impl mem (some e) (.variable name len) = some NAN := by
  have h1 : cexpr_find_variable_by_name (some e) name len = some none := by
    unfold cexpr_find_variable_by_name
    by_cases hl : len = 0
    · simp [hl]
    · simp only [hl, if_false]
      refine find_variable_loop_miss _ _ _ _ _ (fun k _ hk => ?_)
      obtain ⟨d, s, hd, hs, hne⟩ := hv k (by omega)
      exact ⟨d, s, hd, hs, name_matches_false_of_ne hne⟩
  have h2 : cexpr_find_counstant_by_name (some e) name len = some NAN := by
    unfold cexpr_find_counstant_by_name
    by_cases hl : len = 0
    · simp [hl]
    · simp only [hl, if_false]
      refine find_counstant_loop_miss _ _ _ _ _ (fun k _ hk => ?_)
      obtain ⟨d, s, hd, hs, hne⟩ := hc k (by omega)
      exact ⟨d, s, hd, hs, name_matches_false_of_ne hne⟩
  rw [cexpr_eval_expression_impl, h1]
  exact h2

theorem unknown_name_yields_nan_witness :
    cexpr_eval_expression_impl example_memory (some example_executor) (.variable "q + 1".toList 1)
      = some NAN :=
  unknown_name_yields_nan example_memory example_executor "q + 1".toList 1
    (by
      intro i hi
      have hi' : i < 1 := hi
      interval_cases i
      exact ⟨_, _, rfl, rfl, by decide⟩)
    (by
      intro i hi
      have hi' : i < 2 := hi
      interval_cases i
      · exact ⟨_, _, rfl, rfl, by decide⟩
      · exact ⟨_, _, rfl, rfl, by decide⟩)
theorem eval_variable_first_match (mem : Nat → Float) (e : CExprExecutor) (name : List Char)
    (len i addr : Nat) (d : CExprVariableBindDesc) (s : List Char)
    (hlen : 0 < len) (hq : (name.take len).length = len) (hnn : no_nul (name.take len) = true)
    (hi : i < e.m_var_size) (hd : (e.m_var.getD [])[i]? = some d) (hs : d.name = some s)
    (hsn : c_string s = name.take len) (ha : d.value = some addr)
    (hfirst : ∀ j, j < i → ∃ dj sj, (e.m_var.getD [])[j]? = some dj ∧ dj.name = some sj ∧
      c_string sj ≠ name.take len) :
    cexpr_eval_expression_impl mem (some e) (.variable name len) = some (mem addr) := by
  have h1 : cexpr_find_variable_by_name (some e) name len = some (some addr) := by
    unfold cexpr_find_variable_by_name
    have hl : len ≠ 0 := by omega
    simp only [hl, if_false]
    rw [← ha]
    refine find_variable_loop_hit _ _ _ _ 0 i d s (Nat.zero_le _) (by omega) hd hs
      ((name_matches_iff s name len).mpr ⟨hsn, hq, hnn⟩) (fun k _ hk => ?_)
    obtain ⟨dj, sj, h1, h2, h3⟩ := hfirst k hk
    exact ⟨dj, sj, h1, h2, name_matches_false_of_ne h3⟩
  rw [cexpr_eval_expression_impl, h1]

/-- C10. Variables shadow constants: when the first variable entry whose stored name is the
queried name (the first `len` characters at `name`, none of them NUL) has a cell pointer, the
variable node evaluates to what that cell holds now, whatever the constant table holds, a
constant of the same name included. -/
theorem variable_shadows_constant (mem : Nat → Float) (e : CExprExecutor) (name : List Char)
    (len i addr : Nat) (d : CExprVariableBindDesc) (s : List Char)
    (hlen : 0 < len) (hq : (name.take len).length = len) (hnn : no_nul (name.take len) = true)
    (hi : i < e.m_var_size) (hd : (e.m_var.getD [])[i]? = some d) (hs : d.name = some s)
    (hsn : c_string s = name.take len) (ha : d.value = some addr)
    (hfirst : ∀ j, j < i → ∃ dj sj, (e.m_var.getD [])[j]? = some dj ∧ dj.name = some sj ∧
      c_string sj ≠ name.take len) :
    cexpr_eval_expression_impl mem (some e) (.variable name len) = some (mem addr) :=
  eval_variable_first_match mem e name len i addr d s hlen hq hnn hi hd hs hsn ha hfirst

theorem variable_shadows_constant_witness :
    cexpr_eval_expression_impl example_memory (some example_executor) (.variable "r*r".toList 1)
      = some (example_memory 7) :=
  variable_shadows_constant example_memory example_executor "r*r".toList 1 0 7
    { name := some "r".toList, value := some 7 } "r".toList (by decide) (by decide) (by decide)
    (by decide) rfl rfl (by decide) rfl (by intro j hj; omega)

theorem eval_variable_of_binds {exec : CExprExecutor} {mem : Nat → Float} {n : List Char}
    {v : Float} (h : binds_variable exec mem n v) (name : List Char) (len : Nat)
    (hlen : 0 < len) (hn : name.take len = n) (hq : n.length = len) (hnn : no_nul n = true) :
    cexpr_eval_expression_impl mem (some exec) (.variable name len) = some v := by
  obtain ⟨i, d, s, addr, hi, hd, hs, hsn, ha, hm, hfirst⟩ := h
  subst hn
  rw [← hm]
  exact eval_variable_first_match mem exec name len i addr d s hlen hq hnn hi hd hs hsn ha hfirst

/-- C9. With the built-in executor, whose constant table is declared with two entries and
initialised with one, a variable node of any non-empty name other than `pi` does not evaluate to
`NAN`: after the entry `pi` the scan reads the zero-initialised second entry and dereferences its
null name. -/
theorem builtin_unknown_name_reads_null (mem : Nat → Float) (name : List Char) (len : Nat)
    (hlen : 0 < len) (hne : name.take len ≠ "pi".toList) :
    cexpr_eval_expr mem (.variable name len) = none := by
  have hl : len ≠ 0 := by omega
  have hm : cexpr_name_matches ['p', 'i'] name len = false :=
    name_matches_false_of_ne (by
      intro h
      exact hne (by rw [← h]; decide))
  unfold cexpr_eval_expr cexpr_executor_eval_expr
  rw [cexpr_eval_expression_impl]
  simp only [cexpr_find_variable_by_name, hl, if_false, __cexpr_buitin_executor,
    cexpr_find_variable_loop, cexpr_find_counstant_by_name, CEXPR_BUILTIN_CONSTANTS_COUNT]
  simp [cexpr_find_counstant_loop, __cexpr_buitin_constants, CEXPR_BUILTIN_CONSTANTS_COUNT, hm]

theorem builtin_unknown_name_reads_null_witness :
    cexpr_eval_expr example_memory (.variable "x".toList 1) = none :=
  builtin_unknown_name_reads_null example_memory "x".toList 1 (by decide) (by decide)
/-! ## Operators: associativity and precedence -/

/-- An identifier or number literal is a primary with the node `operand_node`. -/
theorem operand_is_primary {a : List Char} (h : is_operand a = true) :
    IsPrimary a (operand_node a) := by
  by_cases hi : is_identifier a = true
  · have : operand_node a = fun rest => .variable (a ++ rest) a.length := by
      funext rest
      simp [operand_node, hi]
    rw [this]
    exact identifier_is_primary hi
  · have hn : is_number_literal a = true := by
      simp only [is_operand, Bool.or_eq_true] at h
      exact h.resolve_left hi
    have : operand_node a = fun _ => .literal (strtod a).1 := by
      funext rest
      simp [operand_node, hi]
    rw [this]
    exact number_is_primary hn

theorem additive_chain {a b c : List Char} {mka mkb mkc : List Char → NodePtr}
    (ha : Accepts Run2 follow2 a mka) (hb : Accepts Run2 follow2 b mkb)
    (hc : Accepts Run2 follow2 c mkc) {o1 o2 : Char} (ho1 : o1 = '+' ∨ o1 = '-')
    (ho2 : o2 = '+' ∨ o2 = '-') {w1 w2 w3 w4 w5 : List Char} (hw1 : all_space w1 = true)
    (hw2 : all_space w2 = true) (hw3 : all_space w3 = true) (hw4 : all_space w4 = true)
    (hw5 : all_space w5 = true) :
    cexpr_parse_expression (a ++ (w1 ++ o1 :: (w2 ++ (b ++ (w3 ++ o2 :: (w4 ++ (c ++ w5))))))) =
      .operator (binary_operator o2)
        (.operator (binary_operator o1)
          (mka (w1 ++ o1 :: (w2 ++ (b ++ (w3 ++ o2 :: (w4 ++ (c ++ w5)))))))
          (mkb (w3 ++ o2 :: (w4 ++ (c ++ w5)))))
        (mkc w5) := by
  have h := parse_expression_of_accepts (level3_chain ha
    (loop3_more hb (loop3_more hc (loop3_done hw5) ho2 hw3 hw4) ho1 hw1 hw2))
  simpa only [List.append_assoc, List.cons_append, List.append_nil] using h

theorem multiplicative_chain {a b c : List Char} {mka mkb mkc : List Char → NodePtr}
    (ha : Accepts Run1 follow0 a mka) (hb : Accepts Run1 follow0 b mkb)
    (hc : Accepts Run1 follow0 c mkc) {o1 o2 : Char} (ho1 : o1 = '*' ∨ o1 = '/')
    (ho2 : o2 = '*' ∨ o2 = '/') {w1 w2 w3 w4 w5 : List Char} (hw1 : all_space w1 = true)
    (hw2 : all_space w2 = true) (hw3 : all_space w3 = true) (hw4 : all_space w4 = true)
    (hw5 : all_space w5 = true) :
    cexpr_parse_expression (a ++ (w1 ++ o1 :: (w2 ++ (b ++ (w3 ++ o2 :: (w4 ++ (c ++ w5))))))) =
      .operator (binary_operator o2)
        (.operator (binary_operator o1)
          (mka (w1 ++ o1 :: (w2 ++ (b ++ (w3 ++ o2 :: (w4 ++ (c ++ w5)))))))
          (mkb (w3 ++ o2 :: (w4 ++ (c ++ w5)))))
        (mkc w5) := by
  have h := parse_expression_of_accepts (accepts3_of_accepts2 (level2_chain ha
    (loop2_more hb (loop2_more hc (loop2_done hw5) ho2 hw3 hw4) ho1 hw1 hw2)))
  simpa only [List.append_assoc, List.cons_append, List.append_nil] using h
theorem abc_binds_a : binds_variable abc_executor abc_memory "a".toList (abc_memory 0) :=
  ⟨0, _, _, 0, by decide, rfl, rfl, by decide, rfl, rfl, by intro j hj; omega⟩

theorem abc_binds_b : binds_variable abc_executor abc_memory "b".toList (abc_memory 1) :=
  ⟨1, _, _, 1, by decide, rfl, rfl, by decide, rfl, rfl, by
    intro j hj
    interval_cases j
    exact ⟨_, _, rfl, rfl, by decide⟩⟩

theorem abc_binds_c : binds_variable abc_executor abc_memory "c".toList (abc_memory 2) :=
  ⟨2, _, _, 2, by decide, rfl, rfl, by decide, rfl, rfl, by
    intro j hj
    interval_cases j
    · exact ⟨_, _, rfl, rfl, by decide⟩
    · exact ⟨_, _, rfl, rfl, by decide⟩⟩

theorem eval_operator {mem : Nat → Float} {exec : Option CExprExecutor} {op : Nat}
    {l r : NodePtr} {lv rv : Float} (hl : cexpr_eval_expression_impl mem exec l = some lv)
    (hr : cexpr_eval_expression_impl mem exec r = some rv) :
    cexpr_eval_expression_impl mem exec (.operator op l r) =
      some (cexpr_apply_operator op lv rv) := by
  rw [cexpr_eval_expression_impl, hl, hr]

/-- C4. Binary operators of one precedence level are left-associative: for primaries `x`, `y`,
`z` and operators `o1`, `o2` both additive or both multiplicative, with any whitespace between
the tokens, the text `x o1 y o2 z` parses to the `o2` node over the `o1` node of `x` and `y`, and
`z`; and where the variables `a`, `b`, `c` are bound to `va`, `vb`, `vc`, the parse of
`a - b - c` evaluates to `(va - vb) - vc`. -/
theorem binary_operators_left_associative (x y z : List Char)
    (mkx mky mkz : List Char → NodePtr) (hx : IsPrimary x mkx) (hy : IsPrimary y mky)
    (hz : IsPrimary z mkz) (o1 o2 : Char)
    (ho : ((o1 = '+' ∨ o1 = '-') ∧ (o2 = '+' ∨ o2 = '-')) ∨
      ((o1 = '*' ∨ o1 = '/') ∧ (o2 = '*' ∨ o2 = '/')))
    (w1 w2 w3 w4 w5 : List Char) (hw1 : all_space w1 = true) (hw2 : all_space w2 = true)
    (hw3 : all_space w3 = true) (hw4 : all_space w4 = true) (hw5 : all_space w5 = true)
    (mem : Nat → Float) (exec : CExprExecutor) (va vb vc : Float)
    (hva : binds_variable exec mem "a".toList va) (hvb : binds_variable exec mem "b".toList vb)
    (hvc : binds_variable exec mem "c".toList vc) :
    cexpr_parse_expression (x ++ w1 ++ [o1] ++ w2 ++ y ++ w3 ++ [o2] ++ w4 ++ z ++ w5) =
      .operator (binary_operator o2)
        (.operator (binary_operator o1)
          (mkx (w1 ++ [o1] ++ w2 ++ y ++ w3 ++ [o2] ++ w4 ++ z ++ w5))
          (mky (w3 ++ [o2] ++ w4 ++ z ++ w5)))
        (mkz w5) ∧
    cexpr_executor_eval_expr mem (some exec) (cexpr_parse_expression "a - b - c".toList) =
      some (va - vb - vc) := by
  refine ⟨?_, ?_⟩
  · simp only [List.append_assoc, List.cons_append, List.nil_append]
    rcases ho with ⟨ho1, ho2⟩ | ⟨ho1, ho2⟩
    · exact additive_chain (accepts2_of_accepts1 (primary_accepts1 hx))
        (accepts2_of_accepts1 (primary_accepts1 hy)) (accepts2_of_accepts1 (primary_accepts1 hz))
        ho1 ho2 hw1 hw2 hw3 hw4 hw5
    · exact multiplicative_chain (primary_accepts1 hx) (primary_accepts1 hy)
        (primary_accepts1 hz) ho1 ho2 hw1 hw2 hw3 hw4 hw5
  · have hp : cexpr_parse_expression "a - b - c".toList =
        .operator CEXPR_OPERATOR_SUB
          (.operator CEXPR_OPERATOR_SUB (.variable "a - b - c".toList 1)
            (.variable "b - c".toList 1))
          (.variable "c".toList 1) := by rfl
    rw [hp]
    exact eval_operator
      (eval_operator
        (eval_variable_of_binds hva "a - b - c".toList 1 (by decide) (by decide) (by decide)
          (by decide))
        (eval_variable_of_binds hvb "b - c".toList 1 (by decide) (by decide) (by decide)
          (by decide)))
      (eval_variable_of_binds hvc "c".toList 1 (by decide) (by decide) (by decide) (by decide))

theorem binary_operators_left_associative_witness :
    cexpr_parse_expression "u / 2.5e1*w_1 ".toList =
      .operator CEXPR_OPERATOR_MUL
        (.operator CEXPR_OPERATOR_DIV (operand_node "u".toList " / 2.5e1*w_1 ".toList)
          (operand_node "2.5e1".toList "*w_1 ".toList))
        (operand_node "w_1".toList " ".toList) ∧
    cexpr_executor_eval_expr abc_memory (some abc_executor)
        (cexpr_parse_expression "a - b - c".toList) =
      some (abc_memory 0 - abc_memory 1 - abc_memory 2) :=
  binary_operators_left_associative "u".toList "2.5e1".toList "w_1".toList _ _ _
    (operand_is_primary (by decide)) (operand_is_primary (by decide))
    (operand_is_primary (by decide)) '/' '*' (Or.inr ⟨Or.inr rfl, Or.inl rfl⟩)
    " ".toList " ".toList [] [] " ".toList (by decide) (by decide) (by decide) (by decide)
    (by decide) abc_memory abc_executor _ _ _ abc_binds_a abc_binds_b abc_binds_c
/-- C5. Multiplicative operators bind tighter than additive ones: `a + b * c` parses to the sum
of `a` and the product node, `a * b + c` to the sum of the product node and `c`, and where the
variables `a`, `b`, `c` are bound to `va`, `vb`, `vc` the two parses evaluate to `va + vb * vc`
and `va * vb + vc`. -/
theorem multiplication_binds_tighter (mem : Nat → Float) (exec : CExprExecutor)
    (va vb vc : Float) (hva : binds_variable exec mem "a".toList va)
    (hvb : binds_variable exec mem "b".toList vb)
    (hvc : binds_variable exec mem "c".toList vc) :
    cexpr_parse_expression "a + b * c".toList =
      .operator CEXPR_OPERATOR_ADD (.variable "a + b * c".toList 1)
        (.operator CEXPR_OPERATOR_MUL (.variable "b * c".toList 1) (.variable "c".toList 1)) ∧
    cexpr_parse_expression "a * b + c".toList =
      .operator CEXPR_OPERATOR_ADD
        (.operator CEXPR_OPERATOR_MUL (.variable "a * b + c".toList 1)
          (.variable "b + c".toList 1))
        (.variable "c".toList 1) ∧
    cexpr_executor_eval_expr mem (some exec) (cexpr_parse_expression "a + b * c".toList) =
      some (va + vb * vc) ∧
    cexpr_executor_eval_expr mem (some exec) (cexpr_parse_expression "a * b + c".toList) =
      some (va * vb + vc) := by
  have hp1 : cexpr_parse_expression "a + b * c".toList =
      .operator CEXPR_OPERATOR_ADD (.variable "a + b * c".toList 1)
        (.operator CEXPR_OPERATOR_MUL (.variable "b * c".toList 1) (.variable "c".toList 1)) :=
    by rfl
  have hp2 : cexpr_parse_expression "a * b + c".toList =
      .operator CEXPR_OPERATOR_ADD
        (.operator CEXPR_OPERATOR_MUL (.variable "a * b + c".toList 1)
          (.variable "b + c".toList 1))
        (.variable "c".toList 1) := by rfl
  refine ⟨hp1, hp2, ?_, ?_⟩
  · rw [hp1]
    exact eval_operator
      (eval_variable_of_binds hva "a + b * c".toList 1 (by decide) (by decide) (by decide)
        (by decide))
      (eval_operator
        (eval_variable_of_binds hvb "b * c".toList 1 (by decide) (by decide) (by decide)
          (by decide))
        (eval_variable_of_binds hvc "c".toList 1 (by decide) (by decide) (by decide)
          (by decide)))
  · rw [hp2]
    exact eval_operator
      (eval_operator
        (eval_variable_of_binds hva "a * b + c".toList 1 (by decide) (by decide) (by decide)
          (by decide))
        (eval_variable_of_binds hvb "b + c".toList 1 (by decide) (by decide) (by decide)
          (by decide)))
      (eval_variable_of_binds hvc "c".toList 1 (by decide) (by decide) (by decide) (by decide))

theorem multiplication_binds_tighter_witness :
    cexpr_executor_eval_expr abc_memory (some abc_executor)
        (cexpr_parse_expression "a + b * c".toList) =
      some (abc_memory 0 + abc_memory 1 * abc_memory 2) ∧
    cexpr_executor_eval_expr abc_memory (some abc_executor)
        (cexpr_parse_expression "a * b + c".toList) =
      some (abc_memory 0 * abc_memory 1 + abc_memory 2) :=
  (multiplication_binds_tighter abc_memory abc_executor _ _ _ abc_binds_a abc_binds_b
    abc_binds_c).2.2

/-- The texts `1 * -2` and `2*-3`, a sign right after a binary operator, parse: the root is not
null. -/
theorem sign_after_operator_parses :
    cexpr_parse_expression "1 * -2".toList ≠ NodePtr.null ∧
      cexpr_parse_expression "2*-3".toList ≠ NodePtr.null := by
  have h1 : cexpr_parse_expression "1 * -2".toList =
      .operator CEXPR_OPERATOR_MUL (.literal (strtod "1".toList).1)
        (.operator CEXPR_OPERATOR_MINUS (.literal (strtod "2".toList).1) .null) := by rfl
  have h2 : cexpr_parse_expression "2*-3".toList =
      .operator CEXPR_OPERATOR_MUL (.literal (strtod "2".toList).1)
        (.operator CEXPR_OPERATOR_MINUS (.literal (strtod "3".toList).1) .null) := by rfl
  rw [h1, h2]
  exact ⟨NodePtr.noConfusion, NodePtr.noConfusion⟩

theorem primary_is_expression_of_accepts1 {a : List Char} {mk : List Char → NodePtr}
    (h : Accepts Run1 follow0 a mk) : IsExpression a mk :=
  accepts3_of_accepts2 (accepts2_of_accepts1 h)

theorem signed_operand_chain {a b : List Char} {mka mkb : List Char → NodePtr}
    (ha : IsPrimary a mka) (hb : Accepts Run1 follow0 b mkb) {o : Char}
    (ho : o = '+' ∨ o = '-' ∨ o = '*' ∨ o = '/') {w1 w2 w3 : List Char}
    (hw1 : all_space w1 = true) (hw2 : all_space w2 = true) (hw3 : all_space w3 = true) :
    cexpr_parse_expression (a ++ (w1 ++ o :: (w2 ++ (b ++ w3)))) =
      .operator (binary_operator o) (mka (w1 ++ o :: (w2 ++ (b ++ w3)))) (mkb w3) := by
  have hadd : (o = '+' ∨ o = '-') ∨ (o = '*' ∨ o = '/') := by tauto
  rcases hadd with ho' | ho'
  · have h := parse_expression_of_accepts (level3_chain
      (accepts2_of_accepts1 (primary_accepts1 ha))
      (loop3_more (accepts2_of_accepts1 hb) (loop3_done hw3) ho' hw1 hw2))
    simpa only [List.append_assoc, List.cons_append, List.append_nil] using h
  · have h := parse_expression_of_accepts (accepts3_of_accepts2 (level2_chain
      (primary_accepts1 ha) (loop2_more hb (loop2_done hw3) ho' hw1 hw2)))
    simpa only [List.append_assoc, List.cons_append, List.append_nil] using h

/-- C1, as the code has it. A unary sign directly after a binary operator is accepted: for
operands `a`, `b` (identifiers or number literals), a binary operator `o` and a sign `s`, with
any whitespace between the tokens, the text `a o s b` parses to the `o` node over `a` and the
sign node of `b`, and so does `a o (s b)`. -/
theorem sign_after_operator_accepted (a b : List Char) (ha : is_operand a = true)
    (hb : is_operand b = true) (o s : Char) (ho : o = '+' ∨ o = '-' ∨ o = '*' ∨ o = '/')
    (hs : s = '+' ∨ s = '-') (w1 w2 w3 w4 w5 w6 : List Char) (hw1 : all_space w1 = true)
    (hw2 : all_space w2 = true) (hw3 : all_space w3 = true) (hw4 : all_space w4 = true)
    (hw5 : all_space w5 = true) (hw6 : all_space w6 = true) :
    cexpr_parse_expression (a ++ w1 ++ [o] ++ w2 ++ [s] ++ w3 ++ b ++ w4) =
      .operator (binary_operator o)
        (operand_node a (w1 ++ [o] ++ w2 ++ [s] ++ w3 ++ b ++ w4))
        (.operator (unary_operator s) (operand_node b w4) .null) ∧
    cexpr_parse_expression
        (a ++ w1 ++ [o] ++ w2 ++ ['('] ++ w3 ++ [s] ++ w4 ++ b ++ w5 ++ [')'] ++ w6) =
      .operator (binary_operator o)
        (operand_node a (w1 ++ [o] ++ w2 ++ ['('] ++ w3 ++ [s] ++ w4 ++ b ++ w5 ++ [')'] ++ w6))
        (.operator (unary_operator s) (operand_node b (w5 ++ [')'] ++ w6)) .null) := by
  have pa := operand_is_primary ha
  have pb := operand_is_primary hb
  refine ⟨?_, ?_⟩
  · have h := signed_operand_chain pa (sign_accepts1 pb hs hw3) ho hw1 hw2 hw4
    simpa only [List.append_assoc, List.cons_append, List.nil_append] using h
  · have hp := paren_is_primary (primary_is_expression_of_accepts1
      (accepts_space_left (sign_accepts1 pb hs hw4) hw3)) hw5
    have h := signed_operand_chain pa (primary_accepts1 hp) ho hw1 hw2 hw6
    simpa only [List.append_assoc, List.cons_append, List.nil_append] using h
theorem sign_after_operator_accepted_witness :
    cexpr_parse_expression "1 * -2".toList =
      .operator CEXPR_OPERATOR_MUL (operand_node "1".toList " * -2".toList)
        (.operator CEXPR_OPERATOR_MINUS (operand_node "2".toList []) .null) ∧
    cexpr_parse_expression "1 * (-2)".toList =
      .operator CEXPR_OPERATOR_MUL (operand_node "1".toList " * (-2)".toList)
        (.operator CEXPR_OPERATOR_MINUS (operand_node "2".toList ")".toList) .null) :=
  sign_after_operator_accepted "1".toList "2".toList (by decide) (by decide) '*' '-'
    (Or.inr (Or.inr (Or.inl rfl))) (Or.inr rfl) " ".toList " ".toList [] [] [] []
    (by decide) (by decide) (by decide) (by decide) (by decide) (by decide)

/-! ## Calls -/

theorem run3_of_run0 {tk : CExprTokenizer} {r : NodePtr × CExprTokenizer} (h0 : Run0 tk r)
    (hs : (tk.at_char '+' || tk.at_char '-') = false)
    (h2 : (r.2.at_char '*' || r.2.at_char '/') = false)
    (h3 : (r.2.at_char '+' || r.2.at_char '-') = false) : Run3 tk r :=
  run3_intro (run2_intro (run1_plain hs h0) (runloop2_stop r.1 h2)) (runloop3_stop r.1 h3)

theorem parse_null_of_run {s : List Char} {r : NodePtr × CExprTokenizer}
    (h : Run3 (cexpr_parse_next_token (cexpr_tokenizer_init s (strlen s))) r)
    (hv : r.2.is_valid = false) : cexpr_parse_expression s = .null := by
  unfold cexpr_parse_expression cexpr_parse_expression_len cexpr_parce_impl
  by_cases hl : strlen s = 0
  · simp [hl]
  · simp [hl, cexpr_parce_run_eq h, hv]

theorem at_char_invalidate (tk : CExprTokenizer) (c : Char) :
    ({ tk with is_valid := false } : CExprTokenizer).at_char c = tk.at_char c := rfl

theorem at_char_other {tk : CExprTokenizer} {c : Char} (h : tk.at_char c = true) {d : Char}
    (hd : (c == d) = false) : tk.at_char d = false := by
  simp only [CExprTokenizer.at_char, at_char_type h, at_char_value h, hd, Bool.and_false]

theorem at_char_other_pair {tk : CExprTokenizer} {c : Char} (h : tk.at_char c = true)
    {d e : Char} (hd : (c == d) = false) (he : (c == e) = false) :
    (tk.at_char d || tk.at_char e) = false := by
  rw [at_char_other h hd, at_char_other h he]
  rfl

theorem stops_paren_after_space {w : List Char} (hw : all_space w = true) (x : List Char) :
    stops (w ++ '(' :: x) = true :=
  stops_space_append hw (stops_char_token (by decide) x)

theorem init_str_end {s : List Char} (h : no_nul s = true) :
    (cexpr_tokenizer_init s (strlen s)).str_end = [] := by
  simp [cexpr_tokenizer_init, strlen_no_nul h]

theorem first_char_space {w : List Char} (hw : all_space w = true) : first_char w = none := by
  have := first_char_append hw []
  rwa [List.append_nil] at this

theorem next_at_end {tk : CExprTokenizer} (he : tk.str_end = []) {w : List Char}
    (hc : tk.str_cur = w) (hw : all_space w = true) (c d : Char) (hc1 : is_char_token c = true)
    (hd1 : is_char_token d = true) :
    ((cexpr_parse_next_token tk).at_char c || (cexpr_parse_next_token tk).at_char d) = false := by
  rw [next_at_char he hc1, next_at_char he hd1, hc, first_char_space hw]
  rfl

theorem type_id_not_sign {tk : CExprTokenizer} (h : tk.cur_token_type = TK_ID) (c d : Char) :
    (tk.at_char c || tk.at_char d) = false := by
  rw [at_char_of_type_ne c (by rw [h]; simp), at_char_of_type_ne d (by rw [h]; simp)]
  rfl

/-- After whitespace a single-character token is read. -/
theorem next_char_after_space {tk : CExprTokenizer} {w : List Char} {c : Char} {r : List Char}
    (he : tk.str_end = []) (hc : tk.str_cur = w ++ c :: r) (hw : all_space w = true)
    (hct : is_char_token c = true) :
    (cexpr_parse_next_token tk).at_char c = true ∧ (cexpr_parse_next_token tk).str_cur = r ∧
      (cexpr_parse_next_token tk).str_end = [] ∧
      (cexpr_parse_next_token tk).is_valid = tk.is_valid := by
  have e1 : cexpr_parse_next_token tk = cexpr_parse_next_token { tk with str_cur := c :: r } :=
    next_token_skip he hc hw
  have e2 := next_token_char (k := { tk with str_cur := c :: r }) (c := c) (r := r) he rfl hct
  rw [e1, e2]
  exact ⟨by rw [at_char_mk]; exact beq_self_eq_true c, rfl, he, rfl⟩

theorem empty_call_run {f : List Char} (hf : is_identifier f = true) {w1 w2 w3 : List Char}
    (hw1 : all_space w1 = true) (hw2 : all_space w2 = true) (hw3 : all_space w3 = true)
    {tk : CExprTokenizer} (he : tk.str_end = [])
    (hc : tk.str_cur = f ++ (w1 ++ '(' :: (w2 ++ ')' :: w3))) :
    ∃ r, Run3 (cexpr_parse_next_token tk) r ∧ r.2.is_valid = false := by
  -- the identifier
  have e1 := next_token_id he hc hf (stops_paren_after_space hw1 _)
  have t1 : (cexpr_parse_next_token tk).cur_token_type = TK_ID := by rw [e1]
  have c1 : (cexpr_parse_next_token tk).str_cur = w1 ++ '(' :: (w2 ++ ')' :: w3) := by rw [e1]
  have n1 : (cexpr_parse_next_token tk).str_end = [] := by rw [next_token_str_end, he]
  generalize cexpr_parse_next_token tk = tk1 at t1 c1 n1
  -- the opening parenthesis
  obtain ⟨a2, c2, n2, _⟩ := next_char_after_space n1 c1 hw1 (by decide)
  generalize h2 : cexpr_parse_next_token tk1 = tk2 at a2 c2 n2
  -- the closing parenthesis, met where an argument is expected
  obtain ⟨a3, c3, n3, _⟩ := next_char_after_space n2 c2 hw2 (by decide)
  generalize h3 : cexpr_parse_next_token tk2 = tk3 at a3 c3 n3
  have r0 : Run0 tk3 (.null, { tk3 with is_valid := false }) :=
    run0_fail (by rw [at_char_type a3]; simp) (at_char_other a3 (by decide))
      (by rw [at_char_type a3]; simp)
  have r3 : Run3 tk3 (.null, { tk3 with is_valid := false }) :=
    run3_of_run0 r0 (at_char_other_pair a3 (by decide) (by decide))
      (at_char_other_pair a3 (by decide) (by decide))
      (at_char_other_pair a3 (by decide) (by decide))
  have ra : RunArgs [] tk3 ([NodePtr.null],
      cexpr_parse_next_token { tk3 with is_valid := false }) := runargs_close r3 a3
  have rc : Run0 tk1 (.function_call1 tk1.id_token_begin tk1.id_token_length .null,
      cexpr_parse_next_token { tk3 with is_valid := false }) :=
    @run0_call tk1 (cexpr_parse_next_token { tk3 with is_valid := false }) [NodePtr.null] t1
      (by rw [h2]; exact a2) (by rw [h2, h3]; exact ra)
  have hend : ∀ c d, is_char_token c = true → is_char_token d = true →
      ((cexpr_parse_next_token { tk3 with is_valid := false }).at_char c ||
        (cexpr_parse_next_token { tk3 with is_valid := false }).at_char d) = false :=
    fun c d hc hd => @next_at_end { tk3 with is_valid := false } n3 w3 c3 hw3 c d hc hd
  exact ⟨_, run3_of_run0 rc (type_id_not_sign t1 _ _) (hend _ _ (by decide) (by decide))
    (hend _ _ (by decide) (by decide)), by rw [next_token_is_valid]⟩

/-- C2 fails on the code. The call `f()` of an identifier `f`, with any whitespace between the
tokens, does not parse: the argument loop parses an argument before it looks for `)`, so the
root is null and the `case 0` that builds the node of a call without arguments is never
reached. -/
theorem empty_call_rejected (f : List Char) (hf : is_identifier f = true)
    (w1 w2 w3 : List Char) (hw1 : all_space w1 = true) (hw2 : all_space w2 = true)
    (hw3 : all_space w3 = true) :
    cexpr_parse_expression (f ++ w1 ++ ['('] ++ w2 ++ [')'] ++ w3) = .null := by
  simp only [List.append_assoc, List.cons_append, List.nil_append]
  have hnn : no_nul (f ++ (w1 ++ '(' :: (w2 ++ ')' :: w3))) = true := by
    rw [no_nul_append, no_nul_append, no_nul_cons, no_nul_append, no_nul_cons,
      identifier_no_nul hf, all_space_no_nul hw1, all_space_no_nul hw2, all_space_no_nul hw3]
    rfl
  obtain ⟨r, hr, hv⟩ := empty_call_run hf hw1 hw2 hw3 (init_str_end hnn) rfl
  exact parse_null_of_run hr hv

theorem empty_call_rejected_witness :
    cexpr_parse_expression "f()".toList = NodePtr.null ∧
      cexpr_parse_expression "sqrt ( ) ".toList = NodePtr.null :=
  ⟨empty_call_rejected "f".toList (by decide) [] [] [] (by decide) (by decide) (by decide),
    empty_call_rejected "sqrt".toList (by decide) " ".toList " ".toList " ".toList (by decide)
      (by decide) (by decide)⟩
theorem too_many_arguments_run {f : List Char} (hf : is_identifier f = true) {w : List Char}
    (hw : all_space w = true) {e1 e2 e3 : List Char} {mk1 mk2 mk3 : List Char → NodePtr}
    (h1 : IsExpression e1 mk1) (h2 : IsExpression e2 mk2) (h3 : IsExpression e3 mk3)
    (tail : List Char) {tk : CExprTokenizer} (he : tk.str_end = [])
    (hc : tk.str_cur = f ++ (w ++ '(' :: (e1 ++ ',' :: (e2 ++ ',' :: (e3 ++ ',' :: tail))))) :
    ∃ r, Run3 (cexpr_parse_next_token tk) r ∧ r.2.is_valid = false := by
  -- the identifier
  have e1' := next_token_id he hc hf (stops_paren_after_space hw _)
  have t1 : (cexpr_parse_next_token tk).cur_token_type = TK_ID := by rw [e1']
  have c1 : (cexpr_parse_next_token tk).str_cur =
      w ++ '(' :: (e1 ++ ',' :: (e2 ++ ',' :: (e3 ++ ',' :: tail))) := by rw [e1']
  have n1 : (cexpr_parse_next_token tk).str_end = [] := by rw [next_token_str_end, he]
  generalize cexpr_parse_next_token tk = tk1 at t1 c1 n1
  -- the opening parenthesis
  obtain ⟨a2, c2, n2, _⟩ := next_char_after_space n1 c1 hw (by decide)
  generalize g2 : cexpr_parse_next_token tk1 = tk2 at a2 c2 n2
  -- the first argument and its comma
  obtain ⟨s1, r1, sc1, sn1, _⟩ := h1.2 _ tk2 (follow3_separator (Or.inr rfl) _) c2 n2
  obtain ⟨a3, c3, n3, _⟩ := @next_char_after_space s1 [] ',' _ sn1 sc1 rfl (by decide)
  generalize cexpr_parse_next_token s1 = tk3 at r1 a3 c3 n3
  -- the second argument and its comma
  obtain ⟨s2, r2, sc2, sn2, _⟩ := h2.2 _ tk3 (follow3_separator (Or.inr rfl) _) c3 n3
  obtain ⟨a4, c4, n4, _⟩ := @next_char_after_space s2 [] ',' _ sn2 sc2 rfl (by decide)
  generalize cexpr_parse_next_token s2 = tk4 at r2 a4 c4 n4
  -- the third argument and the comma that is one too many
  obtain ⟨s3, r3, sc3, sn3, _⟩ := h3.2 _ tk4 (follow3_separator (Or.inr rfl) _) c4 n4
  obtain ⟨a5, _, _, _⟩ := @next_char_after_space s3 [] ',' _ sn3 sc3 rfl (by decide)
  generalize cexpr_parse_next_token s3 = tk5 at r3 a5
  have q3 : RunArgs [mk1 (',' :: (e2 ++ ',' :: (e3 ++ ',' :: tail))),
      mk2 (',' :: (e3 ++ ',' :: tail))] (cexpr_parse_next_token tk4)
      ([mk1 (',' :: (e2 ++ ',' :: (e3 ++ ',' :: tail))), mk2 (',' :: (e3 ++ ',' :: tail)),
        mk3 (',' :: tail)], { tk5 with is_valid := false }) := runargs_too_many r3 a5 rfl
  have q2 : RunArgs [mk1 (',' :: (e2 ++ ',' :: (e3 ++ ',' :: tail)))]
      (cexpr_parse_next_token tk3)
      ([mk1 (',' :: (e2 ++ ',' :: (e3 ++ ',' :: tail))), mk2 (',' :: (e3 ++ ',' :: tail)),
        mk3 (',' :: tail)], { tk5 with is_valid := false }) :=
    runargs_more r2 a4 (by simp) q3
  have q1 : RunArgs [] (cexpr_parse_next_token tk2)
      ([mk1 (',' :: (e2 ++ ',' :: (e3 ++ ',' :: tail))), mk2 (',' :: (e3 ++ ',' :: tail)),
        mk3 (',' :: tail)], { tk5 with is_valid := false }) :=
    runargs_more r1 a3 (by simp) q2
  have rc : Run0 tk1 (.function_call3 tk1.id_token_begin tk1.id_token_length
      (mk1 (',' :: (e2 ++ ',' :: (e3 ++ ',' :: tail)))) (mk2 (',' :: (e3 ++ ',' :: tail)))
      (mk3 (',' :: tail)), { tk5 with is_valid := false }) :=
    @run0_call tk1 { tk5 with is_valid := false }
      [mk1 (',' :: (e2 ++ ',' :: (e3 ++ ',' :: tail))), mk2 (',' :: (e3 ++ ',' :: tail)),
        mk3 (',' :: tail)] t1 (by rw [g2]; exact a2) (by rw [g2]; exact q1)
  have a5' : ({ tk5 with is_valid := false } : CExprTokenizer).at_char ',' = true := a5
  exact ⟨_, run3_of_run0 rc (type_id_not_sign t1 _ _)
    (at_char_other_pair a5' (by decide) (by decide))
    (at_char_other_pair a5' (by decide) (by decide)), rfl⟩

theorem intercalate_cons_cons (sep a b : List Char) (l : List (List Char)) :
    List.intercalate sep (a :: b :: l) = a ++ (sep ++ List.intercalate sep (b :: l)) := by
  simp [List.intercalate, List.intersperse]

theorem no_nul_intercalate (es : List (List Char)) (h : ∀ e ∈ es, no_nul e = true) :
    no_nul (List.intercalate [','] es) = true := by
  induction es with
  | nil => rfl
  | cons a l ih =>
    cases l with
    | nil => simpa [List.intercalate, List.intersperse] using h a (List.mem_cons_self _ _)
    | cons b l =>
      rw [intercalate_cons_cons, no_nul_append, no_nul_append, h a (List.mem_cons_self _ _),
        ih (fun e he => h e (List.mem_cons_of_mem _ he))]
      rfl

/-- C7. Supplying four or more arguments to a call is a parse failure: for an identifier `f`
and four or more complete expressions separated by commas, the parse of `f(e1, ..., en)`
returns the null root. -/
theorem four_arguments_rejected (f : List Char) (hf : is_identifier f = true) (w : List Char)
    (hw : all_space w = true) (es : List (List Char)) (hn : 4 ≤ es.length)
    (hes : ∀ e ∈ es, ∃ mk, IsExpression e mk) :
    cexpr_parse_expression (f ++ w ++ ['('] ++ List.intercalate [','] es ++ [')']) = .null := by
  obtain ⟨e1, e2, e3, e4, l, rfl⟩ : ∃ e1 e2 e3 e4 l, es = e1 :: e2 :: e3 :: e4 :: l := by
    match es, hn with
    | e1 :: e2 :: e3 :: e4 :: l, _ => exact ⟨e1, e2, e3, e4, l, rfl⟩
  obtain ⟨mk1, h1⟩ := hes e1 (by simp)
  obtain ⟨mk2, h2⟩ := hes e2 (by simp)
  obtain ⟨mk3, h3⟩ := hes e3 (by simp)
  have hnn : no_nul (f ++ w ++ ['('] ++ List.intercalate [','] (e1 :: e2 :: e3 :: e4 :: l)
      ++ [')']) = true := by
    rw [no_nul_append, no_nul_append, no_nul_append, no_nul_append, identifier_no_nul hf,
      all_space_no_nul hw, no_nul_intercalate _ (fun e he => by
        obtain ⟨mk, h⟩ := hes e he
        exact h.1)]
    rfl
  have htext : f ++ w ++ ['('] ++ List.intercalate [','] (e1 :: e2 :: e3 :: e4 :: l) ++ [')'] =
      f ++ (w ++ '(' :: (e1 ++ ',' :: (e2 ++ ',' :: (e3 ++ ',' ::
        (List.intercalate [','] (e4 :: l) ++ [')']))))) := by
    simp only [intercalate_cons_cons, List.append_assoc, List.cons_append, List.nil_append]
  rw [htext] at hnn ⊢
  obtain ⟨r, hr, hv⟩ := too_many_arguments_run hf hw h1 h2 h3 _ (init_str_end hnn) rfl
  exact parse_null_of_run hr hv

theorem four_arguments_rejected_witness :
    cexpr_parse_expression "foo(1,2,3,4)".toList = NodePtr.null :=
  four_arguments_rejected "foo".toList (by decide) [] (by decide)
    ["1".toList, "2".toList, "3".toList, "4".toList] (by decide) (by
      intro e he
      exact ⟨operand_node e, primary_is_expression (operand_is_primary (by
        simp only [List.mem_cons, List.mem_singleton, List.not_mem_nil, or_false] at he
        rcases he with rfl | rfl | rfl | rfl <;> decide))⟩)
/-! ## No partial tree leaves the parser -/

theorem well_formed_make_call (name : List Char) (len : Nat) (args : List NodePtr)
    (tk : CExprTokenizer) (h : (cexpr_make_call name len args tk).2.is_valid = true)
    (ha : ∀ a ∈ args, a.well_formed = true) :
    (cexpr_make_call name len args tk).1.well_formed = true ∧ tk.is_valid = true := by
  match args, ha with
  | [], _ => exact ⟨rfl, h⟩
  | [a0], ha => exact ⟨ha a0 (by simp), h⟩
  | [a0, a1], ha =>
    refine ⟨?_, h⟩
    simp only [cexpr_make_call, NodePtr.well_formed, Bool.and_eq_true]
    exact ⟨ha a0 (by simp), ha a1 (by simp)⟩
  | [a0, a1, a2], ha =>
    refine ⟨?_, h⟩
    simp only [cexpr_make_call, NodePtr.well_formed, Bool.and_eq_true]
    exact ⟨⟨ha a0 (by simp), ha a1 (by simp)⟩, ha a2 (by simp)⟩
  | _ :: _ :: _ :: _ :: _, _ => simp [cexpr_make_call] at h

theorem well_formed_unary (tk : CExprTokenizer) (l : NodePtr) :
    (NodePtr.operator (if tk.char_token_value == '+' then CEXPR_OPERATOR_PLUS
      else CEXPR_OPERATOR_MINUS) l .null).well_formed = l.well_formed := by
  split_ifs <;> simp [NodePtr.well_formed]

theorem well_formed_mul (tk : CExprTokenizer) (l r : NodePtr) :
    (NodePtr.operator (if tk.char_token_value == '*' then CEXPR_OPERATOR_MUL
      else CEXPR_OPERATOR_DIV) l r).well_formed = (l.well_formed && r.well_formed) := by
  split_ifs <;> simp [NodePtr.well_formed]

theorem well_formed_add (tk : CExprTokenizer) (l r : NodePtr) :
    (NodePtr.operator (if tk.char_token_value == '+' then CEXPR_OPERATOR_ADD
      else CEXPR_OPERATOR_SUB) l r).well_formed = (l.well_formed && r.well_formed) := by
  split_ifs <;> simp [NodePtr.well_formed]

/-- Each level, when it leaves `is_valid` set, was entered with it set and returns a
well-formed node (the loops: given a well-formed node to start from). -/
theorem well_formed_aux (n : Nat) :
    (∀ tk r, cexpr_parce_0_level n tk = some r → r.2.is_valid = true →
      tk.is_valid = true ∧ r.1.well_formed = true) ∧
    (∀ args tk r, cexpr_parce_args n args tk = some r → r.2.is_valid = true →
      tk.is_valid = true ∧
        ((∀ a ∈ args, a.well_formed = true) → ∀ a ∈ r.1, a.well_formed = true)) ∧
    (∀ tk r, cexpr_parce_1_level n tk = some r → r.2.is_valid = true →
      tk.is_valid = true ∧ r.1.well_formed = true) ∧
    (∀ cur tk r, cexpr_parce_2_loop n cur tk = some r → r.2.is_valid = true →
      tk.is_valid = true ∧ (cur.well_formed = true → r.1.well_formed = true)) ∧
    (∀ tk r, cexpr_parce_2_level n tk = some r → r.2.is_valid = true →
      tk.is_valid = true ∧ r.1.well_formed = true) ∧
    (∀ cur tk r, cexpr_parce_3_loop n cur tk = some r → r.2.is_valid = true →
      tk.is_valid = true ∧ (cur.well_formed = true → r.1.well_formed = true)) ∧
    (∀ tk r, cexpr_parce_3_level n tk = some r → r.2.is_valid = true →
      tk.is_valid = true ∧ r.1.well_formed = true) := by
  induction n with
  | zero =>
    simp [cexpr_parce_0_level, cexpr_parce_args, cexpr_parce_1_level, cexpr_parce_2_loop,
      cexpr_parce_2_level, cexpr_parce_3_loop, cexpr_parce_3_level]
  | succ n ih =>
    obtain ⟨h0, ha, h1, hl2, h2, hl3, h3⟩ := ih
    refine ⟨?_, ?_, ?_, ?_, ?_, ?_, ?_⟩
    · intro tk r h hv
      rw [cexpr_parce_0_level] at h
      dsimp only at h
      by_cases c1 : tk.cur_token_type = TK_NUMBER
      · simp only [c1, if_true, Option.some.injEq] at h
        subst h
        exact ⟨by simpa only [next_token_is_valid] using hv, rfl⟩
      simp only [c1, if_false] at h
      by_cases c2 : tk.at_char '(' = true
      · simp only [c2, if_true] at h
        cases hrec : cexpr_parce_3_level n (cexpr_parse_next_token tk) with
        | none => simp [hrec] at h
        | some p =>
          simp only [hrec] at h
          by_cases c3 : p.2.at_char ')' = true
          · simp only [c3, if_true, Option.some.injEq] at h
            subst h
            have := h3 _ _ hrec (by simpa only [next_token_is_valid] using hv)
            exact ⟨by simpa only [next_token_is_valid] using this.1, this.2⟩
          · simp only [c3, Bool.false_eq_true, if_false, Option.some.injEq] at h
            subst h
            exact absurd hv (by simp)
      simp only [c2, Bool.false_eq_true, if_false] at h
      by_cases c3 : tk.cur_token_type = TK_ID
      · simp only [c3, if_true] at h
        by_cases c4 : (cexpr_parse_next_token tk).at_char '(' = true
        · simp only [c4, if_true] at h
          cases hrec : cexpr_parce_args n []
              (cexpr_parse_next_token (cexpr_parse_next_token tk)) with
          | none => simp [hrec] at h
          | some p =>
            simp only [hrec, Option.some.injEq] at h
            subst h
            have hm := well_formed_make_call tk.id_token_begin tk.id_token_length p.1 p.2 hv
            have hp := ha _ _ _ hrec
            by_cases hpv : p.2.is_valid = true
            · have := hp hpv
              have hw := hm (this.2 (by simp))
              exact ⟨by simpa only [next_token_is_valid] using this.1, hw.1⟩
            · exfalso
              apply hpv
              unfold cexpr_make_call at hv
              split at hv <;> first | exact hv | simp at hv
        · simp only [c4, Bool.false_eq_true, if_false, Option.some.injEq] at h
          subst h
          exact ⟨by simpa only [next_token_is_valid] using hv, rfl⟩
      · simp only [c3, if_false, Option.some.injEq] at h
        subst h
        exact absurd hv (by simp)
    · intro args tk r h hv
      rw [cexpr_parce_args] at h
      cases hrec : cexpr_parce_3_level n tk with
      | none => simp [hrec] at h
      | some p =>
        simp only [hrec] at h
        have hp := h3 _ _ hrec
        have happ : p.2.is_valid = true → (∀ a ∈ args, a.well_formed = true) →
            ∀ a ∈ args ++ [p.1], a.well_formed = true := by
          intro hpv hall a hmem
          rcases List.mem_append.mp hmem with hm | hm
          · exact hall a hm
          · rw [List.mem_singleton.mp hm]
            exact (hp hpv).2
        by_cases c1 : p.2.at_char ',' = true
        · simp only [c1, if_true] at h
          by_cases c2 : (args ++ [p.1]).length = 3
          · simp only [c2, if_true, Option.some.injEq] at h
            subst h
            exact absurd hv (by simp)
          · simp only [c2, if_false] at h
            have := ha _ _ _ h hv
            have hpv : p.2.is_valid = true := by
              simpa only [next_token_is_valid] using this.1
            exact ⟨(hp hpv).1, fun hall => this.2 (happ hpv hall)⟩
        · simp only [c1, Bool.false_eq_true, if_false] at h
          by_cases c2 : p.2.at_char ')' = true
          · simp only [c2, if_true, Option.some.injEq] at h
            subst h
            have hpv : p.2.is_valid = true := by
              simpa only [next_token_is_valid] using hv
            exact ⟨(hp hpv).1, happ hpv⟩
          · simp only [c2, Bool.false_eq_true, if_false, Option.some.injEq] at h
            subst h
            exact absurd hv (by simp)
    · intro tk r h hv
      rw [cexpr_parce_1_level] at h
      dsimp only at h
      by_cases c1 : (tk.at_char '+' || tk.at_char '-') = true
      · simp only [c1, if_true] at h
        cases hrec : cexpr_parce_0_level n (cexpr_parse_next_token tk) with
        | none => simp [hrec] at h
        | some p =>
          simp only [hrec, Option.some.injEq] at h
          subst h
          have := h0 _ _ hrec hv
          exact ⟨by simpa only [next_token_is_valid] using this.1,
            by rw [well_formed_unary]; exact this.2⟩
      · simp only [c1, Bool.false_eq_true, if_false] at h
        exact h0 _ _ h hv
    · intro cur tk r h hv
      rw [cexpr_parce_2_loop] at h
      dsimp only at h
      by_cases c1 : (tk.at_char '*' || tk.at_char '/') = true
      · simp only [c1, if_true] at h
        cases hrec : cexpr_parce_1_level n (cexpr_parse_next_token tk) with
        | none => simp [hrec] at h
        | some p =>
          simp only [hrec] at h
          have hl := hl2 _ _ _ h hv
          have hp := h1 _ _ hrec hl.1
          exact ⟨by simpa only [next_token_is_valid] using hp.1, fun hc =>
            hl.2 (by rw [well_formed_mul, hc, hp.2]; rfl)⟩
      · simp only [c1, Bool.false_eq_true, if_false, Option.some.injEq] at h
        subst h
        exact ⟨hv, fun hc => hc⟩
    · intro tk r h hv
      rw [cexpr_parce_2_level] at h
      cases hrec : cexpr_parce_1_level n tk with
      | none => simp [hrec] at h
      | some p =>
        simp only [hrec] at h
        have hl := hl2 _ _ _ h hv
        have hp := h1 _ _ hrec hl.1
        exact ⟨hp.1, hl.2 hp.2⟩
    · intro cur tk r h hv
      rw [cexpr_parce_3_loop] at h
      dsimp only at h
      by_cases c1 : (tk.at_char '+' || tk.at_char '-') = true
      · simp only [c1, if_true] at h
        cases hrec : cexpr_parce_2_level n (cexpr_parse_next_token tk) with
        | none => simp [hrec] at h
        | some p =>
          simp only [hrec] at h
          have hl := hl3 _ _ _ h hv
          have hp := h2 _ _ hrec hl.1
          exact ⟨by simpa only [next_token_is_valid] using hp.1, fun hc =>
            hl.2 (by rw [well_formed_add, hc, hp.2]; rfl)⟩
      · simp only [c1, Bool.false_eq_true, if_false, Option.some.injEq] at h
        subst h
        exact ⟨hv, fun hc => hc⟩
    · intro tk r h hv
      rw [cexpr_parce_3_level] at h
      cases hrec : cexpr_parce_2_level n tk with
      | none => simp [hrec] at h
      | some p =>
        simp only [hrec] at h
        have hl := hl3 _ _ _ h hv
        have hp := h2 _ _ hrec hl.1
        exact ⟨hp.1, hl.2 hp.2⟩

/-- C6. No partial AST escapes the parser: for every text and length, a root that
`cexpr_parce_impl` returns is null or well formed, that is, no binary operator node under it
lacks a child, no unary operator node its operand and no call node an argument. -/
theorem no_partial_ast (str : List Char) (len : Nat)
    (h : cexpr_parce_impl str len ≠ NodePtr.null) :
    (cexpr_parce_impl str len).well_formed = true := by
  unfold cexpr_parce_impl at h ⊢
  by_cases hl : len = 0
  · simp [hl] at h
  · simp only [hl, if_false] at h ⊢
    cases hrun : cexpr_parce_run str len with
    | none => simp [hrun] at h
    | some p =>
      simp only [hrun] at h ⊢
      by_cases hv : p.2.is_valid = true
      · simp only [hv, Bool.not_true, Bool.false_eq_true, if_false]
        exact ((well_formed_aux _).2.2.2.2.2.2 _ _ hrun hv).2
      · simp [hv] at h

theorem no_partial_ast_witness :
    (cexpr_parce_impl "-f(1, (x + 2) * y) / 3".toList 22).well_formed = true :=
  no_partial_ast "-f(1, (x + 2) * y) / 3".toList 22 (by
    have h : (cexpr_parce_impl "-f(1, (x + 2) * y) / 3".toList 22).isNull = false := by rfl
    intro h0
    rw [h0] at h
    exact Bool.noConfusion h)
/-! ## An invalid character acts as the end of the text -/

theorem advance_while_append_stop (p : Char → Bool) (e : Nat) (c : Char) (post : List Char)
    (he : e ≤ post.length) (hc : p c = false) (s : List Char) :
    advance_while p e (s ++ c :: post) = s.dropWhile p ++ c :: post := by
  induction s with
  | nil => simp [advance_while, hc]
  | cons d s ih =>
    have hl : e < (d :: (s ++ c :: post)).length := by
      simp only [List.length_cons, List.length_append]
      omega
    rw [List.cons_append, advance_while, List.dropWhile_cons]
    by_cases hd : p d = true
    · simp only [hd, hl, decide_True, Bool.and_self, if_true]
      exact ih
    · simp only [hd, Bool.and_false, Bool.false_eq_true, if_false, List.cons_append]

theorem strtod_exponent_append_stop (c : Char) (post : List Char) (hd : isdigit c = false)
    (he : (c == 'e' || c == 'E') = false) (hs : (c == '-' || c == '+') = false)
    (z : List Char) :
    strtod_exponent (z ++ c :: post) =
      ((strtod_exponent z).1, (strtod_exponent z).2 ++ c :: post) := by
  have hdw := stops_dropWhile (p := isdigit) (r := c :: post) (fun c' r' h => by
    obtain ⟨rfl, _⟩ := List.cons.inj h
    exact hd)
  have hs' : ((some c : Option Char) == some '-' || (some c : Option Char) == some '+')
      = false := by simpa using hs
  cases z with
  | nil => simp [strtod_exponent, he]
  | cons d t =>
    unfold strtod_exponent
    simp only [List.cons_append]
    by_cases hde : (d == 'e' || d == 'E') = true
    · simp only [hde, if_true]
      cases t with
      | nil =>
        simp only [List.nil_append, List.head?_cons, hs', Bool.false_eq_true, if_false,
          List.takeWhile_cons, hd, List.isEmpty_nil, if_true, List.head?_nil,
          List.takeWhile_nil, List.singleton_append]
        rfl
      | cons g t' =>
        simp only [List.cons_append, List.head?_cons, List.tail_cons]
        by_cases hg : (some g == some '-' || some g == some '+') = true
        · simp only [hg, if_true, (hdw t').1, (hdw t').2]
          by_cases hem : (List.takeWhile isdigit t').isEmpty = true
          · simp [hem]
          · simp [hem]
        · simp only [hg]
          simp only [Bool.false_eq_true, if_false]
          rw [← List.cons_append, (hdw (g :: t')).1, (hdw (g :: t')).2]
          by_cases hem : (List.takeWhile isdigit (g :: t')).isEmpty = true
          · simp [hem]
          · simp [hem]
    · simp [hde]

theorem strtod_append_stop (c : Char) (post : List Char) (hd : isdigit c = false)
    (hdot : (c == '.') = false) (he : (c == 'e' || c == 'E') = false)
    (hs : (c == '-' || c == '+') = false) (x : List Char) :
    (strtod (x ++ c :: post)).2 = (strtod x).2 ++ c :: post := by
  have hdw := stops_dropWhile (p := isdigit) (r := c :: post) (fun c' r' h => by
    obtain ⟨rfl, _⟩ := List.cons.inj h
    exact hd)
  have hex := strtod_exponent_append_stop c post hd he hs
  have hdot' : ((some c : Option Char) == some '.') = false := by simpa using hdot
  unfold strtod
  simp only [(hdw x).1, (hdw x).2]
  generalize List.dropWhile isdigit x = r1
  generalize List.takeWhile isdigit x = ip
  cases r1 with
  | nil =>
    have hn : ((none : Option Char) == some '.') = false := rfl
    simp only [List.nil_append, List.head?_cons, hdot', List.head?_nil, hn]
    simp only [Bool.false_eq_true, if_false]
    by_cases hi : (ip.isEmpty && ([] : List Char).isEmpty) = true
    · simp only [hi, if_true]
    · simp only [hi]
      simp only [Bool.false_eq_true, if_false]
      have := hex []
      simp only [List.nil_append] at this
      rw [this]
  | cons g t =>
    simp only [List.cons_append, List.head?_cons, List.tail_cons]
    by_cases hg : (some g == some '.') = true
    · simp only [hg, if_true, (hdw t).1, (hdw t).2]
      by_cases hi : (ip.isEmpty && (List.takeWhile isdigit t).isEmpty) = true
      · simp only [hi, if_true]
      · simp only [hi]
        simp only [Bool.false_eq_true, if_false]
        rw [hex]
    · simp only [hg]
      simp only [Bool.false_eq_true, if_false]
      by_cases hi : (ip.isEmpty && ([] : List Char).isEmpty) = true
      · simp only [hi, if_true]
      · simp only [hi]
        simp only [Bool.false_eq_true, if_false]
        rw [← List.cons_append, hex]
theorem invalid_char_facts {c : Char} (h : is_invalid_char c = true) :
    isspace c = false ∧ is_char_token c = false ∧ (c == '.' || isdigit c) = false ∧
      (isalpha c || c == '_') = false := by
  simp only [is_invalid_char, Bool.and_eq_true, Bool.not_eq_true'] at h
  exact ⟨h.1.1.1.2, h.1.1.2, h.1.2, h.2⟩

theorem invalid_char_not_idchar {c : Char} (h : is_invalid_char c = true) :
    (fun d => isalnum d || d == '_') c = false := by
  obtain ⟨_, _, h3, h4⟩ := invalid_char_facts h
  simp only [Bool.or_eq_false_iff] at h3 h4 ⊢
  exact ⟨by simp only [isalnum, Bool.or_eq_false_iff]; exact ⟨h4.1, h3.2⟩, h4.2⟩

theorem invalid_char_not_exponent {c : Char} (h : is_invalid_char c = true) :
    (c == 'e' || c == 'E') = false := by
  obtain ⟨_, _, _, h4⟩ := invalid_char_facts h
  by_contra hx
  simp only [Bool.not_eq_false, Bool.or_eq_true, beq_iff_eq] at hx
  rcases hx with hx | hx <;> subst hx <;> revert h4 <;> decide

theorem invalid_char_not_sign {c : Char} (h : is_invalid_char c = true) :
    (c == '-' || c == '+') = false := by
  obtain ⟨_, h2, _, _⟩ := invalid_char_facts h
  by_contra hx
  simp only [Bool.not_eq_false, Bool.or_eq_true, beq_iff_eq] at hx
  rcases hx with hx | hx <;> subst hx <;> revert h2 <;> decide

/-- Reading the next token keeps two tokenizers in step. -/
theorem next_token_in_step {c : Char} {post : List Char} (hc : is_invalid_char c = true)
    {tk1 tk2 : CExprTokenizer} (h : InStep c post tk1 tk2) :
    InStep c post (cexpr_parse_next_token tk1) (cexpr_parse_next_token tk2) := by
  obtain ⟨⟨s, h1, h2⟩, he1, he2, hv, hcv, _⟩ := h
  obtain ⟨f1, f2, f3, f4⟩ := invalid_char_facts hc
  have f3' := f3
  simp only [Bool.or_eq_false_iff] at f3'
  have a1 := advance_while_append_stop isspace tk1.str_end.length c post he1 f1 s
  have hl : ∀ x : List Char, ¬((x ++ c :: post).length = tk1.str_end.length) := by
    intro x
    simp only [List.length_cons, List.length_append]
    omega
  unfold cexpr_parse_next_token
  simp only [h1, h2, he2, a1, advance_while_zero, List.length_nil, hl, if_false]
  generalize List.dropWhile isspace s = s'
  cases s' with
  | nil =>
    simp only [List.nil_append, List.headD_cons, f2, f3, f4, Bool.false_eq_true,
      List.length_nil, if_true, if_false]
    exact ⟨⟨[], rfl, rfl⟩, he1, rfl, hv, hcv, Or.inr ⟨rfl, rfl⟩⟩
  | cons d t =>
    have hl2 : ¬((d :: t).length = 0) := by simp
    simp only [hl2, if_false, List.cons_append, List.headD_cons, List.tail_cons]
    by_cases c1 : is_char_token d = true
    · simp only [c1, if_true]
      exact ⟨⟨t, rfl, rfl⟩, he1, rfl, hv, rfl, Or.inl rfl⟩
    simp only [c1, Bool.false_eq_true, if_false]
    by_cases c2 : (d == '.' || isdigit d) = true
    · simp only [c2, if_true]
      refine ⟨⟨(strtod (d :: t)).2, ?_, rfl⟩, he1, rfl, hv, hcv, Or.inl rfl⟩
      have := strtod_append_stop c post f3'.2 f3'.1 (invalid_char_not_exponent hc)
        (invalid_char_not_sign hc) (d :: t)
      simpa only [List.cons_append] using this
    simp only [c2, Bool.false_eq_true, if_false]
    by_cases c3 : (isalpha d || d == '_') = true
    · simp only [c3, if_true]
      refine ⟨⟨List.dropWhile (fun d => isalnum d || d == '_') t, ?_, rfl⟩, he1, rfl, hv, hcv,
        Or.inl rfl⟩
      exact advance_while_append_stop _ _ c post he1 (invalid_char_not_idchar hc) t
    · simp only [c3, Bool.false_eq_true, if_false]
      exact ⟨⟨d :: t, rfl, rfl⟩, he1, rfl, hv, hcv, Or.inl rfl⟩

theorem in_step_number {c : Char} {post : List Char} {tk1 tk2 : CExprTokenizer}
    (h : InStep c post tk1 tk2) :
    (tk1.cur_token_type = TK_NUMBER ↔ tk2.cur_token_type = TK_NUMBER) := by
  rcases h.2.2.2.2.2 with h | ⟨h1, h2⟩
  · rw [h]
  · rw [h1, h2]; simp

theorem in_step_id {c : Char} {post : List Char} {tk1 tk2 : CExprTokenizer}
    (h : InStep c post tk1 tk2) :
    (tk1.cur_token_type = TK_ID ↔ tk2.cur_token_type = TK_ID) := by
  rcases h.2.2.2.2.2 with h | ⟨h1, h2⟩
  · rw [h]
  · rw [h1, h2]; simp

theorem in_step_at_char {c : Char} {post : List Char} {tk1 tk2 : CExprTokenizer}
    (h : InStep c post tk1 tk2) (d : Char) : tk1.at_char d = tk2.at_char d := by
  unfold CExprTokenizer.at_char
  rw [h.2.2.2.2.1]
  rcases h.2.2.2.2.2 with h | ⟨h1, h2⟩
  · rw [h]
  · rw [h1, h2]; rfl

theorem in_step_invalidate {c : Char} {post : List Char} {tk1 tk2 : CExprTokenizer}
    (h : InStep c post tk1 tk2) :
    InStep c post { tk1 with is_valid := false } { tk2 with is_valid := false } :=
  ⟨h.1, h.2.1, h.2.2.1, rfl, h.2.2.2.2.1, h.2.2.2.2.2⟩

theorem in_step_make_call {c : Char} {post : List Char} {tk1 tk2 : CExprTokenizer}
    (h : InStep c post tk1 tk2) (n1 n2 : List Char) (l1 l2 : Nat) (args1 args2 : List NodePtr)
    (ha : args1.length = args2.length) :
    InStep c post (cexpr_make_call n1 l1 args1 tk1).2 (cexpr_make_call n2 l2 args2 tk2).2 := by
  match args1, args2, ha with
  | [], [], _ => exact h
  | [_], [_], _ => exact h
  | [_, _], [_, _], _ => exact h
  | [_, _, _], [_, _, _], _ => exact h
  | _ :: _ :: _ :: _ :: _, _ :: _ :: _ :: _ :: _, _ => exact in_step_invalidate h
/-- Every level keeps two tokenizers in step: run on the first, it returns on the second too,
with the same fuel, and leaves them in step. -/
theorem in_step_aux {c : Char} {post : List Char} (hc : is_invalid_char c = true) (n : Nat) :
    (∀ tk1 tk2 r1, InStep c post tk1 tk2 → cexpr_parce_0_level n tk1 = some r1 →
      ∃ r2, cexpr_parce_0_level n tk2 = some r2 ∧ InStep c post r1.2 r2.2) ∧
    (∀ args1 args2 tk1 tk2 r1, args1.length = args2.length → InStep c post tk1 tk2 →
      cexpr_parce_args n args1 tk1 = some r1 →
      ∃ r2, cexpr_parce_args n args2 tk2 = some r2 ∧ InStep c post r1.2 r2.2 ∧
        r1.1.length = r2.1.length) ∧
    (∀ tk1 tk2 r1, InStep c post tk1 tk2 → cexpr_parce_1_level n tk1 = some r1 →
      ∃ r2, cexpr_parce_1_level n tk2 = some r2 ∧ InStep c post r1.2 r2.2) ∧
    (∀ cur1 cur2 tk1 tk2 r1, InStep c post tk1 tk2 → cexpr_parce_2_loop n cur1 tk1 = some r1 →
      ∃ r2, cexpr_parce_2_loop n cur2 tk2 = some r2 ∧ InStep c post r1.2 r2.2) ∧
    (∀ tk1 tk2 r1, InStep c post tk1 tk2 → cexpr_parce_2_level n tk1 = some r1 →
      ∃ r2, cexpr_parce_2_level n tk2 = some r2 ∧ InStep c post r1.2 r2.2) ∧
    (∀ cur1 cur2 tk1 tk2 r1, InStep c post tk1 tk2 → cexpr_parce_3_loop n cur1 tk1 = some r1 →
      ∃ r2, cexpr_parce_3_loop n cur2 tk2 = some r2 ∧ InStep c post r1.2 r2.2) ∧
    (∀ tk1 tk2 r1, InStep c post tk1 tk2 → cexpr_parce_3_level n tk1 = some r1 →
      ∃ r2, cexpr_parce_3_level n tk2 = some r2 ∧ InStep c post r1.2 r2.2) := by
  induction n with
  | zero =>
    simp [cexpr_parce_0_level, cexpr_parce_args, cexpr_parce_1_level, cexpr_parce_2_loop,
      cexpr_parce_2_level, cexpr_parce_3_loop, cexpr_parce_3_level]
  | succ n ih =>
    obtain ⟨h0, ha, h1, hl2, h2, hl3, h3⟩ := ih
    refine ⟨?_, ?_, ?_, ?_, ?_, ?_, ?_⟩
    · intro tk1 tk2 r1 hs h
      rw [cexpr_parce_0_level] at h ⊢
      dsimp only at h ⊢
      have hnext := next_token_in_step hc hs
      by_cases c1 : tk1.cur_token_type = TK_NUMBER
      · simp only [c1, (in_step_number hs).mp c1, if_true, Option.some.injEq] at h ⊢
        subst h
        exact ⟨_, rfl, hnext⟩
      have c1' : ¬tk2.cur_token_type = TK_NUMBER := fun hx => c1 ((in_step_number hs).mpr hx)
      simp only [c1, c1', if_false] at h ⊢
      rw [← in_step_at_char hs]
      by_cases c2 : tk1.at_char '(' = true
      · simp only [c2, if_true] at h ⊢
        cases hrec : cexpr_parce_3_level n (cexpr_parse_next_token tk1) with
        | none => simp [hrec] at h
        | some p =>
          obtain ⟨q, hq, hpq⟩ := h3 _ _ _ hnext hrec
          simp only [hrec] at h
          simp only [hq]
          rw [← in_step_at_char hpq]
          by_cases c3 : p.2.at_char ')' = true
          · simp only [c3, if_true, Option.some.injEq] at h ⊢
            subst h
            exact ⟨_, rfl, next_token_in_step hc hpq⟩
          · simp only [c3, Bool.false_eq_true, if_false, Option.some.injEq] at h ⊢
            subst h
            exact ⟨_, rfl, in_step_invalidate hpq⟩
      simp only [c2, Bool.false_eq_true, if_false] at h ⊢
      by_cases c3 : tk1.cur_token_type = TK_ID
      · simp only [c3, (in_step_id hs).mp c3, if_true] at h ⊢
        rw [← in_step_at_char hnext]
        by_cases c4 : (cexpr_parse_next_token tk1).at_char '(' = true
        · simp only [c4, if_true] at h ⊢
          cases hrec : cexpr_parce_args n []
              (cexpr_parse_next_token (cexpr_parse_next_token tk1)) with
          | none => simp [hrec] at h
          | some p =>
            obtain ⟨q, hq, hpq, hlen⟩ := ha [] [] _ _ _ rfl (next_token_in_step hc hnext) hrec
            simp only [hrec, Option.some.injEq] at h
            simp only [hq, Option.some.injEq]
            subst h
            exact ⟨_, rfl, in_step_make_call hpq _ _ _ _ _ _ hlen⟩
        · simp only [c4, Bool.false_eq_true, if_false, Option.some.injEq] at h ⊢
          subst h
          exact ⟨_, rfl, hnext⟩
      · have c3' : ¬tk2.cur_token_type = TK_ID := fun hx => c3 ((in_step_id hs).mpr hx)
        simp only [c3, c3', if_false, Option.some.injEq] at h ⊢
        subst h
        exact ⟨_, rfl, in_step_invalidate hs⟩
    · intro args1 args2 tk1 tk2 r1 hlen hs h
      rw [cexpr_parce_args] at h ⊢
      cases hrec : cexpr_parce_3_level n tk1 with
      | none => simp [hrec] at h
      | some p =>
        obtain ⟨q, hq, hpq⟩ := h3 _ _ _ hs hrec
        simp only [hrec] at h
        simp only [hq]
        have hlen' : (args1 ++ [p.1]).length = (args2 ++ [q.1]).length := by
          simp only [List.length_append, List.length_singleton, hlen]
        rw [← in_step_at_char hpq, ← in_step_at_char hpq, ← hlen']
        by_cases c1 : p.2.at_char ',' = true
        · simp only [c1, if_true] at h ⊢
          by_cases c2 : (args1 ++ [p.1]).length = 3
          · simp only [c2, if_true, Option.some.injEq] at h ⊢
            subst h
            exact ⟨_, rfl, in_step_invalidate hpq, hlen'⟩
          · simp only [c2, if_false] at h ⊢
            exact ha _ _ _ _ _ hlen' (next_token_in_step hc hpq) h
        · simp only [c1, Bool.false_eq_true, if_false] at h ⊢
          by_cases c2 : p.2.at_char ')' = true
          · simp only [c2, if_true, Option.some.injEq] at h ⊢
            subst h
            exact ⟨_, rfl, next_token_in_step hc hpq, hlen'⟩
          · simp only [c2, Bool.false_eq_true, if_false, Option.some.injEq] at h ⊢
            subst h
            exact ⟨_, rfl, in_step_invalidate hpq, hlen'⟩
    · intro tk1 tk2 r1 hs h
      rw [cexpr_parce_1_level] at h ⊢
      dsimp only at h ⊢
      rw [← in_step_at_char hs, ← in_step_at_char hs]
      by_cases c1 : (tk1.at_char '+' || tk1.at_char '-') = true
      · simp only [c1, if_true] at h ⊢
        cases hrec : cexpr_parce_0_level n (cexpr_parse_next_token tk1) with
        | none => simp [hrec] at h
        | some p =>
          obtain ⟨q, hq, hpq⟩ := h0 _ _ _ (next_token_in_step hc hs) hrec
          simp only [hrec, Option.some.injEq] at h
          simp only [hq, Option.some.injEq]
          subst h
          exact ⟨_, rfl, hpq⟩
      · simp only [c1, Bool.false_eq_true, if_false] at h ⊢
        exact h0 _ _ _ hs h
    · intro cur1 cur2 tk1 tk2 r1 hs h
      rw [cexpr_parce_2_loop] at h ⊢
      dsimp only at h ⊢
      rw [← in_step_at_char hs, ← in_step_at_char hs]
      by_cases c1 : (tk1.at_char '*' || tk1.at_char '/') = true
      · simp only [c1, if_true] at h ⊢
        cases hrec : cexpr_parce_1_level n (cexpr_parse_next_token tk1) with
        | none => simp [hrec] at h
        | some p =>
          obtain ⟨q, hq, hpq⟩ := h1 _ _ _ (next_token_in_step hc hs) hrec
          simp only [hrec] at h
          simp only [hq]
          exact hl2 _ _ _ _ _ hpq h
      · simp only [c1, Bool.false_eq_true, if_false, Option.some.injEq] at h ⊢
        subst h
        exact ⟨_, rfl, hs⟩
    · intro tk1 tk2 r1 hs h
      rw [cexpr_parce_2_level] at h ⊢
      cases hrec : cexpr_parce_1_level n tk1 with
      | none => simp [hrec] at h
      | some p =>
        obtain ⟨q, hq, hpq⟩ := h1 _ _ _ hs hrec
        simp only [hrec] at h
        simp only [hq]
        exact hl2 _ _ _ _ _ hpq h
    · intro cur1 cur2 tk1 tk2 r1 hs h
      rw [cexpr_parce_3_loop] at h ⊢
      dsimp only at h ⊢
      rw [← in_step_at_char hs, ← in_step_at_char hs]
      by_cases c1 : (tk1.at_char '+' || tk1.at_char '-') = true
      · simp only [c1, if_true] at h ⊢
        cases hrec : cexpr_parce_2_level n (cexpr_parse_next_token tk1) with
        | none => simp [hrec] at h
        | some p =>
          obtain ⟨q, hq, hpq⟩ := h2 _ _ _ (next_token_in_step hc hs) hrec
          simp only [hrec] at h
          simp only [hq]
          exact hl3 _ _ _ _ _ hpq h
      · simp only [c1, Bool.false_eq_true, if_false, Option.some.injEq] at h ⊢
        subst h
        exact ⟨_, rfl, hs⟩
    · intro tk1 tk2 r1 hs h
      rw [cexpr_parce_3_level] at h ⊢
      cases hrec : cexpr_parce_2_level n tk1 with
      | none => simp [hrec] at h
      | some p =>
        obtain ⟨q, hq, hpq⟩ := h2 _ _ _ hs hrec
        simp only [hrec] at h
        simp only [hq]
        exact hl3 _ _ _ _ _ hpq h
theorem well_formed_not_null {node : NodePtr} (h : node.well_formed = true) :
    node ≠ NodePtr.null := by
  rintro rfl
  exact Bool.noConfusion h

/-- The root is null exactly when the text is empty or the parser has cleared `is_valid`. -/
theorem parse_null_iff {s : List Char} {r : NodePtr × CExprTokenizer}
    (hr : cexpr_parce_run s (strlen s) = some r) :
    cexpr_parse_expression s = .null ↔ (strlen s = 0 ∨ r.2.is_valid = false) := by
  unfold cexpr_parse_expression cexpr_parse_expression_len cexpr_parce_impl
  by_cases hl : strlen s = 0
  · simp [hl]
  · simp only [hl, if_false, hr, false_or]
    by_cases hv : r.2.is_valid = true
    · have hw := ((well_formed_aux _).2.2.2.2.2.2 _ _ hr hv).2
      simp only [hv, Bool.not_true, Bool.false_eq_true, if_false]
      exact ⟨fun h => absurd h (well_formed_not_null hw), fun h => Bool.noConfusion h⟩
    · simp only [Bool.not_eq_true] at hv
      simp [hv]

theorem strlen_append_cons {pre : List Char} (hpre : no_nul pre = true) {c : Char}
    (hc : (c != NUL) = true) (post : List Char) :
    strlen (pre ++ c :: post) = pre.length + 1 + strlen post := by
  unfold strlen
  rw [List.takeWhile_append_of_pos (by simpa [no_nul] using hpre), List.takeWhile_cons]
  simp only [hc, if_true, List.length_append, List.length_cons]
  omega

theorem strlen_le (s : List Char) : strlen s ≤ s.length := by
  unfold strlen
  exact (List.takeWhile_sublist _).length_le

theorem invalid_char_ne_nul {c : Char} (h : is_invalid_char c = true) : (c != NUL) = true := by
  simp only [is_invalid_char, Bool.and_eq_true] at h
  exact h.1.1.1.1

theorem init_in_step {pre : List Char} (hpre : no_nul pre = true) {c : Char}
    (hc : is_invalid_char c = true) (post : List Char) :
    InStep c post (cexpr_tokenizer_init (pre ++ c :: post) (strlen (pre ++ c :: post)))
      (cexpr_tokenizer_init pre (strlen pre)) := by
  refine ⟨⟨pre, rfl, rfl⟩, ?_, init_str_end hpre, rfl, rfl, Or.inl rfl⟩
  have h1 := strlen_append_cons hpre (invalid_char_ne_nul hc) post
  have h2 := strlen_le post
  simp only [cexpr_tokenizer_init, List.length_drop, List.length_append, List.length_cons]
  omega

theorem invalid_char_like_end {pre : List Char} (hpre : no_nul pre = true) {c : Char}
    (hc : is_invalid_char c = true) (post : List Char) :
    cexpr_parse_expression (pre ++ c :: post) = .null ↔ cexpr_parse_expression pre = .null := by
  obtain ⟨r1, hr1⟩ := cexpr_parce_3_level_total (pre ++ c :: post) (strlen (pre ++ c :: post))
  obtain ⟨r2, hr2, hs⟩ := (in_step_aux hc _).2.2.2.2.2.2 _ _ _
    (next_token_in_step hc (init_in_step hpre hc post)) hr1
  have hr2' := cexpr_parce_run_eq ⟨_, hr2⟩
  rw [parse_null_iff hr1, parse_null_iff hr2', hs.2.2.2.1]
  have hl1 : strlen (pre ++ c :: post) ≠ 0 := by
    rw [strlen_append_cons hpre (invalid_char_ne_nul hc)]
    omega
  simp only [hl1, false_or]
  refine ⟨fun h => Or.inr h, fun h => h.elim (fun h0 => ?_) id⟩
  -- an empty text: the first token is the end of the text and level 3 fails on it
  have hpre0 : pre = [] := by
    rw [strlen_no_nul hpre] at h0
    exact List.length_eq_zero.mp h0
  subst hpre0
  have ht := @next_token_eof (cexpr_tokenizer_init [] (strlen [])) rfl rfl
  have hf := @run3_fail (cexpr_parse_next_token (cexpr_tokenizer_init [] (strlen [])))
    (by rw [ht]; simp) (by rw [ht]; simp) (by rw [ht]; simp)
  rw [run3_deterministic ⟨_, hr2⟩ hf]

theorem level3_fails_at_invalid (tk : CExprTokenizer) (h : tk.cur_token_type = TK_INVALID)
    (n : Nat) : cexpr_parce_3_level (n + 4) tk = some (.null, { tk with is_valid := false }) := by
  simp [cexpr_parce_3_level, cexpr_parce_2_level, cexpr_parce_1_level, cexpr_parce_0_level,
    cexpr_parce_2_loop, cexpr_parce_3_loop, CExprTokenizer.at_char, h]

/-- The text `1 $` makes the tokenizer produce an Invalid token, and parses: the root is not
null. -/
theorem invalid_after_expression_parses :
    final_token_type "1 $".toList 3 = some TK_INVALID ∧
      cexpr_parse_expression "1 $".toList ≠ NodePtr.null := by
  refine ⟨by rfl, ?_⟩
  have h : cexpr_parse_expression "1 $".toList = .literal (strtod "1 $".toList).1 := by rfl
  rw [h]
  exact NodePtr.noConfusion

/-- C3, as the code has it. An invalid character ends the input as the end of the text does: the
parse of a text that goes on with an invalid character returns the null root exactly when the
parse of the text before that character does. So an Invalid token is a parse failure where an
operand is expected (every level entered at an Invalid token returns null and clears
`is_valid`), and it is none after a complete expression. -/
theorem invalid_token_acts_as_end (pre post : List Char) (c : Char)
    (hpre : no_nul pre = true) (hc : is_invalid_char c = true) :
    (cexpr_parse_expression (pre ++ c :: post) = .null ↔ cexpr_parse_expression pre = .null) ∧
    (∀ tk n, tk.cur_token_type = TK_INVALID →
      cexpr_parce_3_level (n + 4) tk = some (.null, { tk with is_valid := false })) :=
  ⟨invalid_char_like_end hpre hc post, fun tk n h => level3_fails_at_invalid tk h n⟩

theorem invalid_token_acts_as_end_witness :
    (cexpr_parse_expression "(1 + #2)".toList = NodePtr.null ↔
      cexpr_parse_expression "(1 + ".toList = NodePtr.null) ∧
    (cexpr_parse_expression "1 $".toList = NodePtr.null ↔
      cexpr_parse_expression "1 ".toList = NodePtr.null) :=
  ⟨(invalid_token_acts_as_end "(1 + ".toList "2)".toList '#' (by decide) (by decide)).1,
    (invalid_token_acts_as_end "1 ".toList [] '$' (by decide) (by decide)).1⟩
/-! ## Lookup by exact name, first match first -/

theorem drop_cons_of_getElem? {α : Type} {arr : List α} {i : Nat} {d : α}
    (h : arr[i]? = some d) : arr.drop i = d :: arr.drop (i + 1) := by
  obtain ⟨hi, rfl⟩ := List.getElem?_eq_some.mp h
  exact List.drop_eq_getElem_cons hi

theorem name_matches_eq_decide (s name : List Char) (len : Nat)
    (hq : (name.take len).length = len) (hnn : no_nul (name.take len) = true) :
    cexpr_name_matches s name len = decide (c_string s = name.take len) := by
  by_cases h : c_string s = name.take len
  · rw [decide_eq_true h]
    exact (name_matches_iff s name len).mpr ⟨h, hq, hnn⟩
  · rw [decide_eq_false h]
    exact name_matches_false_of_ne h

theorem find_variable_loop_eq (arr : List CExprVariableBindDesc) (name : List Char) (len : Nat)
    (hq : (name.take len).length = len) (hnn : no_nul (name.take len) = true) (n i : Nat)
    (h : ∀ k, i ≤ k → k < i + n → ∃ d s, arr[k]? = some d ∧ d.name = some s) :
    cexpr_find_variable_loop (some arr) name len n i =
      some (first_variable_named ((arr.drop i).take n) (name.take len)) := by
  induction n generalizing i with
  | zero => rfl
  | succ n ih =>
    obtain ⟨d, s, hd, hs⟩ := h i (le_refl _) (by omega)
    have ih' := ih (i + 1) (fun k hk1 hk2 => h k (by omega) (by omega))
    simp only [cexpr_find_variable_loop, hd, hs, name_matches_eq_decide s name len hq hnn]
    rw [drop_cons_of_getElem? hd, List.take_succ_cons]
    by_cases hm : c_string s = name.take len
    · simp [first_variable_named, hs, hm]
    · rw [ih']
      simp [first_variable_named, hs, hm]

theorem entries_getElem? {α : Type} {arr : List α} {size : Nat}
    (hsize : (arr.take size).length = size) {k : Nat} (hk : k < size) :
    ∃ d, arr[k]? = some d ∧ d ∈ arr.take size := by
  have hlen : size ≤ arr.length := by
    rw [List.length_take] at hsize
    omega
  have hk' : k < arr.length := by omega
  refine ⟨arr[k], List.getElem?_eq_getElem hk', ?_⟩
  rw [List.mem_iff_getElem]
  exact ⟨k, by rw [hsize]; exact hk, by simp⟩

theorem find_variable_by_name_eq (e : CExprExecutor) (name : List Char) (len : Nat)
    (hq : (name.take len).length = len) (hnn : no_nul (name.take len) = true)
    (hsize : (var_entries e).length = e.m_var_size)
    (hname : ∀ d ∈ var_entries e, d.name ≠ none) :
    cexpr_find_variable_by_name (some e) name len =
      some (if len = 0 then none else first_variable_named (var_entries e) (name.take len)) := by
  unfold cexpr_find_variable_by_name
  by_cases hl : len = 0
  · simp [hl]
  · simp only [hl, if_false]
    cases hm : e.m_var with
    | none =>
      have h0 : e.m_var_size = 0 := by
        rw [← hsize]
        simp [var_entries, hm]
      rw [h0]
      simp [cexpr_find_variable_loop, var_entries, hm, first_variable_named]
    | some arr =>
      have hs' : (arr.take e.m_var_size).length = e.m_var_size := by
        simpa [var_entries, hm] using hsize
      rw [find_variable_loop_eq arr name len hq hnn e.m_var_size 0 (fun k _ hk => by
        obtain ⟨d, hd, hmem⟩ := entries_getElem? hs' (by omega : k < e.m_var_size)
        have hne := hname d (by simpa [var_entries, hm] using hmem)
        cases hdn : d.name with
        | none => exact absurd hdn hne
        | some s => exact ⟨d, s, hd, hdn⟩)]
      simp [var_entries, hm]

/-- C13. Name matching is exact string equality and the first match wins: where every entry of
the variable table has a stored name, and the query slice (the first `len` characters at `name`)
is not empty, lies in the text and has no NUL, `cexpr_find_variable_by_name` returns the cell
pointer of the first entry whose stored string equals the slice, and null when there is none; and
a stored string never matches a slice of which it is a proper prefix, or which is a proper
prefix of it. -/
theorem name_match_is_exact_and_first (e : CExprExecutor) (name : List Char) (len : Nat)
    (hlen : 0 < len) (hq : (name.take len).length = len) (hnn : no_nul (name.take len) = true)
    (hsize : (var_entries e).length = e.m_var_size)
    (hname : ∀ d ∈ var_entries e, d.name ≠ none) :
    cexpr_find_variable_by_name (some e) name len =
      some (first_variable_named (var_entries e) (name.take len)) ∧
    ∀ s t, t ≠ [] → (c_string s ++ t = name.take len ∨ name.take len ++ t = c_string s) →
      cexpr_name_matches s name len = false := by
  refine ⟨?_, ?_⟩
  · rw [find_variable_by_name_eq e name len hq hnn hsize hname]
    have hl : len ≠ 0 := by omega
    simp only [hl, if_false]
  · intro s t ht h
    refine name_matches_false_of_ne (fun heq => ht ?_)
    rcases h with h | h
    · rw [heq] at h
      exact List.append_right_eq_self.mp h
    · rw [← heq] at h
      exact List.append_right_eq_self.mp h

theorem name_match_is_exact_and_first_witness :
    (cexpr_find_variable_by_name (some abc_executor) "b+1".toList 1 =
      some (first_variable_named (var_entries abc_executor) ("b+1".toList.take 1)) ∧
    ∀ s t, t ≠ [] →
      (c_string s ++ t = "b+1".toList.take 1 ∨ "b+1".toList.take 1 ++ t = c_string s) →
      cexpr_name_matches s "b+1".toList 1 = false) ∧
    first_variable_named (var_entries abc_executor) ("b+1".toList.take 1) = some 1 :=
  ⟨name_match_is_exact_and_first abc_executor "b+1".toList 1 (by decide) (by decide) (by decide)
    (by decide) (by decide), by decide⟩

theorem arity_test_eq (k : Nat) (a : Int) (hk : k < 2 ^ 63)
    (ha : -(2 ^ 15) ≤ a ∧ a < 2 ^ 15) :
    ((k : Int) != a % 2 ^ 64) = !(a == (k : Int)) := by
  have h : (k : Int) = a % 2 ^ 64 ↔ a = (k : Int) := by
    constructor
    · intro h
      omega
    · intro h
      omega
  show (!((k : Int) == a % 2 ^ 64)) = !(a == (k : Int))
  congr 1
  rw [Bool.eq_iff_iff]
  simp only [beq_iff_eq]
  exact h

theorem find_function_loop_eq (arr : List CExprFunctionBindDesc) (k : Nat) (name : List Char)
    (len : Nat) (hq : (name.take len).length = len) (hnn : no_nul (name.take len) = true)
    (hk : k < 2 ^ 63) (n i : Nat)
    (h : ∀ j, i ≤ j → j < i + n → ∃ d, arr[j]? = some d ∧
      (-(2 ^ 15) ≤ d.args_count ∧ d.args_count < 2 ^ 15) ∧
      (d.args_count = (k : Int) → d.name ≠ none)) :
    cexpr_find_function_loop (some arr) k name len n i =
      some (first_function_named ((arr.drop i).take n) k (name.take len)) := by
  induction n generalizing i with
  | zero => rfl
  | succ n ih =>
    obtain ⟨d, hd, hshort, hname⟩ := h i (le_refl _) (by omega)
    have ih' := ih (i + 1) (fun j hj1 hj2 => h j (by omega) (by omega))
    simp only [cexpr_find_function_loop, hd, arity_test_eq k d.args_count hk hshort]
    rw [drop_cons_of_getElem? hd, List.take_succ_cons]
    by_cases ha : d.args_count = (k : Int)
    · cases hs : d.name with
      | none => exact absurd hs (hname ha)
      | some s =>
        simp only [ha, beq_self_eq_true, Bool.not_true, Bool.false_eq_true, if_false,
          name_matches_eq_decide s name len hq hnn]
        by_cases hm : c_string s = name.take len
        · simp [first_function_named, hs, hm, ha]
        · rw [ih']
          simp [first_function_named, hs, hm, ha]
    · rw [ih']
      simp [first_function_named, ha]

theorem find_function_by_name_eq (e : CExprExecutor) (k : Nat) (name : List Char) (len : Nat)
    (hq : (name.take len).length = len) (hnn : no_nul (name.take len) = true)
    (hk : k < 2 ^ 63)
    (hsize : (fun_entries e).length = e.m_fun_size)
    (hshort : ∀ d ∈ fun_entries e, -(2 ^ 15) ≤ d.args_count ∧ d.args_count < 2 ^ 15)
    (hname : ∀ d ∈ fun_entries e, d.args_count = (k : Int) → d.name ≠ none) :
    cexpr_find_function_by_name (some e) k name len =
      some (if len = 0 then none else first_function_named (fun_entries e) k (name.take len)) := by
  unfold cexpr_find_function_by_name
  by_cases hl : len = 0
  · simp [hl]
  · simp only [hl, if_false]
    cases hm : e.m_fun with
    | none =>
      have h0 : e.m_fun_size = 0 := by
        rw [← hsize]
        simp [fun_entries, hm]
      rw [h0]
      simp [cexpr_find_function_loop, fun_entries, hm, first_function_named]
    | some arr =>
      have hs' : (arr.take e.m_fun_size).length = e.m_fun_size := by
        simpa [fun_entries, hm] using hsize
      rw [find_function_loop_eq arr k name len hq hnn hk e.m_fun_size 0 (fun j _ hj => by
        obtain ⟨d, hd, hmem⟩ := entries_getElem? hs' (by omega : j < e.m_fun_size)
        have hmem' : d ∈ fun_entries e := by simpa [fun_entries, hm] using hmem
        exact ⟨d, hd, hshort d hmem', hname d hmem'⟩)]
      simp [fun_entries, hm]

theorem eval_call1 {mem : Nat → Float} {exec : Option CExprExecutor} {name : List Char}
    {len : Nat} {a0 : NodePtr} {g : HostFn} {v0 : Float}
    (hf : cexpr_find_function_by_name exec 1 name len = some (some g))
    (h0 : cexpr_eval_expression_impl mem exec a0 = some v0) :
    cexpr_eval_expression_impl mem exec (.function_call1 name len a0) = some (g [v0]) := by
  rw [cexpr_eval_expression_impl, hf, h0]

theorem eval_call2 {mem : Nat → Float} {exec : Option CExprExecutor} {name : List Char}
    {len : Nat} {a0 a1 : NodePtr} {g : HostFn} {v0 v1 : Float}
    (hf : cexpr_find_function_by_name exec 2 name len = some (some g))
    (h0 : cexpr_eval_expression_impl mem exec a0 = some v0)
    (h1 : cexpr_eval_expression_impl mem exec a1 = some v1) :
    cexpr_eval_expression_impl mem exec (.function_call2 name len a0 a1) = some (g [v0, v1]) := by
  rw [cexpr_eval_expression_impl, hf, h0, h1]

theorem find_function_of_pair (e : CExprExecutor) (name : List Char) (len : Nat)
    (hlen : 0 < len) (hq : (name.take len).length = len) (hnn : no_nul (name.take len) = true)
    (g1 g2 : HostFn) (s : List Char) (hs : c_string s = name.take len)
    (hsize : e.m_fun_size = 2)
    (ht : fun_entries e = [{ name := some s, f_ptr := some g1, args_count := 1 },
        { name := some s, f_ptr := some g2, args_count := 2 }] ∨
      fun_entries e = [{ name := some s, f_ptr := some g2, args_count := 2 },
        { name := some s, f_ptr := some g1, args_count := 1 }]) :
    cexpr_find_function_by_name (some e) 1 name len = some (some g1) ∧
      cexpr_find_function_by_name (some e) 2 name len = some (some g2) := by
  have hl : len ≠ 0 := by omega
  have hsz : (fun_entries e).length = e.m_fun_size := by
    rcases ht with ht | ht <;> rw [ht, hsize] <;> rfl
  have hshort : ∀ d ∈ fun_entries e, -(2 ^ 15) ≤ d.args_count ∧ d.args_count < 2 ^ 15 := by
    intro d hd
    rcases ht with ht | ht <;> rw [ht] at hd <;>
      simp only [List.mem_cons, List.mem_singleton, List.not_mem_nil, or_false] at hd <;>
      rcases hd with rfl | rfl <;> exact ⟨by show (-(2 ^ 15) : Int) ≤ _; norm_num, by show (_ : Int) < 2 ^ 15; norm_num⟩
  have hname : ∀ k : Nat, ∀ d ∈ fun_entries e, d.args_count = (k : Int) → d.name ≠ none := by
    intro k d hd _
    rcases ht with ht | ht <;> rw [ht] at hd <;>
      simp only [List.mem_cons, List.mem_singleton, List.not_mem_nil, or_false] at hd <;>
      rcases hd with rfl | rfl <;> simp
  rw [find_function_by_name_eq e 1 name len hq hnn (by decide) hsz hshort (hname 1),
    find_function_by_name_eq e 2 name len hq hnn (by decide) hsz hshort (hname 2)]
  simp only [hl, if_false]
  rcases ht with ht | ht <;> rw [ht] <;> simp [first_function_named, hs]

/-- C11. Function lookup is arity-sensitive and first-match: where the entries of the function
table have an `args_count` in the range of `short` and those of arity `k` have a stored name, and
the query slice (the first `len` characters at `name`) is not empty, lies in the text and has no
NUL, `cexpr_find_function_by_name` returns the target of the first entry whose `args_count` is
`k` and whose stored string equals the slice, and null when there is none. So where a table
holds that name at the arities 1 and 2, in either order, a call node with one argument is
evaluated with the target of arity 1 and a call node with two arguments with the target of
arity 2, on the values of the arguments. -/
theorem function_lookup_by_arity (e : CExprExecutor) (k : Nat) (name : List Char) (len : Nat)
    (hlen : 0 < len) (hq : (name.take len).length = len) (hnn : no_nul (name.take len) = true)
    (hk : k < 2 ^ 63) (hsize : (fun_entries e).length = e.m_fun_size)
    (hshort : ∀ d ∈ fun_entries e, -(2 ^ 15) ≤ d.args_count ∧ d.args_count < 2 ^ 15)
    (hname : ∀ d ∈ fun_entries e, d.args_count = (k : Int) → d.name ≠ none) :
    cexpr_find_function_by_name (some e) k name len =
      some (first_function_named (fun_entries e) k (name.take len)) ∧
    ∀ (mem : Nat → Float) (e2 : CExprExecutor) (g1 g2 : HostFn) (s : List Char)
      (a0 a1 : NodePtr) (v0 v1 : Float), c_string s = name.take len → e2.m_fun_size = 2 →
      (fun_entries e2 = [{ name := some s, f_ptr := some g1, args_count := 1 },
          { name := some s, f_ptr := some g2, args_count := 2 }] ∨
        fun_entries e2 = [{ name := some s, f_ptr := some g2, args_count := 2 },
          { name := some s, f_ptr := some g1, args_count := 1 }]) →
      cexpr_eval_expression_impl mem (some e2) a0 = some v0 →
      cexpr_eval_expression_impl mem (some e2) a1 = some v1 →
      cexpr_eval_expression_impl mem (some e2) (.function_call1 name len a0) = some (g1 [v0]) ∧
        cexpr_eval_expression_impl mem (some e2) (.function_call2 name len a0 a1) =
          some (g2 [v0, v1]) := by
  refine ⟨?_, ?_⟩
  · rw [find_function_by_name_eq e k name len hq hnn hk hsize hshort hname]
    have hl : len ≠ 0 := by omega
    simp only [hl, if_false]
  · intro mem e2 g1 g2 s a0 a1 v0 v1 hs hsz ht h0 h1
    obtain ⟨f1, f2⟩ := find_function_of_pair e2 name len hlen hq hnn g1 g2 s hs hsz ht
    exact ⟨eval_call1 f1 h0, eval_call2 f2 h0 h1⟩

theorem function_lookup_by_arity_witness :
    cexpr_find_function_by_name (some f_executor) 2 "f".toList 1 =
      some (first_function_named (fun_entries f_executor) 2 ("f".toList.take 1)) ∧
    cexpr_eval_expression_impl example_memory (some f_executor)
        (.function_call1 "f".toList 1 (.literal 9)) = some (host_sqrt [9]) ∧
      cexpr_eval_expression_impl example_memory (some f_executor)
        (.function_call2 "f".toList 1 (.literal 9) (.literal 2)) = some (host_pow [9, 2]) :=
  ⟨(function_lookup_by_arity f_executor 2 "f".toList 1 (by decide) (by decide) (by decide)
      (by decide) (by decide) (by decide) (by decide)).1,
    (function_lookup_by_arity f_executor 2 "f".toList 1 (by decide) (by decide) (by decide)
      (by decide) (by decide) (by decide) (by decide)).2 example_memory f_executor host_sqrt
      host_pow "f".toList (.literal 9) (.literal 2) 9 2 (by decide) rfl (Or.inl rfl) rfl rfl⟩

/-! ## Calls of functions that are not registered -/

theorem find_function_loop_miss (arr : List CExprFunctionBindDesc) (k : Nat) (name : List Char)
    (len : Nat) (hk : k < 2 ^ 63) (n i : Nat)
    (h : ∀ j, i ≤ j → j < i + n → ∃ d, arr[j]? = some d ∧
      (-(2 ^ 15) ≤ d.args_count ∧ d.args_count < 2 ^ 15) ∧
      (d.args_count = (k : Int) → ∃ s, d.name = some s ∧ c_string s ≠ name.take len)) :
    cexpr_find_function_loop (some arr) k name len n i = some none := by
  induction n generalizing i with
  | zero => rfl
  | succ n ih =>
    obtain ⟨d, hd, hshort, hname⟩ := h i (le_refl _) (by omega)
    have ih' := ih (i + 1) (fun j hj1 hj2 => h j (by omega) (by omega))
    simp only [cexpr_find_function_loop, hd, arity_test_eq k d.args_count hk hshort]
    by_cases ha : d.args_count = (k : Int)
    · obtain ⟨s, hs, hne⟩ := hname ha
      simp only [ha, beq_self_eq_true, Bool.not_true, Bool.false_eq_true, if_false, hs,
        name_matches_false_of_ne hne]
      exact ih'
    · have hb : (d.args_count == (k : Int)) = false := by
        rw [beq_eq_false_iff_ne]
        exact ha
      simp only [hb, Bool.not_false, if_true]
      exact ih'

theorem find_function_by_name_miss (e : CExprExecutor) (k : Nat) (name : List Char) (len : Nat)
    (hk : k < 2 ^ 63) (hsize : (fun_entries e).length = e.m_fun_size)
    (hshort : ∀ d ∈ fun_entries e, -(2 ^ 15) ≤ d.args_count ∧ d.args_count < 2 ^ 15)
    (hmiss : ∀ d ∈ fun_entries e, d.args_count = (k : Int) →
      ∃ s, d.name = some s ∧ c_string s ≠ name.take len) :
    cexpr_find_function_by_name (some e) k name len = some none := by
  unfold cexpr_find_function_by_name
  by_cases hl : len = 0
  · simp [hl]
  · simp only [hl, if_false]
    cases hm : e.m_fun with
    | none =>
      have h0 : e.m_fun_size = 0 := by
        rw [← hsize]
        simp [fun_entries, hm]
      rw [h0]
      rfl
    | some arr =>
      have hs' : (arr.take e.m_fun_size).length = e.m_fun_size := by
        simpa [fun_entries, hm] using hsize
      exact find_function_loop_miss arr k name len hk e.m_fun_size 0 (fun j _ hj => by
        obtain ⟨d, hd, hmem⟩ := entries_getElem? hs' (by omega : j < e.m_fun_size)
        have hmem' : d ∈ fun_entries e := by simpa [fun_entries, hm] using hmem
        exact ⟨d, hd, hshort d hmem', hmiss d hmem'⟩)

/-- The value of the evaluator with the record of calls is the value of the evaluator. -/
theorem eval_calls_value (mem : Nat → Float) (exec : Option CExprExecutor) (node : NodePtr) :
    (cexpr_eval_expression_calls mem exec node).map Prod.fst =
      cexpr_eval_expression_impl mem exec node := by
  induction node
  · rfl
  · rename_i op l r ihl ihr
    rw [cexpr_eval_expression_calls, cexpr_eval_expression_impl, ← ihl, ← ihr]
    cases cexpr_eval_expression_calls mem exec l <;>
      cases cexpr_eval_expression_calls mem exec r <;> rfl
  · rfl
  · rename_i name len
    rw [cexpr_eval_expression_calls, cexpr_eval_expression_impl]
    cases cexpr_find_variable_by_name exec name len with
    | none => rfl
    | some p =>
      cases p with
      | some a => rfl
      | none => cases cexpr_find_counstant_by_name exec name len <;> rfl
  · rename_i name len
    rw [cexpr_eval_expression_calls, cexpr_eval_expression_impl]
    cases cexpr_find_function_by_name exec 0 name len with
    | none => rfl
    | some p => cases p <;> rfl
  · rename_i name len a0 ih0
    rw [cexpr_eval_expression_calls, cexpr_eval_expression_impl, ← ih0]
    cases cexpr_find_function_by_name exec 1 name len with
    | none => rfl
    | some p =>
      cases p with
      | none => rfl
      | some g => cases cexpr_eval_expression_calls mem exec a0 <;> rfl
  · rename_i name len a0 a1 ih0 ih1
    rw [cexpr_eval_expression_calls, cexpr_eval_expression_impl, ← ih0, ← ih1]
    cases cexpr_find_function_by_name exec 2 name len with
    | none => rfl
    | some p =>
      cases p with
      | none => rfl
      | some g =>
        cases cexpr_eval_expression_calls mem exec a0 <;>
          cases cexpr_eval_expression_calls mem exec a1 <;> rfl
  · rename_i name len a0 a1 a2 ih0 ih1 ih2
    rw [cexpr_eval_expression_calls, cexpr_eval_expression_impl, ← ih0, ← ih1, ← ih2]
    cases cexpr_find_function_by_name exec 3 name len with
    | none => rfl
    | some p =>
      cases p with
      | none => rfl
      | some g =>
        cases cexpr_eval_expression_calls mem exec a0 <;>
          cases cexpr_eval_expression_calls mem exec a1 <;>
            cases cexpr_eval_expression_calls mem exec a2 <;> rfl

theorem eval_calls_missing (mem : Nat → Float) (exec : Option CExprExecutor) (name : List Char)
    (len : Nat) (args : List NodePtr) (hargs : args.length ≤ 3)
    (hf : cexpr_find_function_by_name exec args.length name len = some none) :
    cexpr_eval_expression_calls mem exec (call_node name len args) = some (NAN, []) := by
  match args, hargs, hf with
  | [], _, hf =>
    simp only [List.length_nil] at hf
    simp only [call_node]
    rw [cexpr_eval_expression_calls, hf]
  | [a0], _, hf =>
    simp only [List.length_singleton] at hf
    simp only [call_node]
    rw [cexpr_eval_expression_calls, hf]
  | [a0, a1], _, hf =>
    simp only [List.length_cons, List.length_nil, Nat.zero_add, Nat.reduceAdd] at hf
    simp only [call_node]
    rw [cexpr_eval_expression_calls, hf]
  | [a0, a1, a2], _, hf =>
    simp only [List.length_cons, List.length_nil, Nat.zero_add, Nat.reduceAdd] at hf
    simp only [call_node]
    rw [cexpr_eval_expression_calls, hf]
  | _ :: _ :: _ :: _ :: _, h, _ => simp at h

/-- C12. A call with no matching function evaluates to NaN: for a call node of the name slice
(the first `len` characters at `name`) with up to three arguments, of which the parser builds
those with one to three, in an environment whose function entries have an `args_count` in the
range of `short` and, where it is the number of arguments, a stored name that is not the slice,
the evaluator returns `NAN` and calls no host function: the arguments are not evaluated. Entries
of the same name with another `args_count` do not matter. -/
theorem missing_function_yields_nan (mem : Nat → Float) (e : CExprExecutor) (name : List Char)
    (len : Nat) (args : List NodePtr) (hargs : args.length ≤ 3)
    (hsize : (fun_entries e).length = e.m_fun_size)
    (hshort : ∀ d ∈ fun_entries e, -(2 ^ 15) ≤ d.args_count ∧ d.args_count < 2 ^ 15)
    (hmiss : ∀ d ∈ fun_entries e, d.args_count = (args.length : Int) →
      d.name ≠ none ∧ d.name.map c_string ≠ some (name.take len)) :
    cexpr_eval_expression_impl mem (some e) (call_node name len args) = some NAN ∧
      cexpr_eval_expression_calls mem (some e) (call_node name len args) = some (NAN, []) := by
  have hf : cexpr_find_function_by_name (some e) args.length name len = some none :=
    find_function_by_name_miss e args.length name len (by omega) hsize hshort (by
      intro d hd ha
      obtain ⟨h1, h2⟩ := hmiss d hd ha
      cases hs : d.name with
      | none => exact absurd hs h1
      | some s =>
        refine ⟨s, rfl, fun hc => h2 ?_⟩
        rw [hs, Option.map_some', hc])
  have hc := eval_calls_missing mem (some e) name len args hargs hf
  refine ⟨?_, hc⟩
  rw [← eval_calls_value, hc]
  rfl

theorem missing_function_yields_nan_witness :
    cexpr_eval_expression_impl example_memory (some f_executor)
        (call_node "f".toList 1 [.literal 1, .literal 2, .literal 3]) = some NAN ∧
      cexpr_eval_expression_calls example_memory (some f_executor)
        (call_node "f".toList 1 [.literal 1, .literal 2, .literal 3]) = some (NAN, []) :=
  missing_function_yields_nan example_memory f_executor "f".toList 1
    [.literal 1, .literal 2, .literal 3] (by decide) (by decide) (by decide) (by decide)

/-! ## Empty and blank input -/

theorem blank_run {ws : List Char} (hw : all_space ws = true) :
    Run3 (cexpr_parse_next_token (cexpr_tokenizer_init ws (strlen ws)))
      (.null, { cexpr_parse_next_token (cexpr_tokenizer_init ws (strlen ws)) with
        is_valid := false }) := by
  have he := init_str_end (all_space_no_nul hw)
  have e1 : cexpr_parse_next_token (cexpr_tokenizer_init ws (strlen ws)) =
      cexpr_parse_next_token { cexpr_tokenizer_init ws (strlen ws) with str_cur := [] } :=
    next_token_skip he (by simp [cexpr_tokenizer_init]) hw
  have e2 := next_token_eof (k := { cexpr_tokenizer_init ws (strlen ws) with str_cur := [] })
    he rfl
  have ht : (cexpr_parse_next_token (cexpr_tokenizer_init ws (strlen ws))).cur_token_type =
      TK_EOF := by rw [e1, e2]
  exact run3_fail (by rw [ht]; simp) (by rw [ht]; simp) (by rw [ht]; simp)

/-- C17. Empty or blank input yields no AST: with the length 0 the parse of any buffer returns
the null root, and so does the parse of the empty text and of every text that consists of
whitespace characters only (space, tab, newline, carriage return, form feed, vertical tab),
given as a C string or with its length. -/
theorem blank_input_yields_no_ast (ws : List Char)
    (hw : ∀ c ∈ ws, c = ' ' ∨ c = '\t' ∨ c = '\n' ∨ c = '\r' ∨ c = Char.ofNat 12 ∨
      c = Char.ofNat 11) :
    (∀ str, cexpr_parse_expression_len str 0 = .null) ∧
      cexpr_parse_expression [] = .null ∧
      cexpr_parse_expression ws = .null ∧
      cexpr_parse_expression_len ws ws.length = .null := by
  have hs : all_space ws = true := by
    simp only [all_space, List.all_eq_true]
    intro c hc
    rcases hw c hc with h | h | h | h | h | h <;> subst h <;> decide
  have h3 : cexpr_parse_expression ws = .null := parse_null_of_run (blank_run hs) rfl
  refine ⟨fun str => rfl, rfl, h3, ?_⟩
  have := h3
  unfold cexpr_parse_expression at this
  rwa [strlen_no_nul (all_space_no_nul hs)] at this

theorem blank_input_yields_no_ast_witness :
    (∀ str, cexpr_parse_expression_len str 0 = NodePtr.null) ∧
      cexpr_parse_expression [] = NodePtr.null ∧
      cexpr_parse_expression " \t\n \r".toList = NodePtr.null ∧
      cexpr_parse_expression_len " \t\n \r".toList " \t\n \r".toList.length = NodePtr.null :=
  blank_input_yields_no_ast " \t\n \r".toList (by decide)

/-! ## The unary sign -/

theorem is_identifier_length_pos {x : List Char} (hx : is_identifier x = true) :
    0 < x.length := by
  cases x with
  | nil => simp [is_identifier] at hx
  | cons c cs => simp

theorem eval_signed_variable {x : List Char} (hx : is_identifier x = true) {mem : Nat → Float}
    {exec : CExprExecutor} {v : Float} (hb : binds_variable exec mem x v) (s : Char)
    (hs : s = '+' ∨ s = '-') :
    cexpr_executor_eval_expr mem (some exec) (cexpr_parse_expression (s :: x)) =
      some (cexpr_apply_operator (unary_operator s) v NAN) := by
  have hp := parse_expression_of_accepts (primary_is_expression_of_accepts1
    (sign_accepts1 (identifier_is_primary hx) hs (w := []) rfl))
  simp only [List.nil_append] at hp
  rw [hp]
  exact eval_operator
    (eval_variable_of_binds hb (x ++ []) x.length (is_identifier_length_pos hx) (by simp) rfl
      (identifier_no_nul hx))
    rfl

theorem signed_first_operand {a b : List Char} {mka mkb : List Char → NodePtr}
    (ha : IsPrimary a mka) (hb : IsPrimary b mkb) {s o : Char} (hs : s = '+' ∨ s = '-')
    (ho : o = '+' ∨ o = '-' ∨ o = '*' ∨ o = '/') :
    cexpr_parse_expression (s :: (a ++ o :: b)) =
      .operator (binary_operator o) (.operator (unary_operator s) (mka (o :: b)) .null)
        (mkb []) := by
  have h1 := sign_accepts1 ha hs (w := []) rfl
  have hadd : (o = '+' ∨ o = '-') ∨ (o = '*' ∨ o = '/') := by tauto
  rcases hadd with ho' | ho'
  · have h := parse_expression_of_accepts (level3_chain (accepts2_of_accepts1 h1)
      (loop3_more (accepts2_of_accepts1 (primary_accepts1 hb)) (loop3_done (w := []) rfl) ho'
        (show all_space ([] : List Char) = true from rfl)
        (show all_space ([] : List Char) = true from rfl)))
    simpa only [List.append_assoc, List.cons_append, List.append_nil, List.nil_append] using h
  · have h := parse_expression_of_accepts (accepts3_of_accepts2 (level2_chain h1
      (loop2_more (primary_accepts1 hb) (loop2_done (w := []) rfl) ho'
        (show all_space ([] : List Char) = true from rfl)
        (show all_space ([] : List Char) = true from rfl))))
    simpa only [List.append_assoc, List.cons_append, List.append_nil, List.nil_append] using h

/-- C20. Unary sign semantics: where the environment binds the variable `x` to a cell that holds
`v`, the parse of `-x` evaluates to `-v` and the parse of `+x` to `v`; and the sign applies only
to the primary that follows it: for primaries `a` and `b`, `-a+b` parses to the sum of the
negation node of `a` and `b`, and `-a*b` to the product of the negation node of `a` and `b`. -/
theorem unary_sign_semantics (x : List Char) (hx : is_identifier x = true) (mem : Nat → Float)
    (exec : CExprExecutor) (v : Float) (hv : binds_variable exec mem x v) (a b : List Char)
    (mka mkb : List Char → NodePtr) (ha : IsPrimary a mka) (hb : IsPrimary b mkb) :
    cexpr_executor_eval_expr mem (some exec) (cexpr_parse_expression ('-' :: x)) = some (-v) ∧
    cexpr_executor_eval_expr mem (some exec) (cexpr_parse_expression ('+' :: x)) = some v ∧
    cexpr_parse_expression ('-' :: (a ++ '+' :: b)) =
      .operator CEXPR_OPERATOR_ADD (.operator CEXPR_OPERATOR_MINUS (mka ('+' :: b)) .null)
        (mkb []) ∧
    cexpr_parse_expression ('-' :: (a ++ '*' :: b)) =
      .operator CEXPR_OPERATOR_MUL (.operator CEXPR_OPERATOR_MINUS (mka ('*' :: b)) .null)
        (mkb []) :=
  ⟨eval_signed_variable hx hv '-' (Or.inr rfl), eval_signed_variable hx hv '+' (Or.inl rfl),
    signed_first_operand ha hb (Or.inr rfl) (Or.inl rfl),
    signed_first_operand ha hb (Or.inr rfl) (Or.inr (Or.inr (Or.inl rfl)))⟩

theorem unary_sign_semantics_witness :
    cexpr_executor_eval_expr abc_memory (some abc_executor)
        (cexpr_parse_expression "-b".toList) = some (-abc_memory 1) ∧
    cexpr_executor_eval_expr abc_memory (some abc_executor)
        (cexpr_parse_expression "+b".toList) = some (abc_memory 1) ∧
    cexpr_parse_expression "-a+b".toList =
      .operator CEXPR_OPERATOR_ADD
        (.operator CEXPR_OPERATOR_MINUS (.variable "a+b".toList 1) .null)
        (.variable "b".toList 1) ∧
    cexpr_parse_expression "-a*b".toList =
      .operator CEXPR_OPERATOR_MUL
        (.operator CEXPR_OPERATOR_MINUS (.variable "a*b".toList 1) .null)
        (.variable "b".toList 1) :=
  unary_sign_semantics "b".toList (by decide) abc_memory abc_executor _ abc_binds_b "a".toList
    "b".toList _ _ (identifier_is_primary (by decide)) (identifier_is_primary (by decide))

/-! ## Parentheses -/

theorem first_char_not_of_bne {r : List Char} {c : Char} (h : first_char r ≠ some c) :
    (first_char r == some c) = false := by
  rw [beq_eq_false_iff_ne]
  exact h

/-- Level 0 at a parenthesis that is not closed: the inner expression is parsed and returned,
and `is_valid` is cleared. The current token is then the first token of `rest`. -/
theorem unclosed_run0 {e : List Char} {mk : List Char → NodePtr} (h : IsExpression e mk)
    {rest : List Char} (hf : follow3 rest = true) (hc : first_char rest ≠ some ')')
    {k : CExprTokenizer} (hcur : k.str_cur = '(' :: (e ++ rest)) (he : k.str_end = []) :
    ∃ tk1, Run0 (cexpr_parse_next_token k)
        (mk rest, { cexpr_parse_next_token tk1 with is_valid := false }) ∧
      tk1.str_cur = rest ∧ tk1.str_end = [] := by
  have ht := next_token_char (k := k) (c := '(') (r := e ++ rest) he hcur (by decide)
  obtain ⟨tk1, h1, h2, h3, _⟩ := h.2 rest (cexpr_parse_next_token k) hf (by rw [ht])
    (by rw [ht]; exact he)
  refine ⟨tk1, ?_, h2, h3⟩
  refine run0_unclosed (by rw [ht, at_char_mk]; rfl) h1 ?_
  rw [next_at_char h3 (by decide), h2]
  exact first_char_not_of_bne hc

theorem unclosed_parse {e : List Char} {mk : List Char → NodePtr} (h : IsExpression e mk)
    {rest : List Char} (hf : follow3 rest = true) (hc : first_char rest ≠ some ')')
    (hn : no_nul rest = true) {ws : List Char} (hw : all_space ws = true) :
    cexpr_parse_expression (ws ++ '(' :: (e ++ rest)) = .null := by
  have hnn : no_nul (ws ++ '(' :: (e ++ rest)) = true := by
    rw [no_nul_append, no_nul_cons, no_nul_append, all_space_no_nul hw, h.1, hn]
    rfl
  have he := init_str_end hnn
  generalize hinit : cexpr_tokenizer_init (ws ++ '(' :: (e ++ rest))
    (strlen (ws ++ '(' :: (e ++ rest))) = tk0 at he
  have hcur0 : tk0.str_cur = ws ++ '(' :: (e ++ rest) := by rw [← hinit]; rfl
  have e1 : cexpr_parse_next_token tk0 =
      cexpr_parse_next_token { tk0 with str_cur := '(' :: (e ++ rest) } :=
    next_token_skip he hcur0 hw
  obtain ⟨tk1, r0, c1, n1⟩ := unclosed_run0 h hf hc
    (k := { tk0 with str_cur := '(' :: (e ++ rest) }) rfl he
  have e2 := next_token_char (k := { tk0 with str_cur := '(' :: (e ++ rest) }) (c := '(')
    (r := e ++ rest) he rfl (by decide)
  have hat : (cexpr_parse_next_token tk0).at_char '(' = true := by
    rw [e1, e2, at_char_mk]; rfl
  have hmul := next_not_mul n1 (by rw [c1]; exact follow3_follow2 hf)
  have hadd := next_not_add n1 (by rw [c1]; exact hf)
  rw [← e1] at r0
  have r3 := run3_of_run0 r0 (at_char_other_pair hat (by decide) (by decide)) hmul hadd
  rw [← hinit] at r3
  exact parse_null_of_run r3 rfl

/-! ## A failure of level 0 fails the parse -/

/-- Where a call of `cexpr_parce_0_level` that the parser makes at the tokenizer state `t`
clears `is_valid`, every level whose run makes this call returns with `is_valid` cleared. -/
theorem enters_fails (t : CExprTokenizer)
    (ht : ∀ m r0, cexpr_parce_0_level m t = some r0 → r0.2.is_valid = false) (n : Nat) :
    (∀ tk r, enters_0_level n tk t → cexpr_parce_0_level n tk = some r →
      r.2.is_valid = true → False) ∧
    (∀ args tk r, enters_args n args tk t → cexpr_parce_args n args tk = some r →
      r.2.is_valid = true → False) ∧
    (∀ tk r, enters_1_level n tk t → cexpr_parce_1_level n tk = some r →
      r.2.is_valid = true → False) ∧
    (∀ cur tk r, enters_2_loop n cur tk t → cexpr_parce_2_loop n cur tk = some r →
      r.2.is_valid = true → False) ∧
    (∀ tk r, enters_2_level n tk t → cexpr_parce_2_level n tk = some r →
      r.2.is_valid = true → False) ∧
    (∀ cur tk r, enters_3_loop n cur tk t → cexpr_parce_3_loop n cur tk = some r →
      r.2.is_valid = true → False) ∧
    (∀ tk r, enters_3_level n tk t → cexpr_parce_3_level n tk = some r →
      r.2.is_valid = true → False) := by
  induction n with
  | zero =>
    simp [enters_0_level, enters_args, enters_1_level, enters_2_loop, enters_2_level,
      enters_3_loop, enters_3_level]
  | succ n ih =>
    obtain ⟨h0, ha, h1, hl2, h2, hl3, h3⟩ := ih
    obtain ⟨w0, wa, w1, wl2, w2, wl3, w3⟩ := well_formed_aux n
    refine ⟨?_, ?_, ?_, ?_, ?_, ?_, ?_⟩
    · intro tk r he h hv
      rw [enters_0_level] at he
      rcases he with rfl | he
      · have := ht _ _ h
        rw [hv] at this
        exact Bool.noConfusion this
      rw [cexpr_parce_0_level] at h
      dsimp only at h
      by_cases c1 : tk.cur_token_type = TK_NUMBER
      · simp only [c1, if_true] at he
      simp only [c1, if_false] at h he
      by_cases c2 : tk.at_char '(' = true
      · simp only [c2, if_true] at h he
        cases hrec : cexpr_parce_3_level n (cexpr_parse_next_token tk) with
        | none => simp [hrec] at h
        | some p =>
          simp only [hrec] at h
          by_cases c3 : p.2.at_char ')' = true
          · simp only [c3, if_true, Option.some.injEq] at h
            subst h
            exact h3 _ _ he hrec (by simpa only [next_token_is_valid] using hv)
          · simp only [c3, Bool.false_eq_true, if_false, Option.some.injEq] at h
            subst h
            exact absurd hv (by simp)
      simp only [c2, Bool.false_eq_true, if_false] at h he
      by_cases c3 : tk.cur_token_type = TK_ID
      · simp only [c3, if_true] at h he
        by_cases c4 : (cexpr_parse_next_token tk).at_char '(' = true
        · simp only [c4, if_true] at h he
          cases hrec : cexpr_parce_args n []
              (cexpr_parse_next_token (cexpr_parse_next_token tk)) with
          | none => simp [hrec] at h
          | some p =>
            simp only [hrec, Option.some.injEq] at h
            subst h
            refine ha _ _ _ he hrec ?_
            unfold cexpr_make_call at hv
            split at hv <;> first | exact hv | simp at hv
        · simp only [c4, Bool.false_eq_true, if_false] at he
      · simp only [c3, if_false] at he
    · intro args tk r he h hv
      rw [enters_args] at he
      rw [cexpr_parce_args] at h
      cases hrec : cexpr_parce_3_level n tk with
      | none => simp [hrec] at h
      | some p =>
        simp only [hrec] at h he
        by_cases c1 : p.2.at_char ',' = true
        · simp only [c1, if_true] at h he
          by_cases c2 : (args ++ [p.1]).length = 3
          · simp only [c2, if_true, Option.some.injEq] at h
            subst h
            exact absurd hv (by simp)
          · simp only [c2, if_false] at h he
            rcases he with he | he
            · have := (wa _ _ _ h hv).1
              exact h3 _ _ he hrec (by simpa only [next_token_is_valid] using this)
            · exact ha _ _ _ he h hv
        · simp only [c1, Bool.false_eq_true, if_false, or_false] at h he
          by_cases c2 : p.2.at_char ')' = true
          · simp only [c2, if_true, Option.some.injEq] at h
            subst h
            exact h3 _ _ he hrec (by simpa only [next_token_is_valid] using hv)
          · simp only [c2, Bool.false_eq_true, if_false, Option.some.injEq] at h
            subst h
            exact absurd hv (by simp)
    · intro tk r he h hv
      rw [enters_1_level] at he
      rw [cexpr_parce_1_level] at h
      dsimp only at h
      by_cases c1 : (tk.at_char '+' || tk.at_char '-') = true
      · simp only [c1, if_true] at h he
        cases hrec : cexpr_parce_0_level n (cexpr_parse_next_token tk) with
        | none => simp [hrec] at h
        | some p =>
          simp only [hrec, Option.some.injEq] at h
          subst h
          exact h0 _ _ he hrec hv
      · simp only [c1, Bool.false_eq_true, if_false] at h he
        exact h0 _ _ he h hv
    · intro cur tk r he h hv
      rw [enters_2_loop] at he
      rw [cexpr_parce_2_loop] at h
      dsimp only at h
      by_cases c1 : (tk.at_char '*' || tk.at_char '/') = true
      · simp only [c1, if_true] at h he
        cases hrec : cexpr_parce_1_level n (cexpr_parse_next_token tk) with
        | none => simp [hrec] at h
        | some p =>
          simp only [hrec] at h he
          rcases he with he | he
          · exact h1 _ _ he hrec (wl2 _ _ _ h hv).1
          · exact hl2 _ _ _ he h hv
      · simp only [c1, Bool.false_eq_true, if_false] at he
    · intro tk r he h hv
      rw [enters_2_level] at he
      rw [cexpr_parce_2_level] at h
      cases hrec : cexpr_parce_1_level n tk with
      | none => simp [hrec] at h
      | some p =>
        simp only [hrec] at h he
        rcases he with he | he
        · exact h1 _ _ he hrec (wl2 _ _ _ h hv).1
        · exact hl2 _ _ _ he h hv
    · intro cur tk r he h hv
      rw [enters_3_loop] at he
      rw [cexpr_parce_3_loop] at h
      dsimp only at h
      by_cases c1 : (tk.at_char '+' || tk.at_char '-') = true
      · simp only [c1, if_true] at h he
        cases hrec : cexpr_parce_2_level n (cexpr_parse_next_token tk) with
        | none => simp [hrec] at h
        | some p =>
          simp only [hrec] at h he
          rcases he with he | he
          · exact h2 _ _ he hrec (wl3 _ _ _ h hv).1
          · exact hl3 _ _ _ he h hv
      · simp only [c1, Bool.false_eq_true, if_false] at he
    · intro tk r he h hv
      rw [enters_3_level] at he
      rw [cexpr_parce_3_level] at h
      cases hrec : cexpr_parce_2_level n tk with
      | none => simp [hrec] at h
      | some p =>
        simp only [hrec] at h he
        rcases he with he | he
        · exact h2 _ _ he hrec (wl3 _ _ _ h hv).1
        · exact hl3 _ _ _ he h hv

/-- The parse of a text in which level 0 is entered at a parenthesis that is not closed returns
the null root, wherever in the text that is. -/
theorem unclosed_anywhere {e : List Char} {mk : List Char → NodePtr} (h : IsExpression e mk)
    {rest : List Char} (hf : follow3 rest = true) (hc : first_char rest ≠ some ')')
    (s : List Char) (len : Nat) {k : CExprTokenizer} (hcur : k.str_cur = '(' :: (e ++ rest))
    (he : k.str_end = [])
    (hen : enters_3_level (cexpr_parce_fuel s)
      (cexpr_parse_next_token (cexpr_tokenizer_init s len)) (cexpr_parse_next_token k)) :
    cexpr_parse_expression_len s len = .null := by
  obtain ⟨tk1, r0, _, _⟩ := unclosed_run0 h hf hc hcur he
  have ht : ∀ m r1, cexpr_parce_0_level m (cexpr_parse_next_token k) = some r1 →
      r1.2.is_valid = false := by
    intro m r1 hm
    rw [run0_deterministic ⟨m, hm⟩ r0]
  obtain ⟨r, hr⟩ := cexpr_parce_3_level_total s len
  have hv : r.2.is_valid = false := by
    by_contra hv
    simp only [Bool.not_eq_false] at hv
    exact (enters_fails _ ht _).2.2.2.2.2.2 _ _ hen hr hv
  unfold cexpr_parse_expression_len cexpr_parce_impl
  by_cases hl : len = 0
  · simp [hl]
  · simp [hl, hr, hv]

theorem enters_0_self (n : Nat) (t : CExprTokenizer) : enters_0_level (n + 1) t t := by
  rw [enters_0_level]
  exact Or.inl rfl

theorem enters_1_plain {n : Nat} {tk t : CExprTokenizer}
    (hs : (tk.at_char '+' || tk.at_char '-') = false) (h : enters_0_level n tk t) :
    enters_1_level (n + 1) tk t := by
  rw [enters_1_level]
  simp only [hs, Bool.false_eq_true, if_false]
  exact h

theorem enters_2_loop_operand {n : Nat} {cur : NodePtr} {tk t : CExprTokenizer}
    (hs : (tk.at_char '*' || tk.at_char '/') = true)
    (h : enters_1_level n (cexpr_parse_next_token tk) t) : enters_2_loop (n + 1) cur tk t := by
  rw [enters_2_loop]
  simp only [hs, if_true]
  exact Or.inl h

theorem enters_2_in_loop {n : Nat} {cur : NodePtr} {tk tk1 t : CExprTokenizer}
    (h1 : cexpr_parce_1_level n tk = some (cur, tk1)) (h : enters_2_loop n cur tk1 t) :
    enters_2_level (n + 1) tk t := by
  rw [enters_2_level]
  simp only [h1]
  exact Or.inr h

theorem enters_3_first {n : Nat} {tk t : CExprTokenizer} (h : enters_2_level n tk t) :
    enters_3_level (n + 1) tk t := by
  rw [enters_3_level]
  exact Or.inl h

/-- C18. An unclosed parenthesis is a parse failure: for a complete expression `e` and a
continuation `rest` that ends it and does not start, after whitespace, with `)` (the end of the
text included), level 0 entered at `(` in front of `e` and `rest` returns with `is_valid`
cleared; the parse of every text in whose run level 0 is entered there returns the null root,
and so, in particular, does the parse of a text that starts with this parenthesis; with the `)`
present, the parenthesised text is a primary with the very node of `e`, and its parse is that
node. -/
theorem unclosed_parenthesis_fails (e : List Char) (mk : List Char → NodePtr)
    (h : IsExpression e mk) (rest : List Char) (hf : follow3 rest = true)
    (hc : first_char rest ≠ some ')') (hn : no_nul rest = true) (ws w : List Char)
    (hws : all_space ws = true) (hw : all_space w = true) :
    (∀ tk : CExprTokenizer, tk.str_cur = '(' :: (e ++ rest) → tk.str_end = [] →
      ∃ tk1, Run0 (cexpr_parse_next_token tk) (mk rest, tk1) ∧ tk1.is_valid = false) ∧
    (∀ (s : List Char) (len : Nat) (tk : CExprTokenizer), tk.str_cur = '(' :: (e ++ rest) →
      tk.str_end = [] →
      enters_3_level (cexpr_parce_fuel s) (cexpr_parse_next_token (cexpr_tokenizer_init s len))
        (cexpr_parse_next_token tk) →
      cexpr_parse_expression_len s len = .null) ∧
    cexpr_parse_expression (ws ++ '(' :: (e ++ rest)) = .null ∧
    IsPrimary ('(' :: (e ++ w ++ [')'])) (fun r => mk (w ++ ')' :: r)) ∧
    cexpr_parse_expression (ws ++ '(' :: (e ++ w ++ [')'])) = mk (w ++ [')']) := by
  refine ⟨?_, ?_, unclosed_parse h hf hc hn hws, paren_is_primary h hw, ?_⟩
  · intro tk hcur he
    obtain ⟨tk1, r0, _, _⟩ := unclosed_run0 h hf hc hcur he
    exact ⟨_, r0, rfl⟩
  · intro s len tk hcur he hen
    exact unclosed_anywhere h hf hc s len hcur he hen
  · exact parse_expression_of_accepts
      (accepts_space_left (primary_is_expression (paren_is_primary h hw)) hws)

/-- Two primaries around a binary operator are a complete expression. -/
theorem binary_is_expression {a b : List Char} {mka mkb : List Char → NodePtr}
    (ha : IsPrimary a mka) (hb : IsPrimary b mkb) {o : Char}
    (ho : o = '+' ∨ o = '-' ∨ o = '*' ∨ o = '/') :
    IsExpression (a ++ o :: b)
      (fun rest => .operator (binary_operator o) (mka (o :: (b ++ rest))) (mkb rest)) := by
  have hadd : (o = '+' ∨ o = '-') ∨ (o = '*' ∨ o = '/') := by tauto
  rcases hadd with ho' | ho'
  · have h := level3_chain (accepts2_of_accepts1 (primary_accepts1 ha))
      (loop3_more (accepts2_of_accepts1 (primary_accepts1 hb)) (loop3_done (w := []) rfl) ho'
        (show all_space ([] : List Char) = true from rfl)
        (show all_space ([] : List Char) = true from rfl))
    simpa only [List.append_assoc, List.cons_append, List.append_nil, List.nil_append] using h
  · have h := accepts3_of_accepts2 (level2_chain (primary_accepts1 ha)
      (loop2_more (primary_accepts1 hb) (loop2_done (w := []) rfl) ho'
        (show all_space ([] : List Char) = true from rfl)
        (show all_space ([] : List Char) = true from rfl)))
    simpa only [List.append_assoc, List.cons_append, List.append_nil, List.nil_append] using h

theorem one_plus_two_is_expression :
    IsExpression "1+2".toList (fun _ => .operator CEXPR_OPERATOR_ADD
      (.literal (strtod "1".toList).1) (.literal (strtod "2".toList).1)) :=
  binary_is_expression (a := "1".toList) (b := "2".toList) (o := '+')
    (number_is_primary (by decide)) (number_is_primary (by decide)) (Or.inl rfl)

theorem unclosed_parenthesis_fails_witness :
    cexpr_parse_expression "(1+2".toList = NodePtr.null ∧
    cexpr_parse_expression " (1+2 x".toList = NodePtr.null ∧
    cexpr_parse_expression_len "2*(1+2".toList 6 = NodePtr.null ∧
    cexpr_parse_expression "(1+2 )".toList =
      .operator CEXPR_OPERATOR_ADD (.literal (strtod "1".toList).1)
        (.literal (strtod "2".toList).1) :=
  ⟨(unclosed_parenthesis_fails "1+2".toList _ one_plus_two_is_expression [] (by decide)
      (by decide) (by decide) [] [] (by decide) (by decide)).2.2.1,
    (unclosed_parenthesis_fails "1+2".toList _ one_plus_two_is_expression " x".toList
      (by decide) (by decide) (by decide) " ".toList [] (by decide) (by decide)).2.2.1,
    (unclosed_parenthesis_fails "1+2".toList _ one_plus_two_is_expression [] (by decide)
      (by decide) (by decide) [] [] (by decide) (by decide)).2.1 "2*(1+2".toList 6
      (cexpr_parse_next_token (cexpr_parse_next_token (cexpr_tokenizer_init "2*(1+2".toList 6)))
      rfl rfl
      (enters_3_first (n := 69) (@enters_2_in_loop 68 (.literal (strtod "2".toList).1) _
        (cexpr_parse_next_token (cexpr_parse_next_token
          (cexpr_tokenizer_init "2*(1+2".toList 6))) _ rfl
        (enters_2_loop_operand (n := 67) rfl
          (enters_1_plain (n := 66) rfl (enters_0_self 65 _))))),
    (unclosed_parenthesis_fails "1+2".toList _ one_plus_two_is_expression [] (by decide)
      (by decide) (by decide) [] " ".toList (by decide) (by decide)).2.2.2.2⟩
/-! ## Calls with one to three arguments -/

/-- The last argument of a call and the closing parenthesis. -/
theorem args_last {e : List Char} {mk : List Char → NodePtr} (h : IsExpression e mk)
    {w : List Char} (hw : all_space w = true) (args : List NodePtr) (rest : List Char)
    {tk : CExprTokenizer} (hc : tk.str_cur = e ++ (w ++ ')' :: rest)) (he : tk.str_end = []) :
    ∃ tk1, RunArgs args (cexpr_parse_next_token tk)
        (args ++ [mk (w ++ ')' :: rest)], cexpr_parse_next_token tk1) ∧
      tk1.str_cur = rest ∧ tk1.str_end = [] ∧ tk1.is_valid = tk.is_valid := by
  obtain ⟨s1, r1, sc1, sn1, sv1⟩ := h.2 (w ++ ')' :: rest) tk
    (follow3_space_append hw (follow3_separator (Or.inl rfl) rest)) hc he
  obtain ⟨a, c, n, v⟩ := next_char_after_space sn1 sc1 hw (c := ')') (by decide)
  exact ⟨cexpr_parse_next_token s1, runargs_close r1 a, c, n, by rw [v, sv1]⟩

/-- An argument of a call and the comma after it. -/
theorem args_more {e : List Char} {mk : List Char → NodePtr} (h : IsExpression e mk)
    {w : List Char} (hw : all_space w = true) (args : List NodePtr) {z : List Char}
    (hl : (args ++ [mk (w ++ ',' :: z)]).length ≠ 3)
    {tk : CExprTokenizer} (hc : tk.str_cur = e ++ (w ++ ',' :: z)) (he : tk.str_end = []) :
    ∃ tk1, tk1.str_cur = z ∧ tk1.str_end = [] ∧ tk1.is_valid = tk.is_valid ∧
      ∀ r, RunArgs (args ++ [mk (w ++ ',' :: z)]) (cexpr_parse_next_token tk1) r →
        RunArgs args (cexpr_parse_next_token tk) r := by
  obtain ⟨s1, r1, sc1, sn1, sv1⟩ := h.2 (w ++ ',' :: z) tk
    (follow3_space_append hw (follow3_separator (Or.inr rfl) z)) hc he
  obtain ⟨a, c, n, v⟩ := next_char_after_space sn1 sc1 hw (c := ',') (by decide)
  exact ⟨cexpr_parse_next_token s1, c, n, by rw [v, sv1], fun r hr => runargs_more r1 a hl hr⟩

/-- An identifier, `(`, and an argument list that the argument loop accepts up to its `)`, are
a primary: the node that `cexpr_make_call` builds. -/
theorem call_is_primary {f : List Char} (hf : is_identifier f = true) {w0 : List Char}
    (hw0 : all_space w0 = true) {t : List Char} (ht : no_nul t = true)
    {m : List Char → List NodePtr} {mknode : List Char → NodePtr}
    (hnode : ∀ rest tk, (cexpr_make_call (f ++ (w0 ++ '(' :: (t ++ rest))) f.length
      (m rest) tk) = (mknode rest, tk))
    (hargs : ∀ rest tk, tk.str_cur = t ++ rest → tk.str_end = [] →
      ∃ tk1, RunArgs [] (cexpr_parse_next_token tk) (m rest, cexpr_parse_next_token tk1) ∧
        tk1.str_cur = rest ∧ tk1.str_end = [] ∧ tk1.is_valid = tk.is_valid) :
    IsPrimary (f ++ (w0 ++ '(' :: t)) mknode := by
  refine ⟨by rw [no_nul_append, no_nul_append, no_nul_cons, identifier_no_nul hf,
    all_space_no_nul hw0, ht]; rfl, ?_⟩
  intro rest tk _ hc he
  have hc' : tk.str_cur = f ++ (w0 ++ '(' :: (t ++ rest)) := by
    rw [hc]; simp only [List.append_assoc, List.cons_append]
  have e1 := next_token_id he hc' hf (stops_paren_after_space hw0 _)
  have t1 : (cexpr_parse_next_token tk).cur_token_type = TK_ID := by rw [e1]
  have c1 : (cexpr_parse_next_token tk).str_cur = w0 ++ '(' :: (t ++ rest) := by rw [e1]
  have n1 : (cexpr_parse_next_token tk).str_end = [] := by rw [next_token_str_end, he]
  have b1 : (cexpr_parse_next_token tk).id_token_begin = f ++ (w0 ++ '(' :: (t ++ rest)) := by
    rw [e1]
  have l1 : (cexpr_parse_next_token tk).id_token_length = f.length := by rw [e1]
  have v1 : (cexpr_parse_next_token tk).is_valid = tk.is_valid := next_token_is_valid tk
  generalize cexpr_parse_next_token tk = tk1 at t1 c1 n1 b1 l1 v1
  obtain ⟨a2, c2, n2, v2⟩ := next_char_after_space n1 c1 hw0 (c := '(') (by decide)
  generalize g2 : cexpr_parse_next_token tk1 = tk2 at a2 c2 n2 v2
  obtain ⟨tk3, ra, c3, n3, v3⟩ := hargs rest tk2 c2 n2
  have rc := @run0_call tk1 (cexpr_parse_next_token tk3) (m rest) t1
    (by rw [g2]; exact a2) (by rw [g2]; exact ra)
  rw [b1, l1, hnode] at rc
  exact ⟨tk3, rc, c3, n3, by rw [v3, v2, v1]⟩

theorem call1_is_primary {f : List Char} (hf : is_identifier f = true) {w0 w1 : List Char}
    (hw0 : all_space w0 = true) (hw1 : all_space w1 = true) {e1 : List Char}
    {mk1 : List Char → NodePtr} (h1 : IsExpression e1 mk1) :
    IsPrimary (f ++ (w0 ++ '(' :: (e1 ++ (w1 ++ [')']))))
      (fun rest => .function_call1 (f ++ (w0 ++ '(' :: (e1 ++ (w1 ++ ')' :: rest)))) f.length
        (mk1 (w1 ++ ')' :: rest))) := by
  refine call_is_primary hf hw0 (t := e1 ++ (w1 ++ [')']))
    (m := fun rest => [mk1 (w1 ++ ')' :: rest)]) ?_ ?_ ?_
  · rw [no_nul_append, no_nul_append, h1.1, all_space_no_nul hw1]; rfl
  · intro rest tk
    simp only [cexpr_make_call, List.append_assoc, List.cons_append, List.nil_append]
  · intro rest tk hc he
    exact args_last h1 hw1 [] rest
      (by rw [hc]; simp only [List.append_assoc, List.cons_append, List.nil_append]) he

theorem call2_is_primary {f : List Char} (hf : is_identifier f = true) {w0 w1 w2 : List Char}
    (hw0 : all_space w0 = true) (hw1 : all_space w1 = true) (hw2 : all_space w2 = true)
    {e1 e2 : List Char} {mk1 mk2 : List Char → NodePtr} (h1 : IsExpression e1 mk1)
    (h2 : IsExpression e2 mk2) :
    IsPrimary (f ++ (w0 ++ '(' :: (e1 ++ (w1 ++ ',' :: (e2 ++ (w2 ++ [')']))))))
      (fun rest => .function_call2
        (f ++ (w0 ++ '(' :: (e1 ++ (w1 ++ ',' :: (e2 ++ (w2 ++ ')' :: rest)))))) f.length
        (mk1 (w1 ++ ',' :: (e2 ++ (w2 ++ ')' :: rest)))) (mk2 (w2 ++ ')' :: rest))) := by
  refine call_is_primary hf hw0 (t := e1 ++ (w1 ++ ',' :: (e2 ++ (w2 ++ [')']))))
    (m := fun rest => [mk1 (w1 ++ ',' :: (e2 ++ (w2 ++ ')' :: rest))),
      mk2 (w2 ++ ')' :: rest)]) ?_ ?_ ?_
  · rw [no_nul_append, no_nul_append, no_nul_cons, no_nul_append, no_nul_append, h1.1, h2.1,
      all_space_no_nul hw1, all_space_no_nul hw2]; rfl
  · intro rest tk
    simp only [cexpr_make_call, List.append_assoc, List.cons_append, List.nil_append]
  · intro rest tk hc he
    obtain ⟨tk1, c1, n1, v1, k1⟩ := args_more h1 hw1 []
      (z := e2 ++ (w2 ++ ')' :: rest)) (by simp)
      (by rw [hc]; simp only [List.append_assoc, List.cons_append, List.nil_append]) he
    obtain ⟨tk2, r2, c2, n2, v2⟩ := args_last h2 hw2
      ([] ++ [mk1 (w1 ++ ',' :: (e2 ++ (w2 ++ ')' :: rest)))]) rest c1 n1
    exact ⟨tk2, k1 _ r2, c2, n2, by rw [v2, v1]⟩

theorem call3_is_primary {f : List Char} (hf : is_identifier f = true)
    {w0 w1 w2 w3 : List Char} (hw0 : all_space w0 = true) (hw1 : all_space w1 = true)
    (hw2 : all_space w2 = true) (hw3 : all_space w3 = true) {e1 e2 e3 : List Char}
    {mk1 mk2 mk3 : List Char → NodePtr} (h1 : IsExpression e1 mk1) (h2 : IsExpression e2 mk2)
    (h3 : IsExpression e3 mk3) :
    IsPrimary
      (f ++ (w0 ++ '(' :: (e1 ++ (w1 ++ ',' :: (e2 ++ (w2 ++ ',' :: (e3 ++ (w3 ++ [')']))))))))
      (fun rest => .function_call3
        (f ++ (w0 ++ '(' :: (e1 ++ (w1 ++ ',' :: (e2 ++ (w2 ++ ',' ::
          (e3 ++ (w3 ++ ')' :: rest)))))))) f.length
        (mk1 (w1 ++ ',' :: (e2 ++ (w2 ++ ',' :: (e3 ++ (w3 ++ ')' :: rest))))))
        (mk2 (w2 ++ ',' :: (e3 ++ (w3 ++ ')' :: rest)))) (mk3 (w3 ++ ')' :: rest))) := by
  refine call_is_primary hf hw0
    (t := e1 ++ (w1 ++ ',' :: (e2 ++ (w2 ++ ',' :: (e3 ++ (w3 ++ [')']))))))
    (m := fun rest => [mk1 (w1 ++ ',' :: (e2 ++ (w2 ++ ',' :: (e3 ++ (w3 ++ ')' :: rest))))),
      mk2 (w2 ++ ',' :: (e3 ++ (w3 ++ ')' :: rest))), mk3 (w3 ++ ')' :: rest)]) ?_ ?_ ?_
  · rw [no_nul_append, no_nul_append, no_nul_cons, no_nul_append, no_nul_append, no_nul_cons,
      no_nul_append, no_nul_append, h1.1, h2.1, h3.1, all_space_no_nul hw1,
      all_space_no_nul hw2, all_space_no_nul hw3]; rfl
  · intro rest tk
    simp only [cexpr_make_call, List.append_assoc, List.cons_append, List.nil_append]
  · intro rest tk hc he
    obtain ⟨tk1, c1, n1, v1, k1⟩ := args_more h1 hw1 []
      (z := e2 ++ (w2 ++ ',' :: (e3 ++ (w3 ++ ')' :: rest)))) (by simp)
      (by rw [hc]; simp only [List.append_assoc, List.cons_append, List.nil_append]) he
    obtain ⟨tk2, c2, n2, v2, k2⟩ := args_more h2 hw2
      ([] ++ [mk1 (w1 ++ ',' :: (e2 ++ (w2 ++ ',' :: (e3 ++ (w3 ++ ')' :: rest)))))])
      (z := e3 ++ (w3 ++ ')' :: rest)) (by simp) c1 n1
    obtain ⟨tk3, r3, c3, n3, v3⟩ := args_last h3 hw3
      ([] ++ [mk1 (w1 ++ ',' :: (e2 ++ (w2 ++ ',' :: (e3 ++ (w3 ++ ')' :: rest)))))] ++
        [mk2 (w2 ++ ',' :: (e3 ++ (w3 ++ ')' :: rest)))]) rest c2 n2
    exact ⟨tk3, k1 _ (k2 _ r3), c3, n3, by rw [v3, v2, v1]⟩

/-- C19. Calls are recognised lexically and keep their arguments in order: an identifier `f` in
front of a continuation that does not start, after whitespace, with `(` is a primary with the
variable node of the name slice `f`; and for complete expressions `e1`, `e2`, `e3`, with any
whitespace between the tokens, the texts `f(e1)`, `f(e1,e2)` and `f(e1,e2,e3)` are primaries
with the call nodes of one, two and three arguments, of the name slice `f` and the nodes of the
arguments in their order. So alone in the text they parse to these nodes. -/
theorem calls_keep_arguments_in_order (f : List Char) (hf : is_identifier f = true)
    (w0 w1 w2 w3 : List Char) (hw0 : all_space w0 = true) (hw1 : all_space w1 = true)
    (hw2 : all_space w2 = true) (hw3 : all_space w3 = true) (e1 e2 e3 : List Char)
    (mk1 mk2 mk3 : List Char → NodePtr) (h1 : IsExpression e1 mk1) (h2 : IsExpression e2 mk2)
    (h3 : IsExpression e3 mk3) :
    IsPrimary f (fun rest => .variable (f ++ rest) f.length) ∧
    IsPrimary (f ++ (w0 ++ '(' :: (e1 ++ (w1 ++ [')']))))
      (fun rest => .function_call1 (f ++ (w0 ++ '(' :: (e1 ++ (w1 ++ ')' :: rest)))) f.length
        (mk1 (w1 ++ ')' :: rest))) ∧
    IsPrimary (f ++ (w0 ++ '(' :: (e1 ++ (w1 ++ ',' :: (e2 ++ (w2 ++ [')']))))))
      (fun rest => .function_call2
        (f ++ (w0 ++ '(' :: (e1 ++ (w1 ++ ',' :: (e2 ++ (w2 ++ ')' :: rest)))))) f.length
        (mk1 (w1 ++ ',' :: (e2 ++ (w2 ++ ')' :: rest)))) (mk2 (w2 ++ ')' :: rest))) ∧
    IsPrimary
      (f ++ (w0 ++ '(' :: (e1 ++ (w1 ++ ',' :: (e2 ++ (w2 ++ ',' :: (e3 ++ (w3 ++ [')']))))))))
      (fun rest => .function_call3
        (f ++ (w0 ++ '(' :: (e1 ++ (w1 ++ ',' :: (e2 ++ (w2 ++ ',' ::
          (e3 ++ (w3 ++ ')' :: rest)))))))) f.length
        (mk1 (w1 ++ ',' :: (e2 ++ (w2 ++ ',' :: (e3 ++ (w3 ++ ')' :: rest))))))
        (mk2 (w2 ++ ',' :: (e3 ++ (w3 ++ ')' :: rest)))) (mk3 (w3 ++ ')' :: rest))) ∧
    cexpr_parse_expression f = .variable f f.length ∧
    cexpr_parse_expression (f ++ (w0 ++ '(' :: (e1 ++ (w1 ++ [')'])))) =
      .function_call1 (f ++ (w0 ++ '(' :: (e1 ++ (w1 ++ [')'])))) f.length (mk1 (w1 ++ [')'])) ∧
    cexpr_parse_expression (f ++ (w0 ++ '(' :: (e1 ++ (w1 ++ ',' :: (e2 ++ (w2 ++ [')'])))))) =
      .function_call2 (f ++ (w0 ++ '(' :: (e1 ++ (w1 ++ ',' :: (e2 ++ (w2 ++ [')'])))))) f.length
        (mk1 (w1 ++ ',' :: (e2 ++ (w2 ++ [')'])))) (mk2 (w2 ++ [')'])) ∧
    cexpr_parse_expression
        (f ++ (w0 ++ '(' :: (e1 ++ (w1 ++ ',' :: (e2 ++ (w2 ++ ',' :: (e3 ++ (w3 ++ [')'])))))))) =
      .function_call3
        (f ++ (w0 ++ '(' :: (e1 ++ (w1 ++ ',' :: (e2 ++ (w2 ++ ',' :: (e3 ++ (w3 ++ [')']))))))))
        f.length (mk1 (w1 ++ ',' :: (e2 ++ (w2 ++ ',' :: (e3 ++ (w3 ++ [')']))))))
        (mk2 (w2 ++ ',' :: (e3 ++ (w3 ++ [')'])))) (mk3 (w3 ++ [')'])) := by
  have p0 := identifier_is_primary hf
  have p1 := call1_is_primary hf hw0 hw1 h1
  have p2 := call2_is_primary hf hw0 hw1 hw2 h1 h2
  have p3 := call3_is_primary hf hw0 hw1 hw2 hw3 h1 h2 h3
  refine ⟨p0, p1, p2, p3, ?_, parse_expression_of_accepts (primary_is_expression p1),
    parse_expression_of_accepts (primary_is_expression p2),
    parse_expression_of_accepts (primary_is_expression p3)⟩
  have := parse_expression_of_accepts (primary_is_expression p0)
  simpa only [List.append_nil] using this

theorem calls_keep_arguments_in_order_witness :
    cexpr_parse_expression "sqrt(2  )".toList =
      .function_call1 "sqrt(2  )".toList 4 (.literal (strtod "2".toList).1) ∧
    cexpr_parse_expression "sqrt (2  , x)".toList =
      .function_call2 "sqrt (2  , x)".toList 4 (.literal (strtod "2".toList).1)
        (.variable "x)".toList 1) :=
  ⟨(calls_keep_arguments_in_order "sqrt".toList (by decide) [] "  ".toList [] []
      (by decide) (by decide) (by decide) (by decide) "2".toList " x".toList "1+2".toList
      _ _ _ (number_is_primary (by decide) |> primary_is_expression)
      (accepts_space_left (primary_is_expression (identifier_is_primary
        (a := "x".toList) (by decide))) (w := " ".toList) (by decide))
      one_plus_two_is_expression).2.2.2.2.2.1,
    (calls_keep_arguments_in_order "sqrt".toList (by decide) " ".toList "  ".toList [] []
      (by decide) (by decide) (by decide) (by decide) "2".toList " x".toList "1+2".toList
      _ _ _ (number_is_primary (by decide) |> primary_is_expression)
      (accepts_space_left (primary_is_expression (identifier_is_primary
        (a := "x".toList) (by decide))) (w := " ".toList) (by decide))
      one_plus_two_is_expression).2.2.2.2.2.2.1⟩

/-! ## The range of the tokenizer -/

/-- C16 fails on the code. The number token is read with `strtod`, which scans to the end of
the buffer and not to `str_end`: the buffer `123` with the length 1 parses to the literal of
`123`, the cursor is then past `str_end` (nothing is left at the cursor, two characters are left
at `str_end`), and of the buffers `12+` and `1`, which agree on their first character, the
first parses with the length 1 to the null root and the second to a literal. -/
theorem number_token_reads_past_end :
    cexpr_parse_expression_len "123".toList 1 = .literal (strtod "123".toList).1 ∧
    (cexpr_parse_next_token (cexpr_tokenizer_init "123".toList 1)).str_cur = [] ∧
    (cexpr_parse_next_token (cexpr_tokenizer_init "123".toList 1)).str_end = "23".toList ∧
    cexpr_parse_expression_len "12+".toList 1 = .null ∧
    cexpr_parse_expression_len "1".toList 1 = .literal (strtod "1".toList).1 ∧
    cexpr_parse_expression "1".toList = .literal (strtod "1".toList).1 :=
  ⟨rfl, rfl, rfl, rfl, rfl, rfl⟩

/-! ## Building an executor -/

theorem memcpy_at_some {α : Type} {sz : Nat} {dst src r : List α} {off n : Nat}
    (h : memcpy_at sz dst off src n = some r) :
    r = dst.take off ++ src.take n ++ dst.drop (off + n) ∧ n * sz < 2 ^ 64 ∧ n ≤ src.length ∧
      off + n ≤ dst.length := by
  unfold memcpy_at at h
  by_cases c : n * sz < 2 ^ 64 ∧ n ≤ src.length ∧ off + n ≤ dst.length
  · rw [if_pos c] at h
    exact ⟨(Option.some.inj h).symm, c⟩
  · rw [if_neg c] at h
    exact Option.noConfusion h

theorem memcpy_at_length {α : Type} {sz : Nat} {dst src r : List α} {off n : Nat}
    (h : memcpy_at sz dst off src n = some r) : r.length = dst.length := by
  obtain ⟨rfl, _, h2, h3⟩ := memcpy_at_some h
  simp only [List.length_append, List.length_take, List.length_drop]
  omega

theorem memcpy_at_take {α : Type} {sz : Nat} {dst src r : List α} {off n : Nat}
    (h : memcpy_at sz dst off src n = some r) :
    r.take (off + n) = dst.take off ++ src.take n := by
  obtain ⟨rfl, _, h2, h3⟩ := memcpy_at_some h
  have hl : (dst.take off ++ src.take n).length = off + n := by
    simp only [List.length_append, List.length_take]
    omega
  rw [← hl, List.take_left]

theorem memcpy_at_ok {α : Type} (sz : Nat) (dst src : List α) (off n : Nat)
    (h1 : n * sz < 2 ^ 64) (h2 : n ≤ src.length) (h3 : off + n ≤ dst.length) :
    ∃ r, memcpy_at sz dst off src n = some r := by
  unfold memcpy_at
  rw [if_pos ⟨h1, h2, h3⟩]
  exact ⟨_, rfl⟩

theorem malloc_array_some {α : Type} {fresh : Nat → α} {count sz : Nat} {arr : List α}
    (h : malloc_array fresh count sz = some arr) : arr.length = count := by
  unfold malloc_array at h
  by_cases c : count * sz < 2 ^ 64
  · rw [if_pos c] at h
    rw [← Option.some.inj h]
    simp
  · rw [if_neg c] at h
    exact Option.noConfusion h

theorem malloc_array_fits {α : Type} {fresh : Nat → α} {count sz : Nat} {arr : List α}
    (h : malloc_array fresh count sz = some arr) : count * sz < 2 ^ 64 := by
  unfold malloc_array at h
  by_cases c : count * sz < 2 ^ 64
  · exact c
  · rw [if_neg c] at h
    exact Option.noConfusion h

theorem malloc_array_ok {α : Type} (fresh : Nat → α) (count sz : Nat)
    (h : count * sz < 2 ^ 64) : ∃ arr, malloc_array fresh count sz = some arr := by
  unfold malloc_array
  rw [if_pos h]
  exact ⟨_, rfl⟩

theorem new_size_ge (capacity needed : Nat) :
    needed ≤ cexpr_new_size capacity needed ∧ 64 ≤ cexpr_new_size capacity needed := by
  unfold cexpr_new_size
  dsimp only
  split_ifs <;> omega

theorem new_size_le (capacity needed : Nat) :
    cexpr_new_size capacity needed ≤ max (max (capacity * 2) 64) needed := by
  unfold cexpr_new_size
  dsimp only
  have := Nat.mod_le (capacity * 2) (2 ^ 64)
  split_ifs <;> omega

/-- What the resize block leaves: an array of `new_size` elements whose first `size` elements
are those of the old array. -/
theorem resized_array_some {α : Type} {fresh : Nat → α} {sz : Nat} {m : Option (List α)}
    {size new_size : Nat} {arr : List α}
    (h : cexpr_resized_array fresh sz m size new_size = some arr)
    (hs : size ≤ (m.getD []).length) :
    arr.length = new_size ∧ arr.take size = (m.getD []).take size := by
  unfold cexpr_resized_array at h
  cases hm : malloc_array fresh new_size sz with
  | none => simp [hm] at h
  | some new_arr =>
    have hl := malloc_array_some hm
    cases m with
    | none =>
      simp only [hm] at h
      have h0 : size = 0 := by simpa using hs
      rw [← Option.some.inj h, h0]
      exact ⟨hl, rfl⟩
    | some old =>
      simp only [hm] at h
      refine ⟨by rw [memcpy_at_length h, hl], ?_⟩
      have := memcpy_at_take h
      simpa using this

theorem resized_array_fits {α : Type} {fresh : Nat → α} {sz : Nat} {m : Option (List α)}
    {size new_size : Nat} {arr : List α}
    (h : cexpr_resized_array fresh sz m size new_size = some arr) : new_size * sz < 2 ^ 64 := by
  unfold cexpr_resized_array at h
  cases hm : malloc_array fresh new_size sz with
  | none => simp [hm] at h
  | some new_arr => exact malloc_array_fits hm

theorem resized_array_ok {α : Type} (fresh : Nat → α) (sz : Nat) (m : Option (List α))
    (size new_size : Nat) (h1 : new_size * sz < 2 ^ 64) (h2 : size ≤ new_size)
    (hs : size ≤ (m.getD []).length) :
    ∃ arr, cexpr_resized_array fresh sz m size new_size = some arr := by
  unfold cexpr_resized_array
  obtain ⟨new_arr, hm⟩ := malloc_array_ok fresh new_size sz h1
  have hl := malloc_array_some hm
  cases m with
  | none => exact ⟨new_arr, by simp [hm]⟩
  | some old =>
    simp only [hm]
    exact memcpy_at_ok sz new_arr old 0 size
      (lt_of_le_of_lt (Nat.mul_le_mul_right sz h2) h1) (by simpa using hs) (by omega)

/-- What an append leaves in the array of a table, when it returns: the array has room for the
new size, and its first elements are the old entries and then the batch. -/
theorem table_append_some {α : Type} {fresh : Nat → α} {sz : Nat} {m : Option (List α)}
    {size c count : Nat} {batch arr arr1 : List α}
    (h1 : (if (decide (c < (size + count) % 2 ^ 64) || m.isNone) = true then
        cexpr_resized_array fresh sz m size (cexpr_new_size c ((size + count) % 2 ^ 64))
      else m) = some arr)
    (h2 : memcpy_at sz arr size batch count = some arr1)
    (hs : size ≤ (m.getD []).length) :
    size + count ≤ arr1.length ∧
      arr1.take (size + count) = (m.getD []).take size ++ batch.take count ∧
      arr1.length = (if (decide (c < (size + count) % 2 ^ 64) || m.isNone) = true then
        cexpr_new_size c ((size + count) % 2 ^ 64) else (m.getD []).length) ∧
      ((decide (c < (size + count) % 2 ^ 64) || m.isNone) = true →
        cexpr_new_size c ((size + count) % 2 ^ 64) * sz < 2 ^ 64) := by
  obtain ⟨_, _, _, h3⟩ := memcpy_at_some h2
  have hl := memcpy_at_length h2
  have ht := memcpy_at_take h2
  by_cases hcase : (decide (c < (size + count) % 2 ^ 64) || m.isNone) = true
  · rw [if_pos hcase] at h1 ⊢
    obtain ⟨g1, g2⟩ := resized_array_some h1 hs
    exact ⟨by omega, by rw [ht, g2], by rw [hl, g1], fun _ => resized_array_fits h1⟩
  · rw [if_neg hcase] at h1 ⊢
    subst h1
    exact ⟨by omega, by rw [ht]; rfl, by rw [hl]; rfl, fun hc => absurd hc hcase⟩

/-- An append to a table that admits it returns. -/
theorem table_append_ok {α : Type} (fresh : Nat → α) (sz : Nat) (m : Option (List α))
    (size cap count : Nat) (batch : List α) (hc : count ≤ batch.length)
    (ha : table_admits m size cap count sz) (hsz : 0 < sz) (h64 : 64 * sz < 2 ^ 64) :
    (size + count) % 2 ^ 64 = size + count ∧
    ∃ arr arr1, (if (decide (cap < (size + count) % 2 ^ 64) || m.isNone) = true then
        cexpr_resized_array fresh sz m size (cexpr_new_size cap ((size + count) % 2 ^ 64))
      else m) = some arr ∧ memcpy_at sz arr size batch count = some arr1 := by
  obtain ⟨a1, a2, a3, a4⟩ := ha
  have hlt : size + count < 2 ^ 64 := lt_of_le_of_lt (Nat.le_mul_of_pos_right _ hsz) a3
  have hmod : (size + count) % 2 ^ 64 = size + count := Nat.mod_eq_of_lt hlt
  refine ⟨hmod, ?_⟩
  rw [hmod]
  have hcount : count * sz < 2 ^ 64 :=
    lt_of_le_of_lt (Nat.mul_le_mul_right sz (Nat.le_add_left count size)) a3
  by_cases c : (decide (cap < size + count) || m.isNone) = true
  · rw [if_pos c]
    have hn := new_size_ge cap (size + count)
    have hle := new_size_le cap (size + count)
    have hfit : cexpr_new_size cap (size + count) * sz < 2 ^ 64 := by
      refine lt_of_le_of_lt (Nat.mul_le_mul_right sz hle) ?_
      rcases le_total (max (cap * 2) 64) (size + count) with h | h
      · rw [max_eq_right h]; exact a3
      · rw [max_eq_left h]
        rcases le_total (cap * 2) 64 with h' | h'
        · rw [max_eq_right h']; exact h64
        · rw [max_eq_left h']; exact a4
    obtain ⟨arr, harr⟩ := resized_array_ok fresh sz m size (cexpr_new_size cap (size + count))
      hfit (by omega) a1
    obtain ⟨g1, _⟩ := resized_array_some harr a1
    obtain ⟨arr1, h1⟩ := memcpy_at_ok sz arr batch size count hcount hc (by omega)
    exact ⟨arr, arr1, harr, h1⟩
  · rw [if_neg c]
    simp only [Bool.or_eq_true, decide_eq_true_eq, not_or, not_lt, Option.isNone_iff_eq_none]
      at c
    cases m with
    | none => exact absurd rfl c.2
    | some old =>
      simp only [Option.getD_some] at a2
      obtain ⟨arr1, h1⟩ := memcpy_at_ok sz old batch size count hcount hc (by omega)
      exact ⟨old, arr1, rfl, h1⟩

theorem add_variables_some {fresh : Nat → CExprVariableBindDesc} {e e1 : CExprExecutor}
    {batch : List CExprVariableBindDesc} {n : Nat}
    (h : cexpr_executor_add_variables fresh e (some batch) n = some e1) (hn : n ≠ 0)
    (hs : e.m_var_size ≤ (e.m_var.getD []).length) :
    ∃ arr1, e1 = { e with m_var := some arr1, m_var_size := (e.m_var_size + n) % 2 ^ 64 } ∧
      e.m_var_size + n ≤ arr1.length ∧
      arr1.take (e.m_var_size + n) = (e.m_var.getD []).take e.m_var_size ++ batch.take n ∧
      arr1.length =
        (if (decide (e.m_var_capacity < (e.m_var_size + n) % 2 ^ 64) || e.m_var.isNone) = true
          then cexpr_new_size e.m_var_capacity ((e.m_var_size + n) % 2 ^ 64)
          else (e.m_var.getD []).length) ∧
      ((decide (e.m_var_capacity < (e.m_var_size + n) % 2 ^ 64) || e.m_var.isNone) = true →
        cexpr_new_size e.m_var_capacity ((e.m_var_size + n) % 2 ^ 64) *
          sizeof_CExprVariableBindDesc < 2 ^ 64) := by
  unfold cexpr_executor_add_variables at h
  simp only [hn, if_false] at h
  split at h
  · exact Option.noConfusion h
  · rename_i arr h1
    split at h
    · exact Option.noConfusion h
    · rename_i arr1 h2
      obtain ⟨g1, g2, g3, g4⟩ := table_append_some (c := e.m_var_capacity) h1 h2 hs
      exact ⟨arr1, (Option.some.inj h).symm, g1, g2, g3, g4⟩

theorem add_variables_ok (fresh : Nat → CExprVariableBindDesc) (e : CExprExecutor)
    (batch : List CExprVariableBindDesc) (n : Nat) (hn : n ≠ 0) (hc : n ≤ batch.length)
    (ha : table_admits e.m_var e.m_var_size e.m_var_capacity n sizeof_CExprVariableBindDesc) :
    ∃ e1, cexpr_executor_add_variables fresh e (some batch) n = some e1 := by
  obtain ⟨_, arr, arr1, h1, h2⟩ := table_append_ok fresh sizeof_CExprVariableBindDesc e.m_var
    e.m_var_size e.m_var_capacity n batch hc ha (by decide) (by decide)
  cases hr : cexpr_executor_add_variables fresh e (some batch) n with
  | some e1 => exact ⟨e1, rfl⟩
  | none =>
    exfalso
    unfold cexpr_executor_add_variables at hr
    simp only [hn, if_false] at hr
    split at hr
    · rename_i g1
      exact Option.noConfusion (g1.symm.trans h1)
    · rename_i arr0 g1
      have : arr0 = arr := Option.some.inj (g1.symm.trans h1)
      subst this
      split at hr
      · rename_i g2
        exact Option.noConfusion (g2.symm.trans h2)
      · exact Option.noConfusion hr

theorem add_constants_some {fresh : Nat → CExprConstantBindDesc} {e e1 : CExprExecutor}
    {batch : List CExprConstantBindDesc} {n : Nat}
    (h : cexpr_executor_add_constants fresh e (some batch) n = some e1) (hn : n ≠ 0)
    (hs : e.m_const_size ≤ (e.m_const.getD []).length) :
    ∃ arr1, e1 = { e with m_const := some arr1
                          m_const_capacity :=
                            (if (decide (e.m_const_capacity < (e.m_const_size + n) % 2 ^ 64) ||
                                e.m_const.isNone) = true
                              then cexpr_new_size e.m_const_capacity
                                ((e.m_const_size + n) % 2 ^ 64)
                              else e.m_const_capacity)
                          m_const_size := (e.m_const_size + n) % 2 ^ 64 } ∧
      e.m_const_size + n ≤ arr1.length ∧
      arr1.take (e.m_const_size + n) =
        (e.m_const.getD []).take e.m_const_size ++ batch.take n ∧
      arr1.length =
        (if (decide (e.m_const_capacity < (e.m_const_size + n) % 2 ^ 64) ||
            e.m_const.isNone) = true
          then cexpr_new_size e.m_const_capacity ((e.m_const_size + n) % 2 ^ 64)
          else (e.m_const.getD []).length) ∧
      ((decide (e.m_const_capacity < (e.m_const_size + n) % 2 ^ 64) || e.m_const.isNone) = true →
        cexpr_new_size e.m_const_capacity ((e.m_const_size + n) % 2 ^ 64) *
          sizeof_CExprConstantBindDesc < 2 ^ 64) := by
  unfold cexpr_executor_add_constants at h
  simp only [hn, if_false] at h
  split at h
  · exact Option.noConfusion h
  · rename_i arr h1
    split at h
    · exact Option.noConfusion h
    · rename_i arr1 h2
      obtain ⟨g1, g2, g3, g4⟩ := table_append_some (c := e.m_const_capacity) h1 h2 hs
      exact ⟨arr1, (Option.some.inj h).symm, g1, g2, g3, g4⟩

theorem add_constants_ok (fresh : Nat → CExprConstantBindDesc) (e : CExprExecutor)
    (batch : List CExprConstantBindDesc) (n : Nat) (hn : n ≠ 0) (hc : n ≤ batch.length)
    (ha : table_admits e.m_const e.m_const_size e.m_const_capacity n
      sizeof_CExprConstantBindDesc) :
    ∃ e1, cexpr_executor_add_constants fresh e (some batch) n = some e1 := by
  obtain ⟨_, arr, arr1, h1, h2⟩ := table_append_ok fresh sizeof_CExprConstantBindDesc e.m_const
    e.m_const_size e.m_const_capacity n batch hc ha (by decide) (by decide)
  cases hr : cexpr_executor_add_constants fresh e (some batch) n with
  | some e1 => exact ⟨e1, rfl⟩
  | none =>
    exfalso
    unfold cexpr_executor_add_constants at hr
    simp only [hn, if_false] at hr
    split at hr
    · rename_i g1
      exact Option.noConfusion (g1.symm.trans h1)
    · rename_i arr0 g1
      have : arr0 = arr := Option.some.inj (g1.symm.trans h1)
      subst this
      split at hr
      · rename_i g2
        exact Option.noConfusion (g2.symm.trans h2)
      · exact Option.noConfusion hr

theorem add_functions_some {fresh : Nat → CExprFunctionBindDesc} {e e1 : CExprExecutor}
    {batch : List CExprFunctionBindDesc} {n : Nat}
    (h : cexpr_executor_add_functions fresh e (some batch) n = some e1) (hn : n ≠ 0)
    (hs : e.m_fun_size ≤ (e.m_fun.getD []).length) :
    ∃ arr1, e1 = { e with m_fun := some arr1, m_fun_size := (e.m_fun_size + n) % 2 ^ 64 } ∧
      e.m_fun_size + n ≤ arr1.length ∧
      arr1.take (e.m_fun_size + n) = (e.m_fun.getD []).take e.m_fun_size ++ batch.take n ∧
      arr1.length =
        (if (decide (e.m_fun_capacity < (e.m_fun_size + n) % 2 ^ 64) || e.m_fun.isNone) = true
          then cexpr_new_size e.m_fun_capacity ((e.m_fun_size + n) % 2 ^ 64)
          else (e.m_fun.getD []).length) ∧
      ((decide (e.m_fun_capacity < (e.m_fun_size + n) % 2 ^ 64) || e.m_fun.isNone) = true →
        cexpr_new_size e.m_fun_capacity ((e.m_fun_size + n) % 2 ^ 64) *
          sizeof_CExprFunctionBindDesc < 2 ^ 64) := by
  unfold cexpr_executor_add_functions at h
  simp only [hn, if_false] at h
  split at h
  · exact Option.noConfusion h
  · rename_i arr h1
    split at h
    · exact Option.noConfusion h
    · rename_i arr1 h2
      obtain ⟨g1, g2, g3, g4⟩ := table_append_some (c := e.m_fun_capacity) h1 h2 hs
      exact ⟨arr1, (Option.some.inj h).symm, g1, g2, g3, g4⟩

theorem add_functions_ok (fresh : Nat → CExprFunctionBindDesc) (e : CExprExecutor)
    (batch : List CExprFunctionBindDesc) (n : Nat) (hn : n ≠ 0) (hc : n ≤ batch.length)
    (ha : table_admits e.m_fun e.m_fun_size e.m_fun_capacity n sizeof_CExprFunctionBindDesc) :
    ∃ e1, cexpr_executor_add_functions fresh e (some batch) n = some e1 := by
  obtain ⟨_, arr, arr1, h1, h2⟩ := table_append_ok fresh sizeof_CExprFunctionBindDesc e.m_fun
    e.m_fun_size e.m_fun_capacity n batch hc ha (by decide) (by decide)
  cases hr : cexpr_executor_add_functions fresh e (some batch) n with
  | some e1 => exact ⟨e1, rfl⟩
  | none =>
    exfalso
    unfold cexpr_executor_add_functions at hr
    simp only [hn, if_false] at hr
    split at hr
    · rename_i g1
      exact Option.noConfusion (g1.symm.trans h1)
    · rename_i arr0 g1
      have : arr0 = arr := Option.some.inj (g1.symm.trans h1)
      subst this
      split at hr
      · rename_i g2
        exact Option.noConfusion (g2.symm.trans h2)
      · exact Option.noConfusion hr

theorem admits_sum_lt {α : Type} {m : Option (List α)} {size cap n sz : Nat}
    (ha : table_admits m size cap n sz) (hsz : 0 < sz) : (size + n) % 2 ^ 64 = size + n :=
  Nat.mod_eq_of_lt (lt_of_le_of_lt (Nat.le_mul_of_pos_right _ hsz) ha.2.2.1)

theorem add_variables_entries (fresh : Nat → CExprVariableBindDesc) (e : CExprExecutor)
    (batch : List CExprVariableBindDesc) (n : Nat) (hn : n ≠ 0) (hc : n ≤ batch.length)
    (ha : table_admits e.m_var e.m_var_size e.m_var_capacity n sizeof_CExprVariableBindDesc) :
    ∃ e1, cexpr_executor_add_variables fresh e (some batch) n = some e1 ∧
      var_entries e1 = var_entries e ++ batch.take n ∧ const_entries e1 = const_entries e ∧
      fun_entries e1 = fun_entries e := by
  obtain ⟨e1, h⟩ := add_variables_ok fresh e batch n hn hc ha
  obtain ⟨arr1, rfl, _, g2, _⟩ := add_variables_some h hn ha.1
  refine ⟨_, h, ?_, rfl, rfl⟩
  simp only [var_entries, Option.getD_some, admits_sum_lt ha (by decide)]
  exact g2

theorem add_constants_entries (fresh : Nat → CExprConstantBindDesc) (e : CExprExecutor)
    (batch : List CExprConstantBindDesc) (n : Nat) (hn : n ≠ 0) (hc : n ≤ batch.length)
    (ha : table_admits e.m_const e.m_const_size e.m_const_capacity n
      sizeof_CExprConstantBindDesc) :
    ∃ e1, cexpr_executor_add_constants fresh e (some batch) n = some e1 ∧
      const_entries e1 = const_entries e ++ batch.take n ∧ var_entries e1 = var_entries e ∧
      fun_entries e1 = fun_entries e := by
  obtain ⟨e1, h⟩ := add_constants_ok fresh e batch n hn hc ha
  obtain ⟨arr1, rfl, _, g2, _⟩ := add_constants_some h hn ha.1
  refine ⟨_, h, ?_, rfl, rfl⟩
  simp only [const_entries, Option.getD_some, admits_sum_lt ha (by decide)]
  exact g2

theorem add_functions_entries (fresh : Nat → CExprFunctionBindDesc) (e : CExprExecutor)
    (batch : List CExprFunctionBindDesc) (n : Nat) (hn : n ≠ 0) (hc : n ≤ batch.length)
    (ha : table_admits e.m_fun e.m_fun_size e.m_fun_capacity n sizeof_CExprFunctionBindDesc) :
    ∃ e1, cexpr_executor_add_functions fresh e (some batch) n = some e1 ∧
      fun_entries e1 = fun_entries e ++ batch.take n ∧ var_entries e1 = var_entries e ∧
      const_entries e1 = const_entries e := by
  obtain ⟨e1, h⟩ := add_functions_ok fresh e batch n hn hc ha
  obtain ⟨arr1, rfl, _, g2, _⟩ := add_functions_some h hn ha.1
  refine ⟨_, h, ?_, rfl, rfl⟩
  simp only [fun_entries, Option.getD_some, admits_sum_lt ha (by decide)]
  exact g2

theorem add_nothing (fv : Nat → CExprVariableBindDesc) (fc : Nat → CExprConstantBindDesc)
    (ff : Nat → CExprFunctionBindDesc) (e : CExprExecutor) :
    (∀ var_desc, cexpr_executor_add_variables fv e var_desc 0 = some e) ∧
    (∀ count, cexpr_executor_add_variables fv e none count = some e) ∧
    (∀ const_desc, cexpr_executor_add_constants fc e const_desc 0 = some e) ∧
    (∀ count, cexpr_executor_add_constants fc e none count = some e) ∧
    (∀ fun_desc, cexpr_executor_add_functions ff e fun_desc 0 = some e) ∧
    (∀ count, cexpr_executor_add_functions ff e none count = some e) := by
  refine ⟨?_, fun _ => rfl, ?_, fun _ => rfl, ?_, fun _ => rfl⟩
  · intro d; cases d <;> rfl
  · intro d; cases d <;> rfl
  · intro d; cases d <;> rfl

/-- C15. Append is concatenation and touches one table only: where the array of a table holds
the entries and at least as many elements as the recorded capacity says, and the byte counts
fit `size_t`, `cexpr_executor_add_variables` with a batch array and a count that is not zero
returns, and afterwards the variable entries are the old ones followed by the first `count`
entries of the batch, in order, and the constant and function entries are the old ones; the same
holds for `cexpr_executor_add_constants` and `cexpr_executor_add_functions` with their tables;
and with the count 0 or a null batch each of the three returns the executor as it was. -/
theorem append_is_concatenation (fv : Nat → CExprVariableBindDesc)
    (fc : Nat → CExprConstantBindDesc) (ff : Nat → CExprFunctionBindDesc) (e : CExprExecutor)
    (bv : List CExprVariableBindDesc) (nv : Nat) (hnv : 0 < nv ∧ nv ≤ bv.length)
    (hv : table_admits e.m_var e.m_var_size e.m_var_capacity nv sizeof_CExprVariableBindDesc)
    (bc : List CExprConstantBindDesc) (nc : Nat) (hnc : 0 < nc ∧ nc ≤ bc.length)
    (hc : table_admits e.m_const e.m_const_size e.m_const_capacity nc
      sizeof_CExprConstantBindDesc)
    (bf : List CExprFunctionBindDesc) (nf : Nat) (hnf : 0 < nf ∧ nf ≤ bf.length)
    (hf : table_admits e.m_fun e.m_fun_size e.m_fun_capacity nf sizeof_CExprFunctionBindDesc) :
    (∃ e1, cexpr_executor_add_variables fv e (some bv) nv = some e1 ∧
      var_entries e1 = var_entries e ++ bv.take nv ∧ const_entries e1 = const_entries e ∧
      fun_entries e1 = fun_entries e) ∧
    (∃ e1, cexpr_executor_add_constants fc e (some bc) nc = some e1 ∧
      const_entries e1 = const_entries e ++ bc.take nc ∧ var_entries e1 = var_entries e ∧
      fun_entries e1 = fun_entries e) ∧
    (∃ e1, cexpr_executor_add_functions ff e (some bf) nf = some e1 ∧
      fun_entries e1 = fun_entries e ++ bf.take nf ∧ var_entries e1 = var_entries e ∧
      const_entries e1 = const_entries e) ∧
    (∀ var_desc, cexpr_executor_add_variables fv e var_desc 0 = some e) ∧
    (∀ count, cexpr_executor_add_variables fv e none count = some e) ∧
    (∀ const_desc, cexpr_executor_add_constants fc e const_desc 0 = some e) ∧
    (∀ count, cexpr_executor_add_constants fc e none count = some e) ∧
    (∀ fun_desc, cexpr_executor_add_functions ff e fun_desc 0 = some e) ∧
    (∀ count, cexpr_executor_add_functions ff e none count = some e) :=
  ⟨add_variables_entries fv e bv nv (by omega) hnv.2 hv,
    add_constants_entries fc e bc nc (by omega) hnc.2 hc,
    add_functions_entries ff e bf nf (by omega) hnf.2 hf, add_nothing fv fc ff e⟩

theorem append_is_concatenation_witness :
    ∃ e1, cexpr_executor_add_variables zero_variables full_executor (some yz_batch) 2 = some e1 ∧
      var_entries e1 = var_entries full_executor ++ yz_batch.take 2 ∧
      const_entries e1 = const_entries full_executor ∧
      fun_entries e1 = fun_entries full_executor :=
  (append_is_concatenation zero_variables zero_constants zero_functions full_executor
    yz_batch 2 ⟨by decide, by decide⟩ ⟨by decide, by decide, by decide, by decide⟩
    [{ name := some "e".toList, value := 2.718281828459045 }] 1 ⟨by decide, by decide⟩
    ⟨by decide, by decide, by decide, by decide⟩
    [{ name := some "pow".toList, f_ptr := some host_pow, args_count := 2 }] 1
    ⟨by decide, by decide⟩ ⟨by decide, by decide, by decide, by decide⟩).1

/-! ## The recorded capacity -/

theorem as_built_init (e0 : CExprExecutor) : as_built (cexpr_executor_init e0) := by
  refine ⟨⟨rfl, ?_, ?_, ?_⟩, ⟨rfl, ?_, ?_, ?_⟩, ⟨rfl, ?_, ?_⟩⟩ <;>
    simp [cexpr_executor_init]

theorem as_built_add_variables {fresh : Nat → CExprVariableBindDesc} {e e1 : CExprExecutor}
    {var_desc : Option (List CExprVariableBindDesc)} {n : Nat} (hb : as_built e)
    (h : cexpr_executor_add_variables fresh e var_desc n = some e1) : as_built e1 := by
  cases var_desc with
  | none => exact (Option.some.inj h) ▸ hb
  | some batch =>
    by_cases hn : n = 0
    · subst hn
      exact (Option.some.inj h) ▸ hb
    · obtain ⟨⟨v1, v2, v3, v4⟩, hf, hc⟩ := hb
      obtain ⟨arr1, rfl, g1, _, g3, g4⟩ := add_variables_some h hn v2
      refine ⟨⟨v1, ?_, ?_, ?_⟩, hf, hc⟩
      · show (e.m_var_size + n) % 2 ^ 64 ≤ arr1.length
        exact le_trans (Nat.mod_le _ _) g1
      · show arr1.length < 2 ^ 64
        rw [g3]
        by_cases c : (decide (e.m_var_capacity < (e.m_var_size + n) % 2 ^ 64) ||
            e.m_var.isNone) = true
        · rw [if_pos c]
          exact lt_of_le_of_lt (Nat.le_mul_of_pos_right _ (by decide)) (g4 c)
        · rw [if_neg c]; exact v3
      · intro _
        show 64 ≤ arr1.length
        rw [g3]
        by_cases c : (decide (e.m_var_capacity < (e.m_var_size + n) % 2 ^ 64) ||
            e.m_var.isNone) = true
        · rw [if_pos c]
          exact (new_size_ge _ _).2
        · rw [if_neg c]
          refine v4 ?_
          simp only [Bool.or_eq_true, not_or, Bool.not_eq_true, Option.isNone_eq_false_iff]
            at c
          exact c.2

theorem as_built_add_functions {fresh : Nat → CExprFunctionBindDesc} {e e1 : CExprExecutor}
    {fun_desc : Option (List CExprFunctionBindDesc)} {n : Nat} (hb : as_built e)
    (h : cexpr_executor_add_functions fresh e fun_desc n = some e1) : as_built e1 := by
  cases fun_desc with
  | none => exact (Option.some.inj h) ▸ hb
  | some batch =>
    by_cases hn : n = 0
    · subst hn
      exact (Option.some.inj h) ▸ hb
    · obtain ⟨hv, ⟨v1, v2, v3, v4⟩, hc⟩ := hb
      obtain ⟨arr1, rfl, g1, _, g3, g4⟩ := add_functions_some h hn v2
      refine ⟨hv, ⟨v1, ?_, ?_, ?_⟩, hc⟩
      · show (e.m_fun_size + n) % 2 ^ 64 ≤ arr1.length
        exact le_trans (Nat.mod_le _ _) g1
      · show arr1.length < 2 ^ 64
        rw [g3]
        by_cases c : (decide (e.m_fun_capacity < (e.m_fun_size + n) % 2 ^ 64) ||
            e.m_fun.isNone) = true
        · rw [if_pos c]
          exact lt_of_le_of_lt (Nat.le_mul_of_pos_right _ (by decide)) (g4 c)
        · rw [if_neg c]; exact v3
      · intro _
        show 64 ≤ arr1.length
        rw [g3]
        by_cases c : (decide (e.m_fun_capacity < (e.m_fun_size + n) % 2 ^ 64) ||
            e.m_fun.isNone) = true
        · rw [if_pos c]
          exact (new_size_ge _ _).2
        · rw [if_neg c]
          refine v4 ?_
          simp only [Bool.or_eq_true, not_or, Bool.not_eq_true, Option.isNone_eq_false_iff]
            at c
          exact c.2

theorem as_built_add_constants {fresh : Nat → CExprConstantBindDesc} {e e1 : CExprExecutor}
    {const_desc : Option (List CExprConstantBindDesc)} {n : Nat} (hb : as_built e)
    (h : cexpr_executor_add_constants fresh e const_desc n = some e1) : as_built e1 := by
  cases const_desc with
  | none => exact (Option.some.inj h) ▸ hb
  | some batch =>
    by_cases hn : n = 0
    · subst hn
      exact (Option.some.inj h) ▸ hb
    · obtain ⟨hv, hf, c1, c2, c3⟩ := hb
      obtain ⟨arr1, rfl, g1, _, g3, g4⟩ := add_constants_some h hn (by omega)
      refine ⟨hv, hf, ?_, ?_, ?_⟩
      · show arr1.length = (if (decide (e.m_const_capacity < (e.m_const_size + n) % 2 ^ 64) ||
            e.m_const.isNone) = true then _ else _)
        rw [g3]
        by_cases c : (decide (e.m_const_capacity < (e.m_const_size + n) % 2 ^ 64) ||
            e.m_const.isNone) = true
        · rw [if_pos c, if_pos c]
        · rw [if_neg c, if_neg c]; exact c1
      · show (e.m_const_size + n) % 2 ^ 64 ≤
          (if (decide (e.m_const_capacity < (e.m_const_size + n) % 2 ^ 64) ||
            e.m_const.isNone) = true then _ else _)
        have hle : (e.m_const_size + n) % 2 ^ 64 ≤ arr1.length :=
          le_trans (Nat.mod_le _ _) g1
        rw [g3] at hle
        by_cases c : (decide (e.m_const_capacity < (e.m_const_size + n) % 2 ^ 64) ||
            e.m_const.isNone) = true
        · rw [if_pos c] at hle ⊢; exact hle
        · rw [if_neg c] at hle ⊢; omega
      · show (if (decide (e.m_const_capacity < (e.m_const_size + n) % 2 ^ 64) ||
            e.m_const.isNone) = true then _ else _) < 2 ^ 64
        by_cases c : (decide (e.m_const_capacity < (e.m_const_size + n) % 2 ^ 64) ||
            e.m_const.isNone) = true
        · rw [if_pos c]
          exact lt_of_le_of_lt (Nat.le_mul_of_pos_right _ (by decide)) (g4 c)
        · rw [if_neg c]; exact c3

theorem as_built_run_calls (fv : Nat → CExprVariableBindDesc)
    (fc : Nat → CExprConstantBindDesc) (ff : Nat → CExprFunctionBindDesc)
    (cs : List ExecutorCall) :
    ∀ e e1, as_built e → run_calls fv fc ff e cs = some e1 → as_built e1 := by
  induction cs with
  | nil =>
    intro e e1 hb h
    exact (Option.some.inj h) ▸ hb
  | cons c cs ih =>
    intro e e1 hb h
    rw [run_calls] at h
    cases hc : run_call fv fc ff e c with
    | none => simp [hc] at h
    | some e2 =>
      simp only [hc] at h
      refine ih e2 e1 ?_ h
      cases c with
      | add_variables d n => exact as_built_add_variables hb hc
      | add_constants d n => exact as_built_add_constants hb hc
      | add_functions d n => exact as_built_add_functions hb hc

/-- C14 fails on the code. After `cexpr_executor_init` and any calls of the three
`cexpr_executor_add_*` functions, `m_var_capacity` and `m_fun_capacity` are 0, while the arrays
of the variable and the function table, once allocated, have at least 64 elements and hold the
recorded number of entries: the resize blocks of `cexpr_executor_add_variables` and
`cexpr_executor_add_functions` do not store `new_size`. Only `cexpr_executor_add_constants`
does: `m_const_capacity` is the number of elements of the array of the constant table, and at
least `m_const_size`. -/
theorem capacity_not_recorded (fv : Nat → CExprVariableBindDesc)
    (fc : Nat → CExprConstantBindDesc) (ff : Nat → CExprFunctionBindDesc)
    (e0 e : CExprExecutor) (calls : List ExecutorCall)
    (h : run_calls fv fc ff (cexpr_executor_init e0) calls = some e) :
    e.m_var_capacity = 0 ∧ e.m_fun_capacity = 0 ∧
    (e.m_var.isSome = true → 64 ≤ (e.m_var.getD []).length) ∧
    (e.m_fun.isSome = true → 64 ≤ (e.m_fun.getD []).length) ∧
    e.m_var_size ≤ (e.m_var.getD []).length ∧ e.m_fun_size ≤ (e.m_fun.getD []).length ∧
    (e.m_const.getD []).length = e.m_const_capacity ∧ e.m_const_size ≤ e.m_const_capacity := by
  obtain ⟨⟨v1, v2, _, v4⟩, ⟨f1, f2, _, f4⟩, c1, c2, _⟩ :=
    as_built_run_calls fv fc ff calls _ e (as_built_init e0) h
  exact ⟨v1, f1, v4, f4, v2, f2, c1, c2⟩

theorem capacity_not_recorded_witness :
    ∃ e, run_calls zero_variables zero_constants zero_functions
        (cexpr_executor_init full_executor) [.add_variables (some yz_batch) 2] = some e ∧
      e.m_var_size = 2 ∧ (e.m_var.getD []).length = 64 ∧ e.m_var_capacity = 0 :=
  ⟨_, rfl, rfl, rfl,
    (capacity_not_recorded zero_variables zero_constants zero_functions full_executor _
      [.add_variables (some yz_batch) 2] rfl).1⟩

/-! ## Two signs in front of an operand -/

/-- The parse of a text in whose run level 0 is called at a tokenizer state where it clears
`is_valid` returns the null root. -/
theorem parse_null_of_enters (s : List Char) (len : Nat) (t : CExprTokenizer)
    (ht : ∀ m r0, cexpr_parce_0_level m t = some r0 → r0.2.is_valid = false)
    (hen : enters_3_level (cexpr_parce_fuel s)
      (cexpr_parse_next_token (cexpr_tokenizer_init s len)) t) :
    cexpr_parse_expression_len s len = .null := by
  obtain ⟨r, hr⟩ := cexpr_parce_3_level_total s len
  have hv : r.2.is_valid = false := by
    by_contra hv
    simp only [Bool.not_eq_false] at hv
    exact (enters_fails _ ht _).2.2.2.2.2.2 _ _ hen hr hv
  unfold cexpr_parse_expression_len cexpr_parce_impl
  by_cases hl : len = 0
  · simp [hl]
  · simp [hl, hr, hv]

theorem enters_1_signed {n : Nat} {tk t : CExprTokenizer}
    (hs : (tk.at_char '+' || tk.at_char '-') = true)
    (h : enters_0_level n (cexpr_parse_next_token tk) t) : enters_1_level (n + 1) tk t := by
  rw [enters_1_level]
  simp only [hs, if_true]
  exact h

theorem enters_2_first {n : Nat} {tk t : CExprTokenizer} (h : enters_1_level n tk t) :
    enters_2_level (n + 1) tk t := by
  rw [enters_2_level]
  exact Or.inl h

/-- Level 0 called at a sign clears `is_valid`, with any fuel. -/
theorem level0_at_sign_fails {t : CExprTokenizer}
    (hs : (t.at_char '+' || t.at_char '-') = true) :
    ∀ m r0, cexpr_parce_0_level m t = some r0 → r0.2.is_valid = false :=
  fun m _ hm => run0_sign_fails hs ⟨m, hm⟩

theorem sign_at_char {s : Char} (hs : s = '+' ∨ s = '-') {tk : CExprTokenizer}
    (h : tk.at_char s = true) : (tk.at_char '+' || tk.at_char '-') = true := by
  rcases hs with rfl | rfl <;> simp [h]

theorem double_sign_parse {s1 s2 : Char} (hs1 : s1 = '+' ∨ s1 = '-') (hs2 : s2 = '+' ∨ s2 = '-')
    {ws w rest : List Char} (hws : all_space ws = true) (hw : all_space w = true)
    (hn : no_nul rest = true) :
    cexpr_parse_expression (ws ++ s1 :: (w ++ s2 :: rest)) = .null := by
  have hc1 : is_char_token s1 = true := by rcases hs1 with rfl | rfl <;> decide
  have hc2 : is_char_token s2 = true := by rcases hs2 with rfl | rfl <;> decide
  have hn1 : (s1 != NUL) = true := by rcases hs1 with rfl | rfl <;> decide
  have hn2 : (s2 != NUL) = true := by rcases hs2 with rfl | rfl <;> decide
  have hnn : no_nul (ws ++ s1 :: (w ++ s2 :: rest)) = true := by
    rw [no_nul_append, no_nul_cons, no_nul_append, no_nul_cons, all_space_no_nul hws,
      all_space_no_nul hw, hn1, hn2, hn]
    rfl
  have he := init_str_end hnn
  have hcur : (cexpr_tokenizer_init (ws ++ s1 :: (w ++ s2 :: rest))
      (strlen (ws ++ s1 :: (w ++ s2 :: rest)))).str_cur = ws ++ s1 :: (w ++ s2 :: rest) := rfl
  obtain ⟨a1, c1, e1, _⟩ := next_char_after_space he hcur hws hc1
  obtain ⟨a2, _, _, _⟩ := next_char_after_space e1 c1 hw hc2
  have hfuel : cexpr_parce_fuel (ws ++ s1 :: (w ++ s2 :: rest)) =
      10 * (ws ++ s1 :: (w ++ s2 :: rest)).length + 6 + 1 + 1 + 1 + 1 := by
    unfold cexpr_parce_fuel
    omega
  unfold cexpr_parse_expression
  refine parse_null_of_enters _ _ _ (level0_at_sign_fails (sign_at_char hs2 a2)) ?_
  rw [hfuel]
  exact enters_3_first (enters_2_first (enters_1_signed (sign_at_char hs1 a1)
    (enters_0_self _ _)))

/-- C21. Only one unary sign is accepted: a text that starts, after whitespace, with two signs
(each `+` or `-`, whitespace allowed between them), whatever follows, parses to the null root;
and so does every text in whose run level 0 is entered after a sign at a token that is a sign
again, that is, every text of which some operand begins with two signs. -/
theorem double_sign_rejected (s1 s2 : Char) (hs1 : s1 = '+' ∨ s1 = '-')
    (hs2 : s2 = '+' ∨ s2 = '-') (ws w rest : List Char) (hws : all_space ws = true)
    (hw : all_space w = true) (hn : no_nul rest = true) :
    cexpr_parse_expression (ws ++ [s1] ++ w ++ [s2] ++ rest) = .null ∧
    ∀ (s : List Char) (len : Nat) (tk : CExprTokenizer),
      (tk.at_char '+' || tk.at_char '-') = true →
      ((cexpr_parse_next_token tk).at_char '+' || (cexpr_parse_next_token tk).at_char '-')
        = true →
      enters_3_level (cexpr_parce_fuel s) (cexpr_parse_next_token (cexpr_tokenizer_init s len))
        (cexpr_parse_next_token tk) →
      cexpr_parse_expression_len s len = .null := by
  refine ⟨?_, ?_⟩
  · have := double_sign_parse hs1 hs2 hws hw hn
    simpa only [List.append_assoc, List.cons_append, List.nil_append] using this
  · intro s len tk _ h2 hen
    exact parse_null_of_enters s len _ (level0_at_sign_fails h2) hen

theorem double_sign_rejected_witness :
    cexpr_parse_expression "--x".toList = NodePtr.null ∧
    cexpr_parse_expression " + -(1)".toList = NodePtr.null ∧
    cexpr_parse_expression_len "1*--x".toList 5 = NodePtr.null :=
  ⟨(double_sign_rejected '-' '-' (Or.inr rfl) (Or.inr rfl) [] [] "x".toList (by decide)
      (by decide) (by decide)).1,
    (double_sign_rejected '+' '-' (Or.inl rfl) (Or.inr rfl) " ".toList " ".toList "(1)".toList
      (by decide) (by decide) (by decide)).1,
    (double_sign_rejected '-' '-' (Or.inr rfl) (Or.inr rfl) [] [] [] (by decide) (by decide)
      (by decide)).2 "1*--x".toList 5
      (cexpr_parse_next_token (cexpr_parse_next_token (cexpr_parse_next_token
        (cexpr_tokenizer_init "1*--x".toList 5)))) rfl rfl
      (enters_3_first (n := 59) (@enters_2_in_loop 58 (.literal (strtod "1".toList).1) _
        (cexpr_parse_next_token (cexpr_parse_next_token
          (cexpr_tokenizer_init "1*--x".toList 5))) _ rfl
        (enters_2_loop_operand (n := 57) rfl
          (enters_1_signed (n := 56) rfl (enters_0_self 55 _)))))⟩

/-! ## What is left after the top-level expression -/

theorem loop2_ends (n : Nat) : ∀ cur tk r, cexpr_parce_2_loop n cur tk = some r →
    (r.2.at_char '*' || r.2.at_char '/') = false := by
  induction n with
  | zero =>
    intro cur tk r h
    simp [cexpr_parce_2_loop] at h
  | succ n ih =>
    intro cur tk r h
    rw [cexpr_parce_2_loop] at h
    dsimp only at h
    by_cases c1 : (tk.at_char '*' || tk.at_char '/') = true
    · simp only [c1, if_true] at h
      cases hrec : cexpr_parce_1_level n (cexpr_parse_next_token tk) with
      | none => simp [hrec] at h
      | some p =>
        simp only [hrec] at h
        exact ih _ _ _ h
    · simp only [c1, Bool.false_eq_true, if_false, Option.some.injEq] at h
      subst h
      simpa using c1

theorem level2_ends (n : Nat) (tk : CExprTokenizer) (r : NodePtr × CExprTokenizer)
    (h : cexpr_parce_2_level n tk = some r) : (r.2.at_char '*' || r.2.at_char '/') = false := by
  cases n with
  | zero => simp [cexpr_parce_2_level] at h
  | succ n =>
    rw [cexpr_parce_2_level] at h
    cases hrec : cexpr_parce_1_level n tk with
    | none => simp [hrec] at h
    | some p =>
      simp only [hrec] at h
      exact loop2_ends n _ _ _ h

theorem loop3_ends (n : Nat) : ∀ cur tk r, cexpr_parce_3_loop n cur tk = some r →
    (tk.at_char '*' || tk.at_char '/') = false →
    (r.2.at_char '*' || r.2.at_char '/') = false ∧
      (r.2.at_char '+' || r.2.at_char '-') = false := by
  induction n with
  | zero =>
    intro cur tk r h
    simp [cexpr_parce_3_loop] at h
  | succ n ih =>
    intro cur tk r h hm
    rw [cexpr_parce_3_loop] at h
    dsimp only at h
    by_cases c1 : (tk.at_char '+' || tk.at_char '-') = true
    · simp only [c1, if_true] at h
      cases hrec : cexpr_parce_2_level n (cexpr_parse_next_token tk) with
      | none => simp [hrec] at h
      | some p =>
        simp only [hrec] at h
        exact ih _ _ _ h (level2_ends n _ _ hrec)
    · simp only [c1, Bool.false_eq_true, if_false, Option.some.injEq] at h
      subst h
      exact ⟨hm, by simpa using c1⟩

/-- Level 3 stops at a token that is none of the binary operators. -/
theorem level3_ends (n : Nat) (tk : CExprTokenizer) (r : NodePtr × CExprTokenizer)
    (h : cexpr_parce_3_level n tk = some r) :
    (r.2.at_char '*' || r.2.at_char '/') = false ∧
      (r.2.at_char '+' || r.2.at_char '-') = false := by
  cases n with
  | zero => simp [cexpr_parce_3_level] at h
  | succ n =>
    rw [cexpr_parce_3_level] at h
    cases hrec : cexpr_parce_2_level n tk with
    | none => simp [hrec] at h
    | some p =>
      simp only [hrec] at h
      exact loop3_ends n _ _ _ h (level2_ends n _ _ hrec)

/-- The parse of a complete expression in front of a continuation that cannot continue it is
the node of the expression: the continuation is not read. -/
theorem parse_expression_before {e : List Char} {mk : List Char → NodePtr}
    (h : IsExpression e mk) {rest : List Char} (hf : follow3 rest = true)
    (hn : no_nul rest = true) :
    cexpr_parse_expression (e ++ rest) = mk rest ∧ mk rest ≠ .null := by
  have hne := expression_ne_nil h
  have hnn : no_nul (e ++ rest) = true := by rw [no_nul_append, h.1, hn]; rfl
  have hlen : strlen (e ++ rest) ≠ 0 := by
    rw [strlen_no_nul hnn]
    intro h0
    have := List.length_eq_zero.mp h0
    exact hne (List.append_eq_nil.mp this).1
  obtain ⟨tk1, h1, _, _, h4⟩ := h.2 rest (cexpr_tokenizer_init (e ++ rest) (strlen (e ++ rest)))
    hf rfl (init_str_end hnn)
  have hr := cexpr_parce_run_eq h1
  have hv : (cexpr_parse_next_token tk1).is_valid = true := by
    rw [next_token_is_valid, h4]
    rfl
  have hp : cexpr_parse_expression (e ++ rest) = mk rest := by
    unfold cexpr_parse_expression cexpr_parse_expression_len cexpr_parce_impl
    simp only [hlen, if_false, hr, hv]
    rfl
  refine ⟨hp, ?_⟩
  have hw := ((well_formed_aux _).2.2.2.2.2.2 _ _ hr hv).2
  exact well_formed_not_null hw

/-- The texts `1 2`, `1 )` and `a b`, a complete expression and a further token, parse: the
root is not null, and the current token after the expression of `1 2` is the Number token of
`2`, not the End token. -/
theorem trailing_token_parses :
    cexpr_parce_impl "1 2".toList 3 ≠ NodePtr.null ∧
      final_token_type "1 2".toList 3 = some TK_NUMBER ∧
      cexpr_parse_expression "1 )".toList ≠ NodePtr.null ∧
      cexpr_parse_expression "a b".toList ≠ NodePtr.null := by
  have h1 : cexpr_parce_impl "1 2".toList 3 = .literal (strtod "1".toList).1 := by rfl
  have h2 : cexpr_parse_expression "1 )".toList = .literal (strtod "1".toList).1 := by rfl
  have h3 : cexpr_parse_expression "a b".toList = .variable "a b".toList 1 := by rfl
  rw [h1, h2, h3]
  exact ⟨NodePtr.noConfusion, by rfl, NodePtr.noConfusion, NodePtr.noConfusion⟩

/-- C22, as the code has it. A successful parse consumes a complete expression and no more:
after the top-level expression of any text the current token is none of `+ - * /`, but it need
not be the End token; the parse of a complete expression `e` in front of a continuation that
cannot continue it (it does not start with a letter, a digit, `_` or `.`, and its first token
is none of `( + - * /`) is the node of `e`, not null, whatever tokens the continuation
holds. -/
theorem parse_stops_after_expression (e : List Char) (mk : List Char → NodePtr)
    (h : IsExpression e mk) (rest : List Char) (hf : follow3 rest = true)
    (hn : no_nul rest = true) :
    (cexpr_parse_expression (e ++ rest) = mk rest ∧ mk rest ≠ .null) ∧
    ∀ (str : List Char) (len : Nat) (r : NodePtr × CExprTokenizer),
      cexpr_parce_run str len = some r →
      (r.2.at_char '*' || r.2.at_char '/') = false ∧
        (r.2.at_char '+' || r.2.at_char '-') = false :=
  ⟨parse_expression_before h hf hn, fun _ _ r hr => level3_ends _ _ r hr⟩

theorem parse_stops_after_expression_witness :
    (cexpr_parse_expression "1 2".toList = .literal (strtod "1".toList).1 ∧
      NodePtr.literal (strtod "1".toList).1 ≠ NodePtr.null) ∧
    (cexpr_parse_expression "a b".toList = .variable "a b".toList 1 ∧
      NodePtr.variable "a b".toList 1 ≠ NodePtr.null) :=
  ⟨(parse_stops_after_expression "1".toList _ (primary_is_expression
      (number_is_primary (a := "1".toList) (by decide))) " 2".toList (by decide) (by decide)).1,
    (parse_stops_after_expression "a".toList _ (primary_is_expression
      (identifier_is_primary (a := "a".toList) (by decide))) " b".toList (by decide)
      (by decide)).1⟩

/-! ## Evaluating and releasing a failed parse -/

/-- C23. Evaluating a failed parse is a soft failure: with any executor, the null one included,
`cexpr_executor_eval_expr` on the null root returns `NAN`; `cexpr_free_expression` on the null
root calls `free` on nothing; and for every text whose parse returns the null root,
`cexpr_eval` returns `NAN`. -/
theorem failed_parse_is_soft_failure (mem : Nat → Float) (exec : Option CExprExecutor)
    (text : List Char) (h : cexpr_parse_expression text = .null) :
    cexpr_executor_eval_expr mem exec .null = some NAN ∧
      cexpr_free_expression .null = [] ∧
      cexpr_executor_eval_expr mem exec (cexpr_parse_expression text) = some NAN ∧
      cexpr_free_expression (cexpr_parse_expression text) = [] ∧
      cexpr_eval mem text = some NAN := by
  refine ⟨rfl, rfl, ?_, ?_, ?_⟩
  · rw [h]; rfl
  · rw [h]; rfl
  · unfold cexpr_eval
    rw [h]
    rfl

theorem failed_parse_is_soft_failure_witness :
    cexpr_executor_eval_expr abc_memory (some abc_executor) NodePtr.null = some NAN ∧
      cexpr_free_expression NodePtr.null = [] ∧
      cexpr_executor_eval_expr abc_memory (some abc_executor)
        (cexpr_parse_expression "(1+2".toList) = some NAN ∧
      cexpr_free_expression (cexpr_parse_expression "(1+2".toList) = [] ∧
      cexpr_eval abc_memory "(1+2".toList = some NAN :=
  failed_parse_is_soft_failure abc_memory (some abc_executor) "(1+2".toList (by rfl)

/-! ## Tokens that consume nothing -/

/-- A single-character token and an identifier token move the cursor forward. -/
theorem char_and_id_tokens_advance (tk : CExprTokenizer)
    (h : (cexpr_parse_next_token tk).cur_token_type = TK_CHAR ∨
      (cexpr_parse_next_token tk).cur_token_type = TK_ID) :
    (cexpr_parse_next_token tk).str_cur.length < tk.str_cur.length := by
  unfold cexpr_parse_next_token at h ⊢
  dsimp only at h ⊢
  have hle := advance_while_length_le isspace tk.str_end.length tk.str_cur
  generalize advance_while isspace tk.str_end.length tk.str_cur = cur at h hle ⊢
  by_cases c0 : cur.length = tk.str_end.length
  · simp [c0] at h
  simp only [c0, if_false] at h ⊢
  cases cur with
  | nil =>
    simp only [List.headD_nil] at h
    have h1 : is_char_token NUL = false := by decide
    have h2 : (NUL == '.' || isdigit NUL) = false := by decide
    have h3 : (isalpha NUL || NUL == '_') = false := by decide
    simp [h1, h2, h3] at h
  | cons c cs =>
    simp only [List.headD_cons, List.tail_cons] at h ⊢
    by_cases c1 : is_char_token c = true
    · simp only [c1, if_true]
      simp only [List.length_cons] at hle ⊢
      omega
    simp only [c1, Bool.false_eq_true, if_false] at h ⊢
    by_cases c2 : (c == '.' || isdigit c) = true
    · simp [c2] at h
    simp only [c2, Bool.false_eq_true, if_false] at h ⊢
    by_cases c3 : (isalpha c || c == '_') = true
    · simp only [c3, if_true]
      have := advance_while_length_le (fun d => isalnum d || d == '_') tk.str_end.length cs
      simp only [List.length_cons] at hle ⊢
      omega
    · simp [c3] at h

theorem strtod_lone_dot (r : List Char) (hr : isdigit (r.headD NUL) = false) :
    strtod ('.' :: r) = (0, '.' :: r) := by
  have h1 : ('.' :: r).takeWhile isdigit = [] := by
    rw [List.takeWhile_cons]
    have : isdigit '.' = false := by decide
    simp [this]
  have h2 : ('.' :: r).dropWhile isdigit = '.' :: r := by
    rw [List.dropWhile_cons]
    have : isdigit '.' = false := by decide
    simp [this]
  have h3 : r.takeWhile isdigit = [] := by
    cases r with
    | nil => rfl
    | cons d ds =>
      simp only [List.headD_cons] at hr
      rw [List.takeWhile_cons]
      simp [hr]
  unfold strtod
  simp [h1, h2, h3]

/-- A `.` that no digit follows is read as a Number token of the value 0, and the cursor stays
where it is. -/
theorem next_token_lone_dot {k : CExprTokenizer} {r : List Char} (hc : k.str_cur = '.' :: r)
    (hr : isdigit (r.headD NUL) = false) (hend : k.str_end.length < k.str_cur.length) :
    cexpr_parse_next_token k = { k with cur_token_type := TK_NUMBER, number_token_value := 0 } := by
  have hs : isspace '.' = false := by decide
  have ha : advance_while isspace k.str_end.length k.str_cur = '.' :: r := by
    rw [hc, advance_while]
    simp [hs]
  have hl : ¬ (('.' :: r).length = k.str_end.length) := by
    rw [hc] at hend
    omega
  have hct : is_char_token '.' = false := by decide
  unfold cexpr_parse_next_token
  simp only [ha, hl, if_false, List.headD_cons, hct, Bool.false_eq_true, beq_self_eq_true,
    Bool.true_or, if_true, strtod_lone_dot r hr]
  cases k
  simp only at hc
  simp [hc]

/-- C24 fails on the code. A single-character token and an identifier token do move the cursor
forward, but a Number token is produced at every `.`, also where no digit follows: `strtod`
then converts nothing, the value of the token is 0 and the cursor stays on the `.`. So the text
`.` parses to the literal 0. -/
theorem lone_dot_is_number_zero (tk : CExprTokenizer) (r : List Char)
    (hc : tk.str_cur = '.' :: r) (hr : isdigit (r.headD NUL) = false)
    (hend : tk.str_end.length < tk.str_cur.length) :
    cexpr_parse_next_token tk =
      { tk with cur_token_type := TK_NUMBER, number_token_value := 0 } ∧
    (cexpr_parse_next_token tk).str_cur = tk.str_cur ∧
    cexpr_parse_expression ".".toList = .literal 0 ∧
    ∀ k : CExprTokenizer, (cexpr_parse_next_token k).cur_token_type = TK_CHAR ∨
        (cexpr_parse_next_token k).cur_token_type = TK_ID →
      (cexpr_parse_next_token k).str_cur.length < k.str_cur.length := by
  have h := next_token_lone_dot hc hr hend
  refine ⟨h, by rw [h], by rfl, char_and_id_tokens_advance⟩

theorem lone_dot_is_number_zero_witness :
    cexpr_parse_next_token (cexpr_tokenizer_init ". + 1".toList 5) =
      { cexpr_tokenizer_init ". + 1".toList 5 with
        cur_token_type := TK_NUMBER, number_token_value := 0 } ∧
    (cexpr_parse_next_token (cexpr_tokenizer_init ". + 1".toList 5)).str_cur =
      (cexpr_tokenizer_init ". + 1".toList 5).str_cur ∧
    cexpr_parse_expression ".".toList = NodePtr.literal 0 :=
  ⟨(lone_dot_is_number_zero (cexpr_tokenizer_init ". + 1".toList 5) " + 1".toList rfl
      (by decide) (by decide)).1,
    (lone_dot_is_number_zero (cexpr_tokenizer_init ". + 1".toList 5) " + 1".toList rfl
      (by decide) (by decide)).2.1,
    (lone_dot_is_number_zero (cexpr_tokenizer_init ". + 1".toList 5) " + 1".toList rfl
      (by decide) (by decide)).2.2.1⟩

end CExpr
